import Mathlib

/-!
Overload resolution and the expression grammar of rill.

A shallow embedding of `rill/semantic_analysis/analyzer/function_solver.hpp`
(`determine_type_attributes`, `overload_solver` with its two selection
policies, and `overload_solver_with_template`) and of the expression rules of
`rill/syntax_analysis/code_grammer.hpp`, together with the properties of them
that have been established.

Conventions of the embedding.

* An `assert( false )` of the source stops the run.  A run is a value of
  `Except assertion_failure _`; each constructor of `assertion_failure` names
  one assertion site of the source.
* The debug output written to `std::cout` is not modelled.
* The environment operations `get_type_at` and `make_type_id` are recorded in
  a call log, so that "this step performs no type-table lookup" is a statement
  about the log.
-/

namespace rill

/-- Modelled from the spec: `attribute::quality_kind` is declared in a header
that is not part of the sources at hand; the data model gives it the two values
`Val` and `Ref`. -/
inductive quality_kind where
  | k_val
  | k_ref
deriving DecidableEq, Repr

/-- Modelled from the spec: `attribute::modifiability_kind` is declared in a
header that is not part of the sources at hand; the data model gives it the
three values `Mutable`, `Const` and `Immutable`. -/
inductive modifiability_kind where
  | k_mutable
  | k_const
  | k_immutable
deriving DecidableEq, Repr

/-- Modelled from the spec: `attribute::type_attributes`, the pair of a quality
and a modifiability. -/
structure type_attributes where
  quality : quality_kind
  modifiability : modifiability_kind
deriving DecidableEq, Repr

/-- Modelled from the spec: `attributes <<= modifiability` of the attribute
header (not part of the sources at hand) copies the given modifiability onto
the attribute pair and keeps its quality. -/
def set_modifiability (a : type_attributes) (m : modifiability_kind) : type_attributes :=
  ⟨a.quality, m⟩

/-- Modelled from the spec: `attribute::type_attributes_optional` (declared in a
header that is not part of the sources at hand), a partially specified
attribute request: each axis is either requested or absent. -/
structure type_attributes_optional where
  quality : Option quality_kind
  modifiability : Option modifiability_kind
deriving DecidableEq, Repr

/-- Modelled from the spec: `attribute::make_type_attributes` (not part of the
sources at hand) builds the attribute pair from its two components. -/
def make_type_attributes (quality : quality_kind) (modifiability : modifiability_kind) :
    type_attributes :=
  ⟨quality, modifiability⟩

/-- The function `determine_type_attributes`: each axis of the request that is
present is taken, an absent quality becomes `k_val` and an absent modifiability
becomes `k_immutable`. -/
def determine_type_attributes (attr : type_attributes_optional) : type_attributes :=
  make_type_attributes
    (match attr.quality with
      | some quality => quality
      | none => quality_kind.k_val)                   -- default value
    (match attr.modifiability with
      | some modifiability => modifiability
      | none => modifiability_kind.k_immutable)       -- defaut value

/-- The default argument of `determine_type_attributes`, the value-initialised
`attribute::type_attributes_optional()`: nothing is requested. -/
def type_attributes_optional_default : type_attributes_optional :=
  ⟨none, none⟩

/-- Identifier of an entry of the type table (`type_id_t`). -/
abbrev type_id_t := Nat

/-- Identifier of a class environment (`class_env_id`). -/
abbrev environment_id_t := Nat

/-- Modelled from the spec: the dereferenced form of a type id (`type` of the
environment header, not part of the sources at hand): a class identity and an
attribute pair. -/
structure type where
  class_env_id : environment_id_t
  attributes : type_attributes
deriving DecidableEq, Repr

/-- Modelled from the spec: the part of `function_symbol_environment` that
overload resolution reads.  `id` stands for the identity of the environment
object (two signatures with the same parameter type ids are still two
objects); `parameter_type_ids` is what `get_parameter_type_ids()` returns. -/
structure function_symbol_environment where
  id : Nat
  parameter_type_ids : List type_id_t
deriving DecidableEq, Repr

/-- A `function_symbol_environment_ptr`; `none` is `nullptr`. -/
abbrev function_symbol_environment_ptr := Option function_symbol_environment

/-- Modelled from the spec: the type table of the environment (declared in
`environment.hpp`, not part of the sources at hand).  A type id is the index of
its entry. -/
abbrev type_table := List type

/-- Modelled from the spec: `dereference(TypeId) -> ResolvedType`
(`get_type_at`).  An id that names no entry has no dereferenced form. -/
def get_type_at (env : type_table) (type_id : type_id_t) : Option type :=
  env[type_id]?

/-- Modelled from the spec: `make_type_id(ClassId, TypeAttributes) -> TypeId`,
memoized by `(class_identity, attributes)`: the id of the existing entry when
there is one, otherwise the id of a fresh entry appended to the table. -/
def make_type_id (env : type_table) (class_env_id : environment_id_t)
    (attributes : type_attributes) : type_id_t × type_table :=
  let ty : type := ⟨class_env_id, attributes⟩
  if ty ∈ env then (env.indexOf ty, env) else (env.length, env ++ [ty])

/-- The assertion sites of `function_solver.hpp` at which a run can stop, and
the ways the embedding itself can detect a broken precondition. -/
inductive assertion_failure where
  /-- The `assert( false )` under `// mutable -> immutable : INVARID`. -/
  | invalid_mutable_from_immutable
  /-- The `assert( false )` under `case k_const: // TODO: implement`. -/
  | const_target_not_implemented
  /-- The `assert( false && "[ice]" )`. -/
  | ice
  /-- The `assert( false && "Overload failed... [not implemented]")`. -/
  | overload_failed
  /-- The `assert( false && "duplecate?... [not implemented]")`. -/
  | duplicate
  /-- A vector is indexed outside its bounds. -/
  | index_out_of_range
  /-- A type id that names no entry of the type table is dereferenced. -/
  | dangling_type_id
  /-- The `assert( template_args != nullptr )`. -/
  | template_args_is_null
  /-- The `assert( template_ast != nullptr )`. -/
  | template_ast_is_null
  /-- The `assert( function_ast != nullptr )`. -/
  | function_ast_is_null
  /-- The `assert( e.decl_unit.init_unit.type != nullptr ||
  e.decl_unit.init_unit.initializer != nullptr )`. -/
  | parameter_without_type_and_initializer
  /-- The `assert( false )` under `// TODO: implement type inference`. -/
  | type_inference_not_implemented
  /-- The `assert( false && "function return type inference was not supported
  yet" )`. -/
  | return_type_inference_not_supported
  /-- The `assert( generic_function_env != nullptr )`. -/
  | generic_function_env_is_null
  /-- The type resolver `solve_type` does not resolve a type expression. -/
  | unresolved_type
deriving DecidableEq, Repr

/-- A call of an environment operation made by the solver. -/
inductive env_call where
  | get_type_at (type_id : type_id_t)
  | make_type_id (class_env_id : environment_id_t) (attributes : type_attributes)
deriving DecidableEq, Repr

/-- The mutable state of one run of `overload_solver`: the type table behind
`env`, the local vector `holder` (a slot is `none` until it is assigned), the
local vector `f_candidate_envs`, and the log of environment calls. -/
structure solver_state where
  env : type_table
  holder : List (Option type_id_t)
  f_candidate_envs : List function_symbol_environment
  calls : List env_call
deriving DecidableEq, Repr

/-- The inner `switch` on the modifiabilities, entered when a `val` argument
meets a `ref` parameter of another modifiability. -/
def check_modifiability (f_env_modifiability self_modifiability : modifiability_kind) :
    Except assertion_failure Unit :=
  match f_env_modifiability with
  | .k_mutable =>
    match self_modifiability with
    | .k_mutable => .ok ()      -- mutable -> mutable : valid
    | .k_const => .ok ()        -- mutable -> const : valid
    | .k_immutable => .error .invalid_mutable_from_immutable
  | .k_const => .error .const_target_not_implemented
  | .k_immutable => .ok ()

/-- Step 1.1 of the position body, `check quarity comversion`: the value of
`self_arg_type` after the `if` on the two qualities. -/
def convert_quality (f_env_arg_type self_arg_type : type) : Except assertion_failure type :=
  if f_env_arg_type.attributes.quality ≠ self_arg_type.attributes.quality then
    match f_env_arg_type.attributes.quality with
    | .k_ref =>
      match self_arg_type.attributes.quality with
      | .k_val =>
        -- val -> ref conversion
        if f_env_arg_type.attributes.modifiability ≠ self_arg_type.attributes.modifiability then
          match check_modifiability f_env_arg_type.attributes.modifiability
              self_arg_type.attributes.modifiability with
          | .error e => .error e
          | .ok _ =>
            -- copy modifiablity
            .ok ⟨self_arg_type.class_env_id,
              set_modifiability self_arg_type.attributes f_env_arg_type.attributes.modifiability⟩
        else
          .ok self_arg_type
      | .k_ref => .error .ice
    | .k_val =>
      -- All type -> val is convertible at the moment
      .ok f_env_arg_type
  else
    .ok self_arg_type

/-- Step 1 of the position body, `try to attribute check and conversion`: the
value of `self_arg_type` when step 2 is entered, that is after the quality
conversion and the unconditional `self_arg_type.attributes <<= ...` . -/
def convert_attributes (f_env_arg_type self_arg_type : type) : Except assertion_failure type :=
  match convert_quality f_env_arg_type self_arg_type with
  | .error e => .error e
  | .ok converted =>
    .ok ⟨converted.class_env_id,
      set_modifiability converted.attributes f_env_arg_type.attributes.modifiability⟩

/-- The assignment `holder[i] = type_id`. -/
def holder_assign (st : solver_state) (i : Nat) (type_id : type_id_t) :
    Except assertion_failure solver_state :=
  if i < st.holder.length then
    .ok ⟨st.env, st.holder.set i (some type_id), st.f_candidate_envs, st.calls⟩
  else
    .error .index_out_of_range

/-- The body of the position loop for position `i`, parameter type id
`f_env_parameter_type_id` and argument type id `arg_type_id`.  The boolean of
the result is the flag `succeed`. -/
def solve_position (f_env_parameter_type_id arg_type_id : type_id_t) (i : Nat)
    (st : solver_state) : Except assertion_failure (Bool × solver_state) :=
  if f_env_parameter_type_id = arg_type_id then
    -- has same type!
    match holder_assign st i arg_type_id with
    | .error e => .error e
    | .ok st1 => .ok (true, st1)
  else
    -- try to type conversion
    match get_type_at st.env f_env_parameter_type_id, get_type_at st.env arg_type_id with
    | some f_env_arg_type, some self_arg_type0 =>
      -- 1. try to attribute check and conversion
      match convert_attributes f_env_arg_type self_arg_type0 with
      | .error e => .error e
      | .ok self_arg_type =>
        -- 2. class type conversion
        if f_env_arg_type.class_env_id ≠ self_arg_type.class_env_id then
          .ok (false, ⟨st.env, st.holder, st.f_candidate_envs, st.calls ++
            [env_call.get_type_at f_env_parameter_type_id, env_call.get_type_at arg_type_id]⟩)
        else
          -- rewrite
          let made := make_type_id st.env f_env_arg_type.class_env_id f_env_arg_type.attributes
          match holder_assign
              ⟨made.2, st.holder, st.f_candidate_envs, st.calls ++
                [env_call.get_type_at f_env_parameter_type_id, env_call.get_type_at arg_type_id,
                  env_call.make_type_id f_env_arg_type.class_env_id f_env_arg_type.attributes]⟩
              i made.1 with
          | .error e => .error e
          | .ok st1 => .ok (true, st1)
    | _, _ => .error .dangling_type_id

/-- The loop `for( int i=0; i<arg_type_ids.size(); ++i )`: `remaining` is the
number of positions still to visit and `i` the current one.  The loop is left
at the first position that clears `succeed`. -/
def position_loop (f_env_parameter_type_ids arg_type_ids : List type_id_t) :
    Nat → Nat → solver_state → Except assertion_failure (Bool × solver_state)
  | 0, _, st => .ok (true, st)
  | remaining + 1, i, st =>
    match f_env_parameter_type_ids[i]?, arg_type_ids[i]? with
    | some p, some a =>
      match solve_position p a i st with
      | .error e => .error e
      | .ok (true, st1) =>
        position_loop f_env_parameter_type_ids arg_type_ids remaining (i + 1) st1
      | .ok (false, st1) => .ok (false, st1)
    | _, _ => .error .index_out_of_range

/-- The `push_back` onto `f_candidate_envs`. -/
def push_candidate (st : solver_state) (f_env : function_symbol_environment) : solver_state :=
  ⟨st.env, st.holder, st.f_candidate_envs ++ [f_env], st.calls⟩

/-- The body of the loop over `generic_function_env->get_overloads()` for one
candidate `f_env`. -/
def solve_candidate (arg_type_ids : List type_id_t) (f_env : function_symbol_environment)
    (st : solver_state) : Except assertion_failure solver_state :=
  -- argument size is different
  if f_env.parameter_type_ids.length ≠ arg_type_ids.length then
    .ok st
  -- has no argument
  else if f_env.parameter_type_ids.length = 0 then
    .ok (push_candidate st f_env)
  else
    match position_loop f_env.parameter_type_ids arg_type_ids arg_type_ids.length 0 st with
    | .error e => .error e
    | .ok (true, st1) => .ok (push_candidate st1 f_env)
    | .ok (false, st1) => .ok st1

/-- The loop over `generic_function_env->get_overloads()`, in insertion
order. -/
def scan_overloads (arg_type_ids : List type_id_t) :
    List function_symbol_environment → solver_state → Except assertion_failure solver_state
  | [], st => .ok st
  | f_env :: rest, st =>
    match solve_candidate arg_type_ids f_env st with
    | .error e => .error e
    | .ok st1 => scan_overloads arg_type_ids rest st1

/-- The state in which the scan starts: `holder` has one unassigned slot per
argument and `f_candidate_envs` is empty. -/
def initial_state (arg_type_ids : List type_id_t) (env : type_table) : solver_state :=
  ⟨env, List.replicate arg_type_ids.length none, [], []⟩

/-- The whole scan of `overload_solver`, up to the call of the callback: its
final state holds the accepted list `f_candidate_envs`. -/
def overload_scan (arg_type_ids : List type_id_t)
    (overloads : List function_symbol_environment) (env : type_table) :
    Except assertion_failure solver_state :=
  scan_overloads arg_type_ids overloads (initial_state arg_type_ids env)

/-- The four-argument `overload_solver`: scan the overloads, then hand the
accepted list to the callback `f`. -/
def overload_solver_with (arg_type_ids : List type_id_t)
    (overloads : List function_symbol_environment) (env : type_table)
    (f : List function_symbol_environment → Except assertion_failure function_symbol_environment_ptr) :
    Except assertion_failure function_symbol_environment_ptr :=
  match overload_scan arg_type_ids overloads env with
  | .error e => .error e
  | .ok st => f st.f_candidate_envs

/-- The callback of the three-argument `overload_solver`. -/
def select_unique (f_candidate_envs : List function_symbol_environment) :
    Except assertion_failure function_symbol_environment_ptr :=
  if f_candidate_envs.length = 0 then
    .error .overload_failed
  else if f_candidate_envs.length > 1 then
    .error .duplicate
  else
    match f_candidate_envs[0]? with
    | some selected => .ok (some selected)
    | none => .error .index_out_of_range

/-- The callback of `overload_solver_allow_no_entry`. -/
def select_unique_allow_no_entry (f_candidate_envs : List function_symbol_environment) :
    Except assertion_failure function_symbol_environment_ptr :=
  if f_candidate_envs.length = 0 then
    .ok none
  else if f_candidate_envs.length > 1 then
    .error .duplicate
  else
    match f_candidate_envs[0]? with
    | some selected => .ok (some selected)
    | none => .error .index_out_of_range

/-- The three-argument `overload_solver`. -/
def overload_solver (arg_type_ids : List type_id_t)
    (overloads : List function_symbol_environment) (env : type_table) :
    Except assertion_failure function_symbol_environment_ptr :=
  overload_solver_with arg_type_ids overloads env select_unique

/-- The function `overload_solver_allow_no_entry`. -/
def overload_solver_allow_no_entry (arg_type_ids : List type_id_t)
    (overloads : List function_symbol_environment) (env : type_table) :
    Except assertion_failure function_symbol_environment_ptr :=
  overload_solver_with arg_type_ids overloads env select_unique_allow_no_entry

/-- The type table only grows: every entry of `env` is an entry of `env'` under the same id. -/
def table_le (env env' : type_table) : Prop :=
  ∀ id ty, get_type_at env id = some ty → get_type_at env' id = some ty

deriving instance DecidableEq for Except

/-- The type table `env'` is `env` followed by further entries: no entry of
`env` is altered or removed. -/
def table_grows (env env' : type_table) : Prop :=
  ∃ added : List type, env' = env ++ added

/-- The type table obtained from `env` by performing, in order, the
`make_type_id` calls of a call log (a `get_type_at` call changes nothing). -/
def replay_calls (env : type_table) : List env_call → type_table
  | [] => env
  | env_call.get_type_at _ :: rest => replay_calls env rest
  | env_call.make_type_id class_env_id attributes :: rest =>
    replay_calls (make_type_id env class_env_id attributes).2 rest

/-- The frame of a run from `st` to `st1`: the call log is extended, and the
type table of `st1` is the one of `st` after the `make_type_id` calls that were
added to the log. -/
def state_frame (st st1 : solver_state) : Prop :=
  ∃ added : List env_call,
    st1.calls = st.calls ++ added ∧ st1.env = replay_calls st.env added

/-- Whether the position body sets no failure for the parameter type id `p` and
the argument type id `a` in the type table `env`: the ids are identical, or
both dereference, the attribute step raises no assertion and the class check
of step 2 passes. -/
def position_admitted (env : type_table) (p a : type_id_t) : Bool :=
  if p = a then true
  else
    match get_type_at env p, get_type_at env a with
    | some f_env_arg_type, some self_arg_type0 =>
      match convert_attributes f_env_arg_type self_arg_type0 with
      | .error _ => false
      | .ok self_arg_type => decide (f_env_arg_type.class_env_id = self_arg_type.class_env_id)
    | _, _ => false

/-- The relation "an argument of attributes `source` can be converted to a
parameter of attributes `target`": the attribute step of the position body
raises no assertion.  (The class ids of the two types play no part in it.) -/
def can_convert (source target : type_attributes) : Bool :=
  match convert_attributes ⟨0, target⟩ ⟨0, source⟩ with
  | .ok _ => true
  | .error _ => false

/-! ## Template instantiation: `overload_solver_with_template`

The AST, the environment and the visitor are declared in headers that are not
part of the sources at hand.  Of the AST only the fields that the function
reads are kept; expressions, type expressions and statement lists are opaque
nodes.  The environment is a `template_world`: the type table, the overload
set that `incomplete_construct` hands back for the declared name of the
template set, the function environments that were completed, and the source of
fresh environment ids.  The visitor is an `analyzer`, a record of the two
collaborators whose effect the function depends on. -/

/-- An identifier of the AST. -/
abbrev identifier_value := Nat

/-- An opaque type expression node of the AST. -/
abbrev type_expression := Nat

/-- An opaque expression node of the AST. -/
abbrev expression := Nat

/-- An opaque statement list of the AST, the body of a function. -/
abbrev statement_list := Nat

/-- An opaque template argument. -/
abbrev template_argument := Nat

/-- Modelled from the spec: `attributes <<= quality` of the attribute header
(not part of the sources at hand) copies the given quality onto the attribute
pair and keeps its modifiability (the declared quality overrides). -/
def set_quality (a : type_attributes) (q : quality_kind) : type_attributes :=
  ⟨q, a.modifiability⟩

/-- The `init_unit` of a declaration: an optional type annotation and an
optional initializer (a null pointer is `none`). -/
structure value_initializer_unit where
  type : Option type_expression
  initializer : Option expression
deriving DecidableEq, Repr

/-- The `decl_unit` of a declaration. -/
structure variable_declaration_unit where
  name : identifier_value
  init_unit : value_initializer_unit
deriving DecidableEq, Repr

/-- An element `e` of `function_ast->get_parameter_list()`. -/
structure variable_declaration where
  quality : quality_kind
  decl_unit : variable_declaration_unit
deriving DecidableEq, Repr

/-- The fields of `ast::function_definition_statement` that are read:
`get_identifier()`, `get_parameter_list()`, `return_type_` and `inner_`. -/
structure function_definition_statement where
  identifier : identifier_value
  parameter_list : List variable_declaration
  return_type_ : Option type_expression
  inner_ : statement_list
deriving DecidableEq, Repr

/-- The fields of `ast::template_statement` that are read: the template
parameter list and what `clone_inner_node()` gives after the cast to a function
definition (`none` is a null pointer). -/
structure template_statement where
  parameter_list : List identifier_value
  inner_node : Option function_definition_statement
deriving DecidableEq, Repr

/-- A candidate `template_env` of a template set: `get_parameter_num()` and
`get_related_ast()` after the cast to a template statement. -/
structure template_environment where
  parameter_num : Nat
  related_ast : Option template_statement
deriving DecidableEq, Repr

/-- The template set `template_set_env`: `get_candidates()`. -/
structure template_set_environment where
  candidates : List template_environment
deriving DecidableEq, Repr

/-- A node carrying a type id (`type_detail`): the elements of `arg_type_ids2`
and the first argument of the callback of `solve_type`. -/
structure type_detail where
  type_id : type_id_t
deriving DecidableEq, Repr

/-- The functor `to_type_id_t2`. -/
def to_type_id_t2 (c : type_detail) : type_id_t :=
  c.type_id

/-- The three values that `solve_type` hands to its callback. -/
structure solved_type where
  ty_d : type_detail
  ty : type
  class_env : environment_id_t
deriving DecidableEq, Repr

/-- Modelled from the spec: the part of the environment that template
instantiation works on.  `overloads` is the overload set of the declared name,
in insertion order; `completed` holds the ids of the function environments on
which `complete` was called; `next_id` is the id that the next
`incomplete_construct` gives to the environment it creates. -/
structure template_world where
  env : type_table
  overloads : List function_symbol_environment
  completed : List Nat
  next_id : Nat
deriving DecidableEq, Repr

/-- The collaborators behind `visitor` whose effect is not fixed by the
function: the type resolver `solve_type`, which sees the template parameter
bindings of the function environment and the environment, and `dispatch`, the
check of a function body, which may change the environment or stop the run. -/
structure analyzer where
  solve_type : List (identifier_value × template_argument) → type_expression →
    template_world → Option solved_type
  dispatch : statement_list → function_symbol_environment → template_world →
    Except assertion_failure template_world

/-- A call of a collaborator made by `overload_solver_with_template`. -/
inductive template_call where
  | clone_inner_node
  | incomplete_construct (identifier : identifier_value) (f_env_id : Nat)
  | tp (f_env_id : Nat)
  | solve_type (type_expr : type_expression)
  | parameter_variable_construct (f_env_id : Nat) (name : identifier_value)
      (class_env : environment_id_t) (attr : type_attributes)
  | dispatch (f_env_id : Nat)
  | complete (f_env_id : Nat) (return_type_id : type_id_t)
  | add_overload (f_env_id : Nat)
  | link_with_ast (f_env_id : Nat)
  | overload_solver (arg_type_ids : List type_id_t)
deriving DecidableEq, Repr

/-- The state of a run of `overload_solver_with_template`: the environment, the
log of collaborator calls, and the local variable `generic_function_env`
(`none` is `nullptr`, `some` holds the declared name whose overload set it
points to). -/
structure template_state where
  world : template_world
  calls : List template_call
  generic_function_env : Option identifier_value
deriving DecidableEq, Repr

/-- What a step of the run leaves: the state in which it ended, and either its
value or the assertion at which the run stopped. -/
structure step_result (α : Type) where
  state : template_state
  result : Except assertion_failure α

/-- Modelled from the spec: `visitor->tp` associates each template parameter
with the corresponding supplied template argument in the scope of the new
function. -/
def bind_template_parameters (parameter_list : List identifier_value)
    (template_args : List template_argument) :
    List (identifier_value × template_argument) :=
  parameter_list.zip template_args

/-- The body of the loop over `function_ast->get_parameter_list()` for one
parameter `e`.  The function environment `f_env` is returned with the type id
of the declared parameter appended (modelled from the spec:
`parameter_variable_construct` declares the parameter with the type id that
`make_type_id` gives for the class and the attributes). -/
def declare_parameter (visitor : analyzer)
    (bindings : List (identifier_value × template_argument)) (e : variable_declaration)
    (f_env : function_symbol_environment) (st : template_state) :
    step_result function_symbol_environment :=
  match e.decl_unit.init_unit.type, e.decl_unit.init_unit.initializer with
  | none, none => ⟨st, .error .parameter_without_type_and_initializer⟩
  | some type_expr, _ =>
    -- is parameter variavle type specified
    match visitor.solve_type bindings type_expr st.world with
    | none =>
      ⟨⟨st.world, st.calls ++ [template_call.solve_type type_expr], st.generic_function_env⟩,
        .error .unresolved_type⟩
    | some solved =>
      let attr := set_quality solved.ty.attributes e.quality
      let made := make_type_id st.world.env solved.class_env attr
      -- declare
      ⟨⟨⟨made.2, st.world.overloads, st.world.completed, st.world.next_id⟩,
          st.calls ++ [template_call.solve_type type_expr,
            template_call.parameter_variable_construct f_env.id e.decl_unit.name
              solved.class_env attr],
          st.generic_function_env⟩,
        .ok ⟨f_env.id, f_env.parameter_type_ids ++ [made.1]⟩⟩
  | none, some _ =>
    -- type inferenced by result of evaluated [[default initializer expression]]
    ⟨st, .error .type_inference_not_implemented⟩

/-- The loop `for( auto const& e : function_ast->get_parameter_list() )`. -/
def declare_parameters (visitor : analyzer)
    (bindings : List (identifier_value × template_argument)) :
    List variable_declaration → function_symbol_environment → template_state →
      step_result function_symbol_environment
  | [], f_env, st => ⟨st, .ok f_env⟩
  | e :: rest, f_env, st =>
    match declare_parameter visitor bindings e f_env st with
    | ⟨st1, .error failure⟩ => ⟨st1, .error failure⟩
    | ⟨st1, .ok f_env1⟩ => declare_parameters visitor bindings rest f_env1 st1

/-- The state after `incomplete_construct` and `visitor->tp` for the cloned
function `function_ast`: a fresh function environment exists, it is in no
overload set, and `generic_function_env` points to the overload set of the
declared name. -/
def begin_instantiation (function_ast : function_definition_statement)
    (st : template_state) : template_state :=
  ⟨⟨st.world.env, st.world.overloads, st.world.completed, st.world.next_id + 1⟩,
    st.calls ++ [template_call.clone_inner_node,
      template_call.incomplete_construct function_ast.identifier st.world.next_id,
      template_call.tp st.world.next_id],
    some function_ast.identifier⟩

/-- The rest of the loop body once the parameters are declared: the check of
the body, the return type, `complete`, `add_overload` and `link_with_ast`. -/
def finish_instantiation (visitor : analyzer)
    (bindings : List (identifier_value × template_argument))
    (function_ast : function_definition_statement) (f_env : function_symbol_environment)
    (st : template_state) : step_result Unit :=
  -- scan all statements in this function body
  match visitor.dispatch function_ast.inner_ f_env st.world with
  | .error failure =>
    ⟨⟨st.world, st.calls ++ [template_call.dispatch f_env.id], st.generic_function_env⟩,
      .error failure⟩
  | .ok world1 =>
    -- Return type
    match function_ast.return_type_ with
    | some return_type =>
      match visitor.solve_type bindings return_type world1 with
      | none =>
        ⟨⟨world1, st.calls ++ [template_call.dispatch f_env.id,
            template_call.solve_type return_type], st.generic_function_env⟩,
          .error .unresolved_type⟩
      | some solved =>
        ⟨⟨⟨world1.env, world1.overloads ++ [f_env], world1.completed ++ [f_env.id],
            world1.next_id⟩,
          st.calls ++ [template_call.dispatch f_env.id, template_call.solve_type return_type,
            template_call.complete f_env.id solved.ty_d.type_id,
            template_call.add_overload f_env.id, template_call.link_with_ast f_env.id],
          st.generic_function_env⟩,
          .ok ()⟩
    | none =>
      ⟨⟨world1, st.calls ++ [template_call.dispatch f_env.id], st.generic_function_env⟩,
        .error .return_type_inference_not_supported⟩

/-- The body of the loop over `template_set_env->get_candidates()` for one
candidate `template_env`. -/
def instantiate_candidate (visitor : analyzer) (template_args : List template_argument)
    (template_env : template_environment) (st : template_state) : step_result Unit :=
  -- if number of template arguments is over, skip
  if template_args.length > template_env.parameter_num then
    ⟨st, .ok ()⟩
  else
    match template_env.related_ast with
    | none => ⟨st, .error .template_ast_is_null⟩
    | some template_ast =>
      -- make new ast(cloned)
      match template_ast.inner_node with
      | none =>
        ⟨⟨st.world, st.calls ++ [template_call.clone_inner_node], st.generic_function_env⟩,
          .error .function_ast_is_null⟩
      | some function_ast =>
        match declare_parameters visitor
            (bind_template_parameters template_ast.parameter_list template_args)
            function_ast.parameter_list ⟨st.world.next_id, []⟩
            (begin_instantiation function_ast st) with
        | ⟨st1, .error failure⟩ => ⟨st1, .error failure⟩
        | ⟨st1, .ok f_env⟩ =>
          finish_instantiation visitor
            (bind_template_parameters template_ast.parameter_list template_args)
            function_ast f_env st1

/-- The loop over `template_set_env->get_candidates()`. -/
def instantiate_candidates (visitor : analyzer) (template_args : List template_argument) :
    List template_environment → template_state → step_result Unit
  | [], st => ⟨st, .ok ()⟩
  | template_env :: rest, st =>
    match instantiate_candidate visitor template_args template_env st with
    | ⟨st1, .error failure⟩ => ⟨st1, .error failure⟩
    | ⟨st1, .ok _⟩ => instantiate_candidates visitor template_args rest st1

/-- The six-argument `overload_solver_with_template`: instantiate every
candidate that admits the template arguments, then hand the type ids of the
argument nodes and the overload set to `overload_solver` with the callback
`f`.  A null `template_args` is `none`. -/
def overload_solver_with_template_with (visitor : analyzer)
    (template_args : Option (List template_argument)) (arg_type_ids2 : List type_detail)
    (template_set_env : template_set_environment) (world : template_world)
    (f : List function_symbol_environment →
      Except assertion_failure function_symbol_environment_ptr) :
    step_result function_symbol_environment_ptr :=
  match template_args with
  | none => ⟨⟨world, [], none⟩, .error .template_args_is_null⟩
  | some args =>
    match instantiate_candidates visitor args template_set_env.candidates
        ⟨world, [], none⟩ with
    | ⟨st, .error failure⟩ => ⟨st, .error failure⟩
    | ⟨st, .ok _⟩ =>
      match st.generic_function_env with
      | none => ⟨st, .error .generic_function_env_is_null⟩
      | some _ =>
        ⟨⟨st.world,
            st.calls ++ [template_call.overload_solver (arg_type_ids2.map to_type_id_t2)],
            st.generic_function_env⟩,
          overload_solver_with (arg_type_ids2.map to_type_id_t2) st.world.overloads
            st.world.env f⟩

/-- The five-argument `overload_solver_with_template`. -/
def overload_solver_with_template (visitor : analyzer)
    (template_args : Option (List template_argument)) (arg_type_ids : List type_detail)
    (template_set_env : template_set_environment) (world : template_world) :
    step_result function_symbol_environment_ptr :=
  overload_solver_with_template_with visitor template_args arg_type_ids template_set_env
    world select_unique

/-- The function `overload_solver_allow_no_entry_with_template`. -/
def overload_solver_allow_no_entry_with_template (visitor : analyzer)
    (template_args : Option (List template_argument)) (arg_type_ids : List type_detail)
    (template_set_env : template_set_environment) (world : template_world) :
    step_result function_symbol_environment_ptr :=
  overload_solver_with_template_with visitor template_args arg_type_ids template_set_env
    world select_unique_allow_no_entry

/-- Whether a logged call belongs to the declaration of a parameter: a
`solve_type` or a `parameter_variable_construct`. -/
def is_parameter_call : template_call → Bool
  | .solve_type _ => true
  | .parameter_variable_construct _ _ _ _ => true
  | _ => false

/-- The ids of the function environments created by the `incomplete_construct`
calls of a log, in order. -/
def constructed_ids : List template_call → List Nat
  | [] => []
  | .incomplete_construct _ f_env_id :: rest => f_env_id :: constructed_ids rest
  | _ :: rest => constructed_ids rest

/-- The ids of the function environments handed to the `add_overload` calls of
a log, in order. -/
def added_overload_ids : List template_call → List Nat
  | [] => []
  | .add_overload f_env_id :: rest => f_env_id :: added_overload_ids rest
  | _ :: rest => added_overload_ids rest

/-- The argument lists of the `overload_solver` calls of a log, in order. -/
def overload_solver_calls : List template_call → List (List type_id_t)
  | [] => []
  | .overload_solver arg_type_ids :: rest => arg_type_ids :: overload_solver_calls rest
  | _ :: rest => overload_solver_calls rest

/-- Whether a candidate is not skipped for the given template arguments: it
declares at least as many template parameters as arguments are supplied. -/
def admits_template_args (template_args : List template_argument)
    (template_env : template_environment) : Bool :=
  decide (template_args.length ≤ template_env.parameter_num)

/-- The number of parameters of the function that a candidate is a template
of (0 when the candidate has no function behind it). -/
def function_parameter_count (template_env : template_environment) : Nat :=
  match template_env.related_ast with
  | none => 0
  | some template_ast =>
    match template_ast.inner_node with
    | none => 0
    | some function_ast => function_ast.parameter_list.length

/-- A condition on the type resolver: a type expression that resolves keeps
its resolution when the type table has grown. -/
def solve_type_stable (visitor : analyzer) : Prop :=
  ∀ (bindings : List (identifier_value × template_argument)) (type_expr : type_expression)
    (world world1 : template_world) (solved : solved_type),
    table_grows world.env world1.env →
    visitor.solve_type bindings type_expr world = some solved →
    visitor.solve_type bindings type_expr world1 = some solved

/-- A condition on the check of a body: it leaves the overload set as it is. -/
def dispatch_keeps_overloads (visitor : analyzer) : Prop :=
  ∀ (body : statement_list) (f_env : function_symbol_environment)
    (world world1 : template_world),
    visitor.dispatch body f_env world = .ok world1 → world1.overloads = world.overloads

/-- A condition on the check of a body: the type table only grows and ids that
were handed out are not handed out again. -/
def dispatch_grows (visitor : analyzer) : Prop :=
  ∀ (body : statement_list) (f_env : function_symbol_environment)
    (world world1 : template_world),
    visitor.dispatch body f_env world = .ok world1 →
      table_grows world.env world1.env ∧ world.next_id ≤ world1.next_id

/-- A visitor for concrete instances: a type expression is the literal of a
type id and resolves to the type registered under it, and the check of a body
changes nothing. -/
def literal_analyzer : analyzer :=
  ⟨fun _ type_expr world =>
      match get_type_at world.env type_expr with
      | some ty => some ⟨⟨type_expr⟩, ty, ty.class_env_id⟩
      | none => none,
    fun _ _ world => .ok world⟩

/-- The frame of the declaration of parameters, from `st` to `st1`: the
overload set, the completed environments, the id source and
`generic_function_env` are untouched, the type table only grows, and the log is
extended by calls that belong to the declaration of a parameter. -/
def parameter_frame (st st1 : template_state) : Prop :=
  st1.world.overloads = st.world.overloads ∧
    st1.world.completed = st.world.completed ∧
    st1.world.next_id = st.world.next_id ∧
    st1.generic_function_env = st.generic_function_env ∧
    table_grows st.world.env st1.world.env ∧
    ∃ added : List template_call,
      st1.calls = st.calls ++ added ∧ added.all is_parameter_call = true

/-- The parameters declared by the `parameter_variable_construct` calls of a
log, in order: the function environment, the name, the class and the attribute
pair of each call. -/
def declared_parameters :
    List template_call → List (Nat × identifier_value × environment_id_t × type_attributes)
  | [] => []
  | .parameter_variable_construct f_env_id name class_env attr :: rest =>
    (f_env_id, name, class_env, attr) :: declared_parameters rest
  | _ :: rest => declared_parameters rest


/-- The condition on one position for the parameter type id `p` and the
argument type id `a` in the type table `env`: the ids are equal, or both
dereference and either the parameter is `val` and the argument `ref`, or the
two types have the same class.  No modifiability occurs in it. -/
def position_matches (env : type_table) (p a : type_id_t) : Prop :=
  p = a ∨ ∃ tp ta : type, get_type_at env p = some tp ∧ get_type_at env a = some ta ∧
    ((tp.attributes.quality = quality_kind.k_val ∧ ta.attributes.quality = quality_kind.k_ref) ∨
      tp.class_env_id = ta.class_env_id)

/-- The condition on one position that makes the class check of step 2 fail:
the ids differ, both dereference, the classes differ and the pair of qualities
is not `val` parameter, `ref` argument. -/
def position_class_mismatch (env : type_table) (p a : type_id_t) : Prop :=
  p ≠ a ∧ ∃ tp ta : type, get_type_at env p = some tp ∧ get_type_at env a = some ta ∧
    ¬ (tp.attributes.quality = quality_kind.k_val ∧ ta.attributes.quality = quality_kind.k_ref) ∧
      tp.class_env_id ≠ ta.class_env_id


/-- The outcome of the loop body for the candidate `f_env` on the type table
`env`, read off a run that starts with an unassigned `holder`: whether the
candidate is pushed onto `f_candidate_envs`, or the assertion at which the body
stops. -/
def candidate_verdict (arg_type_ids : List type_id_t) (f_env : function_symbol_environment)
    (env : type_table) : Except assertion_failure Bool :=
  if f_env.parameter_type_ids.length ≠ arg_type_ids.length then
    .ok false
  else if f_env.parameter_type_ids.length = 0 then
    .ok true
  else
    match position_loop f_env.parameter_type_ids arg_type_ids arg_type_ids.length 0
        (initial_state arg_type_ids env) with
    | .error e => .error e
    | .ok r => .ok r.1


/-! ## The expression grammar: `code_grammer`

The grammar is a Boost.Spirit Qi grammar: `a >> b` is a sequence, `a | b` an
ordered choice whose first matching alternative wins, `*a` a repetition,
`a % b` a list, `-a` an option, and `a > b` a sequence whose second part is
expected.  A rule is a function from the input to a `parse_result`.  The
skipper `skip_grammer` is declared in a header that is not part of the sources
at hand and is a parameter of the rules; every terminal skips before it
matches.  A rule that does not match leaves the input where it was: the blanks
that a terminal skipped before it failed are skipped again by the next
terminal.  A repetition takes a bound on the number of its rounds, and so does
the nesting of the rules; a rule that reaches the bound ends in `out_of_fuel`. -/

/-- What a rule gives on an input: the attribute and the rest of the input, no
match, the exception that an expectation `a > b` throws, or the bound on the
nesting was reached. -/
inductive parse_result (α : Type) where
  | matched (value : α) (rest : List Char)
  | no_match
  | expectation_failure
  | out_of_fuel
deriving Repr

/-- A `qi::rule` with attribute `α`. -/
abbrev rule (α : Type) := List Char → parse_result α

/-- The type `ast::native_string_t`. -/
abbrev native_string_t := List Char

/-- Modelled from the spec: the nodes that the expression rules build (declared
in the AST headers, not part of the sources at hand), one constructor per
`helper::make_node_ptr<...>` of the expression rules; `binary_operator_expression`
is what `helper::make_binary_op_node_ptr( lhs, op, rhs )` builds. -/
inductive ast_node where
  | identifier_value (name : native_string_t) (from_root : Bool)
  | template_instance_value (name : native_string_t) (arguments : List ast_node)
      (from_root : Bool)
  | int32_value (value : Int)
  | boolean_value (value : Bool)
  | string_value (value : native_string_t)
  | array_value (elements : List ast_node)
  | term_expression (value : ast_node)
  | binary_operator_expression (lhs : ast_node) (op : List Char) (rhs : ast_node)
  | element_selector_expression (reciever : ast_node) (selector : ast_node)
  | subscrpting_expression (lhs : ast_node) (rhs : Option ast_node)
  | call_expression (reciever : ast_node) (arguments : List ast_node)
deriving Repr

/-- The ordered choice `p | q`: `q` is tried, on the same input, when `p` does
not match. -/
def alternative {α : Type} (p q : rule α) : rule α := fun input =>
  match p input with
  | .no_match => q input
  | r => r

/-- The sequence `p >> q`. -/
def sequence {α β : Type} (p : rule α) (q : rule β) : rule (α × β) := fun input =>
  match p input with
  | .matched a rest =>
    match q rest with
    | .matched b rest1 => .matched (a, b) rest1
    | .no_match => .no_match
    | .expectation_failure => .expectation_failure
    | .out_of_fuel => .out_of_fuel
  | .no_match => .no_match
  | .expectation_failure => .expectation_failure
  | .out_of_fuel => .out_of_fuel

/-- The expectation `p > q`: once `p` has matched, `q` has to match. -/
def expect {α β : Type} (p : rule α) (q : rule β) : rule (α × β) := fun input =>
  match p input with
  | .matched a rest =>
    match q rest with
    | .matched b rest1 => .matched (a, b) rest1
    | .no_match => .expectation_failure
    | .expectation_failure => .expectation_failure
    | .out_of_fuel => .out_of_fuel
  | .no_match => .no_match
  | .expectation_failure => .expectation_failure
  | .out_of_fuel => .out_of_fuel

/-- The option `-p`. -/
def optionally {α : Type} (p : rule α) : rule (Option α) := fun input =>
  match p input with
  | .matched a rest => .matched (some a) rest
  | .no_match => .matched none input
  | .expectation_failure => .expectation_failure
  | .out_of_fuel => .out_of_fuel

/-- A semantic action `p[ f ]`: the attribute of `p` is handed to `f`. -/
def with_action {α β : Type} (p : rule α) (f : α → β) : rule β := fun input =>
  match p input with
  | .matched a rest => .matched (f a) rest
  | .no_match => .no_match
  | .expectation_failure => .expectation_failure
  | .out_of_fuel => .out_of_fuel

/-- The repetition `*p` in which every round updates `qi::_val`: `step val` is
the body for the current value.  The repetition ends at the first round that
does not match. -/
def repeat_updating {α : Type} (step : α → rule α) : Nat → α → rule α
  | 0, _ => fun _ => .out_of_fuel
  | fuel + 1, val => fun input =>
    match step val input with
    | .matched val1 rest => repeat_updating step fuel val1 rest
    | .no_match => .matched val input
    | .expectation_failure => .expectation_failure
    | .out_of_fuel => .out_of_fuel

/-- The list `p % separator`: one `p`, then `separator >> p` as long as it
matches. -/
def list_of {α β : Type} (fuel : Nat) (p : rule α) (separator : rule β) : rule (List α) :=
  fun input =>
    match p input with
    | .matched first rest =>
      repeat_updating
        (fun (val : List α) => with_action (sequence separator p) (fun r => val ++ [r.2]))
        fuel [first] rest
    | .no_match => .no_match
    | .expectation_failure => .expectation_failure
    | .out_of_fuel => .out_of_fuel

/-- The rest of the input after the literal `s`, when the input starts with
it. -/
def match_literal : List Char → List Char → Option (List Char)
  | [], input => some input
  | _ :: _, [] => none
  | c :: cs, x :: rest => if x = c then match_literal cs rest else none

/-- The terminal `qi::lit( s )`: skip, then match the characters of `s`. -/
def lit (skipper : List Char → List Char) (s : List Char) : rule Unit := fun input =>
  match match_literal s (skipper input) with
  | some rest => .matched () rest
  | none => .no_match

/-- The character set `ascii::char_( "a-zA-Z_" )`. -/
def symbol_head (c : Char) : Bool :=
  ('a' ≤ c && c ≤ 'z') || ('A' ≤ c && c ≤ 'Z') || c = '_'

/-- The character set `ascii::char_( "a-zA-Z0-9_" )`. -/
def symbol_tail (c : Char) : Bool :=
  ('a' ≤ c && c ≤ 'z') || ('A' ≤ c && c ≤ 'Z') || ('0' ≤ c && c ≤ '9') || c = '_'

/-- The rule `native_symbol_string_`, a rule without skipper: skip once, then
one character of the first set and as many of the second as there are. -/
def native_symbol_string_ (skipper : List Char → List Char) : rule native_string_t :=
  fun input =>
    match skipper input with
    | [] => .no_match
    | c :: rest =>
      if symbol_head c then
        .matched (c :: rest.takeWhile symbol_tail) (rest.dropWhile symbol_tail)
      else
        .no_match

/-- The value of a sequence of decimal digits. -/
def digits_value (digits : List Char) : Nat :=
  digits.foldl (fun acc d => acc * 10 + (d.toNat - 48)) 0

/-- The terminal `qi::int_`: skip, an optional sign, then at least one decimal
digit; a value outside the range of `int` does not match. -/
def int_ (skipper : List Char → List Char) : rule Int := fun input =>
  let signed : Bool × List Char :=
    match skipper input with
    | '-' :: rest => (true, rest)
    | '+' :: rest => (false, rest)
    | s => (false, s)
  let digits := signed.2.takeWhile Char.isDigit
  let value : Int := if signed.1 then - (digits_value digits : Int) else (digits_value digits : Int)
  if digits = [] then .no_match
  else if - 2147483648 ≤ value ∧ value ≤ 2147483647 then
    .matched value (signed.2.dropWhile Char.isDigit)
  else .no_match

/-- The rule `integer_literal_`. -/
def integer_literal_ (skipper : List Char → List Char) : rule ast_node :=
  with_action (int_ skipper) ast_node.int32_value

/-- The rule `numeric_literal_`. -/
def numeric_literal_ (skipper : List Char → List Char) : rule ast_node :=
  integer_literal_ skipper

/-- The rule `boolean_literal_`. -/
def boolean_literal_ (skipper : List Char → List Char) : rule ast_node :=
  alternative
    (with_action (lit skipper ['t', 'r', 'u', 'e']) (fun _ => ast_node.boolean_value true))
    (with_action (lit skipper ['f', 'a', 'l', 's', 'e']) (fun _ => ast_node.boolean_value false))

/-- The body `*( ( escape_sequence_ | qi::char_ ) - '"' )` of a string literal:
the characters up to the next double quote (character 34), a backslash
(character 92) followed by `n` standing for a line feed (character 10). -/
def string_literal_body : List Char → native_string_t × List Char
  | [] => ([], [])
  | [c] => if c = Char.ofNat 34 then ([], [c]) else ([c], [])
  | c :: d :: rest =>
    if c = Char.ofNat 34 then ([], c :: d :: rest)
    else if c = Char.ofNat 92 ∧ d = 'n' then
      (Char.ofNat 10 :: (string_literal_body rest).1, (string_literal_body rest).2)
    else
      (c :: (string_literal_body (d :: rest)).1, (string_literal_body (d :: rest)).2)

/-- The rule `string_literal_sequenece_`, a rule without skipper: skip once,
then a double quote, the body and a double quote. -/
def string_literal_sequenece_ (skipper : List Char → List Char) : rule native_string_t :=
  fun input =>
    match skipper input with
    | [] => .no_match
    | c :: rest =>
      if c = Char.ofNat 34 then
        match (string_literal_body rest).2 with
        | [] => .no_match
        | _ :: rest1 => .matched (string_literal_body rest).1 rest1
      else .no_match

/-- The rule `string_literal_`. -/
def string_literal_ (skipper : List Char → List Char) : rule ast_node :=
  with_action (string_literal_sequenece_ skipper) ast_node.string_value

/-- The rule `identifier_`. -/
def identifier_ (skipper : List Char → List Char) : rule ast_node :=
  with_action (native_symbol_string_ skipper) (fun s => ast_node.identifier_value s false)

/-- The rule `identifier_with_root_`. -/
def identifier_with_root_ (skipper : List Char → List Char) : rule ast_node :=
  with_action (sequence (lit skipper ['.']) (native_symbol_string_ skipper))
    (fun r => ast_node.identifier_value r.2 true)

/-- The rule `argument_list_`, for a given `assign_expression_`. -/
def argument_list_ (skipper : List Char → List Char) (fuel : Nat)
    (assign_expression_ : rule ast_node) : rule (List ast_node) :=
  alternative
    (with_action (sequence (lit skipper ['(']) (lit skipper [')'])) (fun _ => []))
    (with_action
      (sequence
        (sequence (lit skipper ['(']) (list_of fuel assign_expression_ (lit skipper [','])))
        (lit skipper [')']))
      (fun r => r.1.2))

/-- The rule `array_literal_`, for a given `assign_expression_`. -/
def array_literal_ (skipper : List Char → List Char) (fuel : Nat)
    (assign_expression_ : rule ast_node) : rule ast_node :=
  alternative
    (with_action (sequence (lit skipper ['[']) (lit skipper [']']))
      (fun _ => ast_node.array_value []))
    (with_action
      (sequence
        (sequence (lit skipper ['[']) (list_of fuel assign_expression_ (lit skipper [','])))
        (lit skipper [']']))
      (fun r => ast_node.array_value r.1.2))

/-- The rule `template_instance_`, for a given `assign_expression_`. -/
def template_instance_ (skipper : List Char → List Char) (fuel : Nat)
    (assign_expression_ : rule ast_node) : rule ast_node :=
  with_action
    (sequence (sequence (native_symbol_string_ skipper) (lit skipper ['!']))
      (argument_list_ skipper fuel assign_expression_))
    (fun r => ast_node.template_instance_value r.1.1 r.2 false)

/-- The rule `template_instance_with_root_`, for a given `assign_expression_`. -/
def template_instance_with_root_ (skipper : List Char → List Char) (fuel : Nat)
    (assign_expression_ : rule ast_node) : rule ast_node :=
  with_action
    (sequence
      (sequence (sequence (lit skipper ['.']) (native_symbol_string_ skipper))
        (lit skipper ['!']))
      (argument_list_ skipper fuel assign_expression_))
    (fun r => ast_node.template_instance_value r.1.1.2 r.2 true)

/-- The primary expression, the rule `expression_priority_[0]`, for given
`expression_` and `assign_expression_`. -/
def primary_expression_ (skipper : List Char → List Char) (fuel : Nat)
    (expression_ assign_expression_ : rule ast_node) : rule ast_node :=
  alternative
    (with_action
      (alternative ( template_instance_with_root_ skipper fuel assign_expression_)
        (alternative (template_instance_ skipper fuel assign_expression_)
          (alternative ( identifier_with_root_ skipper)
            (alternative (identifier_ skipper)
              (alternative (numeric_literal_ skipper)
                (alternative (boolean_literal_ skipper)
                  (alternative (string_literal_ skipper)
                    (array_literal_ skipper fuel assign_expression_))))))))
      ast_node.term_expression)
    (with_action (sequence (sequence (lit skipper ['(']) expression_) (lit skipper [')']))
      (fun r => r.1.2))

/-- One round of the repetition of `expression_priority_[1]` for the current
value `val`: an element selector, a subscript or a call. -/
def selector_subscript_or_call (skipper : List Char → List Char) (fuel : Nat)
    (expression_ assign_expression_ : rule ast_node) (val : ast_node) : rule ast_node :=
  alternative
    (with_action
      (sequence (lit skipper ['.'])
        (alternative (identifier_ skipper)
          (alternative ( identifier_with_root_ skipper)
            (alternative (template_instance_ skipper fuel assign_expression_)
              ( template_instance_with_root_ skipper fuel assign_expression_)))))
      (fun r => ast_node.element_selector_expression val r.2))
    (alternative
      (with_action
        (expect (expect (lit skipper ['[']) (optionally expression_)) (lit skipper [']']))
        (fun r => ast_node.subscrpting_expression val r.1.2))
      (with_action (argument_list_ skipper fuel assign_expression_)
        (fun r => ast_node.call_expression val r)))

/-- One round of the repetition of a level of binary operators for the current
value `val`: the alternatives `( qi::lit( op ) >> operand )`, in the order of
`operators`, each building the node of its operator. -/
def binary_operator_round (skipper : List Char → List Char) (operand : rule ast_node)
    (val : ast_node) : List (List Char) → rule ast_node
  | [] => fun _ => .no_match
  | op :: others =>
    alternative
      (with_action (sequence (lit skipper op) operand)
        (fun r => ast_node.binary_operator_expression val op r.2))
      (binary_operator_round skipper operand val others)

/-- A level of binary operators: `operand[qi::_val = qi::_1] >> *( ... )`. -/
def binary_operator_level (skipper : List Char → List Char) (fuel : Nat)
    (operators : List (List Char)) (operand : rule ast_node) : rule ast_node := fun input =>
  match operand input with
  | .matched val rest =>
    repeat_updating (fun v => binary_operator_round skipper operand v operators) fuel val rest
  | .no_match => .no_match
  | .expectation_failure => .expectation_failure
  | .out_of_fuel => .out_of_fuel

/-- The rules `expression_priority_[priority]`, priority 0 (high) to 15 (low).
The first argument bounds the nesting of the rules: a rule hands the bound less
one to the rules it refers to. -/
def expression_priority_ (skipper : List Char → List Char) : Nat → Nat → rule ast_node
  | 0, _ => fun _ => .out_of_fuel
  | fuel + 1, priority =>
    match priority with
    -- Comma Expression
    | 15 => binary_operator_level skipper fuel [[',']] (expression_priority_ skipper fuel 14)
    -- Assign Expression
    | 14 => binary_operator_level skipper fuel [['=']] (expression_priority_ skipper fuel 13)
    -- Conditional Expression
    | 13 => expression_priority_ skipper fuel 12
    -- Logical OR Expression
    | 12 =>
      binary_operator_level skipper fuel [['|', '|']] (expression_priority_ skipper fuel 11)
    -- Logical AND Expression
    | 11 =>
      binary_operator_level skipper fuel [['&', '&']] (expression_priority_ skipper fuel 10)
    -- Bitwise OR Expression
    | 10 => binary_operator_level skipper fuel [['|']] (expression_priority_ skipper fuel 9)
    -- Bitwise XOR Expression
    | 9 => binary_operator_level skipper fuel [['^']] (expression_priority_ skipper fuel 8)
    -- Bitwise AND Expression
    | 8 => binary_operator_level skipper fuel [['&']] (expression_priority_ skipper fuel 7)
    -- Equality Expression
    | 7 =>
      binary_operator_level skipper fuel [['=', '='], ['!', '=']]
        (expression_priority_ skipper fuel 6)
    -- Relational Expression
    | 6 =>
      binary_operator_level skipper fuel [['<'], ['<', '='], ['>'], ['>', '=']]
        (expression_priority_ skipper fuel 5)
    -- Shift Expression
    | 5 =>
      binary_operator_level skipper fuel [['<', '<'], ['>', '>']]
        (expression_priority_ skipper fuel 4)
    -- Add/Sub Expression
    | 4 =>
      binary_operator_level skipper fuel [['+'], ['-']] (expression_priority_ skipper fuel 3)
    -- Mul/Div/Rem Expression
    | 3 =>
      binary_operator_level skipper fuel [['*'], ['/'], ['%']]
        (expression_priority_ skipper fuel 2)
    -- Unary Expression
    | 2 => expression_priority_ skipper fuel 1
    -- Postfix Expression
    | 1 => fun input =>
      match expression_priority_ skipper fuel 0 input with
      | .matched val rest =>
        repeat_updating
          (selector_subscript_or_call skipper fuel (expression_priority_ skipper fuel 15)
            (expression_priority_ skipper fuel 14))
          fuel val rest
      | .no_match => .no_match
      | .expectation_failure => .expectation_failure
      | .out_of_fuel => .out_of_fuel
    -- Primary Expression
    | 0 =>
      primary_expression_ skipper fuel (expression_priority_ skipper fuel 15)
        (expression_priority_ skipper fuel 14)
    | _ => fun _ => .no_match

/-- The rule `expression_`. -/
def expression_ (skipper : List Char → List Char) (fuel : Nat) : rule ast_node :=
  expression_priority_ skipper fuel 15

/-- A skipper for concrete instances: it drops the blanks at the head of the
input. -/
def blank_skipper : List Char → List Char
  | [] => []
  | c :: rest => if c = ' ' then blank_skipper rest else c :: rest

/-- A condition on the skipper: it leaves the empty input as it is, it skips a
blank, and it stops at a character of `ascii::char_( "a-zA-Z_" )` and at each of
the characters `+ - * < =`. -/
def blank_skipping (skipper : List Char → List Char) : Prop :=
  skipper [] = [] ∧ (∀ s : List Char, skipper (' ' :: s) = skipper s) ∧
    ∀ (c : Char) (s : List Char),
      (symbol_head c = true ∨ c ∈ ['+', '-', '*', '<', '=']) → skipper (c :: s) = c :: s

/-- What follows an operand in the inputs at hand: the end of the input, or a
blank and one of the characters `+ - * < =`. -/
def follows_operand (rest : List Char) : Prop :=
  rest = [] ∨ ∃ (c : Char) (tail : List Char),
    rest = ' ' :: c :: tail ∧ c ∈ ['+', '-', '*', '<', '=']

/-- The rule `expression_priority_[priority]` gives the node `v` and the rest
`rest` on `input` for every bound on the nesting from `m` on. -/
def parses_to (skipper : List Char → List Char) (m priority : Nat) (input : List Char)
    (v : ast_node) (rest : List Char) : Prop :=
  ∀ fuel : Nat, m ≤ fuel → expression_priority_ skipper fuel priority input = .matched v rest

/-- The text `s` is a primary operand with node `v`: in front of what follows
an operand, and whether or not a blank stands before it, the primary
expression rule consumes it and gives `v`, for every bound on the nesting from
`m` on. -/
def primary_operand (skipper : List Char → List Char) (m : Nat) (s : List Char)
    (v : ast_node) : Prop :=
  ∀ rest : List Char, follows_operand rest →
    parses_to skipper m 0 (s ++ rest) v rest ∧ parses_to skipper m 0 (' ' :: (s ++ rest)) v rest

/-- Whether a text is matched as a whole by `native_symbol_string_`. -/
def is_native_symbol : List Char → Bool
  | [] => false
  | c :: tail => symbol_head c && tail.all symbol_tail

/-- The terminals with which the alternatives of the repetition of
`expression_priority_[priority]` start, in the order of the alternatives; the
levels 0, 2 and 13 have no repetition. -/
def level_terminals : Nat → List (List Char)
  | 15 => [[',']]
  | 14 => [['=']]
  | 12 => [['|', '|']]
  | 11 => [['&', '&']]
  | 10 => [['|']]
  | 9 => [['^']]
  | 8 => [['&']]
  | 7 => [['=', '='], ['!', '=']]
  | 6 => [['<'], ['<', '='], ['>'], ['>', '=']]
  | 5 => [['<', '<'], ['>', '>']]
  | 4 => [['+'], ['-']]
  | 3 => [['*'], ['/'], ['%']]
  | 1 => [['.'], ['['], ['(']]
  | _ => []

/-- Whether `expression_priority_[priority]` is a level of binary operators. -/
def is_binary_level (priority : Nat) : Bool :=
  decide (priority ∈ [3, 4, 5, 6, 7, 8, 9, 10, 11, 12, 14, 15])

/-- The repetition of the binary level `priority + 1`, entered with the value
`val` on the input `rest`, ends with the value `last` on the input `rest1`, for
every bound from `m` on. -/
def loops_to (skipper : List Char → List Char) (m priority : Nat) (val : ast_node)
    (rest : List Char) (last : ast_node) (rest1 : List Char) : Prop :=
  ∀ fuel n : Nat, m ≤ fuel → m ≤ n →
    repeat_updating
      (fun v => binary_operator_round skipper (expression_priority_ skipper fuel priority) v
        (level_terminals (priority + 1))) n val rest = .matched last rest1


/-! ## Supporting lemmas: what one step of the scan can change -/

theorem table_le_refl (env : type_table) : table_le env env := fun _ _ h => h

theorem table_le_trans {e1 e2 e3 : type_table} (h12 : table_le e1 e2) (h23 : table_le e2 e3) :
    table_le e1 e3 := fun id ty h => h23 id ty (h12 id ty h)

theorem make_type_id_table_le (env : type_table) (c : environment_id_t) (a : type_attributes) :
    table_le env (make_type_id env c a).2 := by
  intro id ty h
  unfold make_type_id
  simp only
  split
  · exact h
  · unfold get_type_at at h ⊢
    have hlt : id < env.length := by
      rcases List.getElem?_eq_some.mp h with ⟨hlt, _⟩
      exact hlt
    simp only
    rw [List.getElem?_append_left hlt]
    exact h

theorem holder_assign_ok {st st1 : solver_state} {i : Nat} {v : type_id_t}
    (h : holder_assign st i v = .ok st1) :
    i < st.holder.length ∧
      st1 = ⟨st.env, st.holder.set i (some v), st.f_candidate_envs, st.calls⟩ := by
  unfold holder_assign at h
  by_cases hi : i < st.holder.length
  · simp only [hi, if_true, Except.ok.injEq] at h
    exact ⟨hi, h.symm⟩
  · simp [hi] at h

theorem holder_assign_of_lt {st : solver_state} {i : Nat} (v : type_id_t)
    (hi : i < st.holder.length) :
    holder_assign st i v =
      .ok ⟨st.env, st.holder.set i (some v), st.f_candidate_envs, st.calls⟩ := by
  simp [holder_assign, hi]

theorem solve_position_same (a : type_id_t) (i : Nat) (st : solver_state) :
    solve_position a a i st =
      match holder_assign st i a with
      | .error e => .error e
      | .ok st1 => .ok (true, st1) := by
  simp [solve_position]

theorem solve_position_differ {p a : type_id_t} (i : Nat) {st : solver_state} {tp ta : type}
    (hpa : p ≠ a) (hp : get_type_at st.env p = some tp) (ha : get_type_at st.env a = some ta) :
    solve_position p a i st =
      match convert_attributes tp ta with
      | .error e => .error e
      | .ok self_arg_type =>
        if tp.class_env_id ≠ self_arg_type.class_env_id then
          .ok (false, ⟨st.env, st.holder, st.f_candidate_envs,
            st.calls ++ [env_call.get_type_at p, env_call.get_type_at a]⟩)
        else
          match holder_assign
              ⟨(make_type_id st.env tp.class_env_id tp.attributes).2, st.holder,
                st.f_candidate_envs,
                st.calls ++ [env_call.get_type_at p, env_call.get_type_at a,
                  env_call.make_type_id tp.class_env_id tp.attributes]⟩
              i (make_type_id st.env tp.class_env_id tp.attributes).1 with
          | .error e => .error e
          | .ok st1 => .ok (true, st1) := by
  simp only [solve_position, hpa, if_false, hp, ha]

theorem solve_position_inv {p a : type_id_t} {i : Nat} {st st1 : solver_state} {b : Bool}
    (h : solve_position p a i st = .ok (b, st1)) :
    st1.f_candidate_envs = st.f_candidate_envs ∧ st1.holder.length = st.holder.length ∧
      table_le st.env st1.env := by
  by_cases hpa : p = a
  · subst hpa
    rw [solve_position_same] at h
    cases hh : holder_assign st i p with
    | error e => simp [hh] at h
    | ok s =>
      simp only [hh, Except.ok.injEq, Prod.mk.injEq] at h
      obtain ⟨_, rfl⟩ := h
      obtain ⟨_, rfl⟩ := holder_assign_ok hh
      simp [table_le_refl]
  · cases hp : get_type_at st.env p with
    | none => simp [solve_position, hpa, hp] at h
    | some tp =>
      cases ha : get_type_at st.env a with
      | none => simp [solve_position, hpa, hp, ha] at h
      | some ta =>
        rw [solve_position_differ i hpa hp ha] at h
        cases hc : convert_attributes tp ta with
        | error e => simp [hc] at h
        | ok s =>
          simp only [hc] at h
          by_cases hcls : tp.class_env_id ≠ s.class_env_id
          · rw [if_pos hcls] at h
            simp only [Except.ok.injEq, Prod.mk.injEq] at h
            obtain ⟨_, rfl⟩ := h
            simp [table_le_refl]
          · rw [if_neg hcls] at h
            cases hh : holder_assign
              ⟨(make_type_id st.env tp.class_env_id tp.attributes).2, st.holder,
                st.f_candidate_envs,
                st.calls ++ [env_call.get_type_at p, env_call.get_type_at a,
                  env_call.make_type_id tp.class_env_id tp.attributes]⟩
              i (make_type_id st.env tp.class_env_id tp.attributes).1 with
            | error e => simp [hh] at h
            | ok s2 =>
              simp only [hh, Except.ok.injEq, Prod.mk.injEq] at h
              obtain ⟨_, rfl⟩ := h
              obtain ⟨_, rfl⟩ := holder_assign_ok hh
              simp [make_type_id_table_le]

theorem position_loop_inv (ps args : List type_id_t) :
    ∀ (n i : Nat) (st st1 : solver_state) (b : Bool),
      position_loop ps args n i st = .ok (b, st1) →
      st1.f_candidate_envs = st.f_candidate_envs ∧ st1.holder.length = st.holder.length ∧
        table_le st.env st1.env := by
  intro n
  induction n with
  | zero =>
    intro i st st1 b h
    simp only [position_loop, Except.ok.injEq, Prod.mk.injEq] at h
    obtain ⟨_, rfl⟩ := h
    exact ⟨rfl, rfl, table_le_refl _⟩
  | succ n ih =>
    intro i st st1 b h
    simp only [position_loop] at h
    cases hp : ps[i]? with
    | none => simp [hp] at h
    | some p =>
      cases ha : args[i]? with
      | none => simp [hp, ha] at h
      | some a =>
        simp only [hp, ha] at h
        cases hs : solve_position p a i st with
        | error e => simp [hs] at h
        | ok r =>
          obtain ⟨b1, s1⟩ := r
          obtain ⟨h1, h2, h3⟩ := solve_position_inv hs
          cases b1 with
          | false =>
            simp only [hs, Except.ok.injEq, Prod.mk.injEq] at h
            obtain ⟨_, rfl⟩ := h
            exact ⟨h1, h2, h3⟩
          | true =>
            simp only [hs] at h
            obtain ⟨k1, k2, k3⟩ := ih (i + 1) s1 st1 b h
            exact ⟨k1.trans h1, k2.trans h2, table_le_trans h3 k3⟩

theorem solve_candidate_inv {args : List type_id_t} {c : function_symbol_environment}
    {st st1 : solver_state} (h : solve_candidate args c st = .ok st1) :
    st1.holder.length = st.holder.length ∧ table_le st.env st1.env ∧
      (st1.f_candidate_envs = st.f_candidate_envs ∨
        (st1.f_candidate_envs = st.f_candidate_envs ++ [c] ∧
          c.parameter_type_ids.length = args.length)) := by
  unfold solve_candidate at h
  by_cases hlen : c.parameter_type_ids.length ≠ args.length
  · rw [if_pos hlen] at h
    simp only [Except.ok.injEq] at h
    subst h
    exact ⟨rfl, table_le_refl _, Or.inl rfl⟩
  · rw [if_neg hlen] at h
    have hlen2 : c.parameter_type_ids.length = args.length := not_not.mp hlen
    by_cases hz : c.parameter_type_ids.length = 0
    · rw [if_pos hz] at h
      simp only [Except.ok.injEq] at h
      subst h
      exact ⟨rfl, table_le_refl _, Or.inr ⟨rfl, hlen2⟩⟩
    · rw [if_neg hz] at h
      cases hl : position_loop c.parameter_type_ids args args.length 0 st with
      | error e => simp [hl] at h
      | ok r =>
        obtain ⟨b1, s1⟩ := r
        obtain ⟨h1, h2, h3⟩ := position_loop_inv _ _ _ _ _ _ _ hl
        cases b1 with
        | false =>
          simp only [hl, Except.ok.injEq] at h
          subst h
          exact ⟨h2, h3, Or.inl h1⟩
        | true =>
          simp only [hl, Except.ok.injEq] at h
          subst h
          refine ⟨h2, h3, Or.inr ⟨?_, hlen2⟩⟩
          simp [push_candidate, h1]

theorem scan_overloads_inv (args : List type_id_t) :
    ∀ (overloads : List function_symbol_environment) (st st1 : solver_state),
      scan_overloads args overloads st = .ok st1 →
      st1.holder.length = st.holder.length ∧ table_le st.env st1.env ∧
        ∃ accepted : List function_symbol_environment,
          st1.f_candidate_envs = st.f_candidate_envs ++ accepted ∧
            accepted.Sublist overloads ∧
            ∀ c ∈ accepted, c.parameter_type_ids.length = args.length := by
  intro overloads
  induction overloads with
  | nil =>
    intro st st1 h
    simp only [scan_overloads, Except.ok.injEq] at h
    subst h
    exact ⟨rfl, table_le_refl _, [], by simp, List.Sublist.refl _, by simp⟩
  | cons c rest ih =>
    intro st st1 h
    simp only [scan_overloads] at h
    cases hc : solve_candidate args c st with
    | error e => simp [hc] at h
    | ok s1 =>
      simp only [hc] at h
      obtain ⟨h1, h2, h3⟩ := solve_candidate_inv hc
      obtain ⟨k1, k2, acc, k3, k4, k5⟩ := ih s1 st1 h
      refine ⟨k1.trans h1, table_le_trans h2 k2, ?_⟩
      rcases h3 with h3 | ⟨h3, h4⟩
      · refine ⟨acc, ?_, k4.cons _, k5⟩
        rw [k3, h3]
      · refine ⟨c :: acc, ?_, k4.cons₂ _, ?_⟩
        · rw [k3, h3]; simp
        · intro d hd
          rcases List.mem_cons.mp hd with rfl | hd
          · exact h4
          · exact k5 d hd

theorem scan_overloads_append (args : List type_id_t) :
    ∀ (xs ys : List function_symbol_environment) (st : solver_state),
      scan_overloads args (xs ++ ys) st =
        match scan_overloads args xs st with
        | .error e => .error e
        | .ok st1 => scan_overloads args ys st1 := by
  intro xs
  induction xs with
  | nil => intro ys st; simp [scan_overloads]
  | cons c rest ih =>
    intro ys st
    simp only [List.cons_append, scan_overloads]
    cases hc : solve_candidate args c st with
    | error e => simp
    | ok s1 => simp [ih]

/-! ## Supporting lemmas: the selection callbacks -/

theorem select_unique_singleton (c : function_symbol_environment) :
    select_unique [c] = .ok (some c) := rfl

theorem select_unique_allow_no_entry_singleton (c : function_symbol_environment) :
    select_unique_allow_no_entry [c] = .ok (some c) := rfl

theorem select_unique_many {l : List function_symbol_environment} (h : 1 < l.length) :
    select_unique l = .error .duplicate := by
  unfold select_unique
  have h0 : ¬ l.length = 0 := by omega
  rw [if_neg h0, if_pos h]

theorem select_unique_allow_no_entry_many {l : List function_symbol_environment}
    (h : 1 < l.length) : select_unique_allow_no_entry l = .error .duplicate := by
  unfold select_unique_allow_no_entry
  have h0 : ¬ l.length = 0 := by omega
  rw [if_neg h0, if_pos h]

theorem select_unique_mem {l : List function_symbol_environment}
    {c : function_symbol_environment} (h : select_unique l = .ok (some c)) : l = [c] := by
  match l, h with
  | [], h => simp [select_unique] at h
  | [d], h =>
    simp only [select_unique_singleton, Except.ok.injEq, Option.some.injEq] at h
    rw [h]
  | d :: e :: rest, h =>
    rw [select_unique_many (by simp)] at h
    simp at h

theorem overload_solver_with_of_scan {args : List type_id_t}
    {overloads : List function_symbol_environment} {env : type_table} {st : solver_state}
    (f : List function_symbol_environment →
      Except assertion_failure function_symbol_environment_ptr)
    (h : overload_scan args overloads env = .ok st) :
    overload_solver_with args overloads env f = f st.f_candidate_envs := by
  simp [overload_solver_with, h]

theorem overload_scan_accepted {args : List type_id_t}
    {overloads : List function_symbol_environment} {env : type_table} {st : solver_state}
    (h : overload_scan args overloads env = .ok st) :
    st.f_candidate_envs.Sublist overloads ∧
      ∀ c ∈ st.f_candidate_envs, c.parameter_type_ids.length = args.length := by
  obtain ⟨_, _, acc, h1, h2, h3⟩ := scan_overloads_inv args overloads _ _ h
  simp only [initial_state, List.nil_append] at h1
  rw [h1]
  exact ⟨h2, h3⟩


/-! ## Supporting lemmas: candidates whose parameter type ids are the argument type ids -/

theorem position_loop_same (args : List type_id_t) :
    ∀ (n i : Nat) (st : solver_state), i + n = args.length → st.holder.length = args.length →
      ∃ holder1 : List (Option type_id_t),
        position_loop args args n i st =
            .ok (true, ⟨st.env, holder1, st.f_candidate_envs, st.calls⟩) ∧
          holder1.length = args.length ∧
          (∀ j, j < i → holder1[j]? = st.holder[j]?) ∧
          (∀ j a, i ≤ j → args[j]? = some a → holder1[j]? = some (some a)) := by
  intro n
  induction n with
  | zero =>
    intro i st hi hlen
    refine ⟨st.holder, by simp [position_loop], hlen, fun _ _ => rfl, ?_⟩
    intro j a hij haj
    have hj : j < args.length := (List.getElem?_eq_some.mp haj).1
    omega
  | succ n ih =>
    intro i st hi hlen
    have hilt : i < args.length := by omega
    have hget : args[i]? = some args[i] := List.getElem?_eq_getElem hilt
    have hih : i < st.holder.length := by omega
    obtain ⟨holder1, h1, h2, h3, h4⟩ :=
      ih (i + 1) ⟨st.env, st.holder.set i (some args[i]), st.f_candidate_envs, st.calls⟩
        (by omega) (by simp [hlen])
    refine ⟨holder1, ?_, h2, ?_, ?_⟩
    · simp only [position_loop, hget, solve_position_same, holder_assign_of_lt _ hih]
      exact h1
    · intro j hj
      rw [h3 j (by omega)]
      simp only
      rw [List.getElem?_set_ne (by omega)]
    · intro j a hij haj
      by_cases hji : j = i
      · subst hji
        rw [h3 j (by omega)]
        simp only
        rw [List.getElem?_set_self hih]
        rw [hget] at haj
        simp only [Option.some.injEq] at haj
        rw [haj]
      · exact h4 j a (by omega) haj

theorem solve_candidate_same (args : List type_id_t) (c : function_symbol_environment)
    (st : solver_state) (hsame : c.parameter_type_ids = args)
    (hholder : st.holder.length = args.length) :
    solve_candidate args c st =
      .ok ⟨st.env, args.map some, st.f_candidate_envs ++ [c], st.calls⟩ := by
  unfold solve_candidate
  rw [hsame]
  rw [if_neg (by simp)]
  by_cases hz : args.length = 0
  · rw [if_pos hz]
    have hnil : args = [] := List.length_eq_zero.mp hz
    have hh : st.holder = [] := List.length_eq_zero.mp (by omega)
    simp [push_candidate, hnil, hh]
  · rw [if_neg hz]
    obtain ⟨holder1, h1, h2, _, h4⟩ := position_loop_same args args.length 0 st (by simp) hholder
    rw [h1]
    have hh : holder1 = args.map some := by
      apply List.ext_getElem?
      intro j
      by_cases hj : j < args.length
      · rw [h4 j args[j] (by omega) (List.getElem?_eq_getElem hj)]
        simp [List.getElem?_eq_getElem hj]
      · rw [List.getElem?_eq_none (by omega), List.getElem?_eq_none (by simp; omega)]
    simp [push_candidate, hh]

theorem scan_overloads_no_argument :
    ∀ (overloads : List function_symbol_environment) (st : solver_state),
      scan_overloads [] overloads st =
        .ok ⟨st.env, st.holder,
          st.f_candidate_envs ++
            overloads.filter (fun c => decide (c.parameter_type_ids.length = 0)),
          st.calls⟩ := by
  intro overloads
  induction overloads with
  | nil => intro st; simp [scan_overloads]
  | cons c rest ih =>
    intro st
    simp only [scan_overloads, solve_candidate, List.length_nil]
    by_cases hz : c.parameter_type_ids.length = 0
    · have hnil : c.parameter_type_ids = [] := List.length_eq_zero.mp hz
      simp [hz, hnil, ih, push_candidate, List.filter_cons]
    · have hnil : ¬ c.parameter_type_ids = [] := fun h => hz (by simp [h])
      simp [hz, hnil, ih, List.filter_cons]

/-! ## Supporting lemmas: positions at which the attribute step asserts -/

theorem solve_position_abort {p a : type_id_t} (i : Nat) {st : solver_state} {tp ta : type}
    {e : assertion_failure} (hne : p ≠ a) (hp : get_type_at st.env p = some tp)
    (ha : get_type_at st.env a = some ta) (hconv : convert_attributes tp ta = .error e) :
    solve_position p a i st = .error e := by
  rw [solve_position_differ i hne hp ha, hconv]

theorem position_loop_add (ps args : List type_id_t) :
    ∀ (k i m : Nat) (st : solver_state),
      position_loop ps args (k + m) i st =
        match position_loop ps args k i st with
        | .error e => .error e
        | .ok (true, st1) => position_loop ps args m (i + k) st1
        | .ok (false, st1) => .ok (false, st1) := by
  intro k
  induction k with
  | zero => intro i m st; simp [position_loop]
  | succ k ih =>
    intro i m st
    have hkm : k + 1 + m = (k + m) + 1 := by omega
    rw [hkm]
    simp only [position_loop]
    cases hp : ps[i]? with
    | none => simp
    | some p =>
      cases ha : args[i]? with
      | none => simp
      | some a =>
        simp only
        cases hs : solve_position p a i st with
        | error e => simp
        | ok r =>
          obtain ⟨b1, s1⟩ := r
          cases b1 with
          | false => simp
          | true =>
            simp only
            rw [ih (i + 1) m s1]
            have hik : i + 1 + k = i + (k + 1) := by omega
            rw [hik]

theorem position_loop_never_succeeds (ps args : List type_id_t) (k : Nat) (p a : type_id_t)
    (tp ta : type) (e : assertion_failure) (hp : ps[k]? = some p) (ha : args[k]? = some a)
    (hne : p ≠ a) (hconv : convert_attributes tp ta = .error e) :
    ∀ (n i : Nat) (st st1 : solver_state), i ≤ k → k < i + n →
      get_type_at st.env p = some tp → get_type_at st.env a = some ta →
      position_loop ps args n i st ≠ .ok (true, st1) := by
  intro n
  induction n with
  | zero => intro i st st1 h1 h2; omega
  | succ n ih =>
    intro i st st1 h1 h2 htp hta h
    simp only [position_loop] at h
    by_cases hik : i = k
    · subst hik
      simp only [hp, ha, solve_position_abort i hne htp hta hconv] at h
      simp at h
    · cases hp1 : ps[i]? with
      | none => simp [hp1] at h
      | some p1 =>
        cases ha1 : args[i]? with
        | none => simp [hp1, ha1] at h
        | some a1 =>
          simp only [hp1, ha1] at h
          cases hs : solve_position p1 a1 i st with
          | error e1 => simp [hs] at h
          | ok r =>
            obtain ⟨b1, s1⟩ := r
            cases b1 with
            | false => simp [hs] at h
            | true =>
              simp only [hs] at h
              obtain ⟨_, _, hle⟩ := solve_position_inv hs
              exact ih (i + 1) s1 st1 (by omega) (by omega) (hle _ _ htp) (hle _ _ hta) h

theorem solve_candidate_never_accepts {args : List type_id_t} {c : function_symbol_environment}
    {k : Nat} {p a : type_id_t} {tp ta : type} {e : assertion_failure}
    (hp : c.parameter_type_ids[k]? = some p) (ha : args[k]? = some a) (hne : p ≠ a)
    (hconv : convert_attributes tp ta = .error e) {st st1 : solver_state}
    (htp : get_type_at st.env p = some tp) (hta : get_type_at st.env a = some ta)
    (h : solve_candidate args c st = .ok st1) :
    st1.f_candidate_envs = st.f_candidate_envs := by
  have hk : k < args.length := (List.getElem?_eq_some.mp ha).1
  unfold solve_candidate at h
  by_cases hlen : c.parameter_type_ids.length ≠ args.length
  · rw [if_pos hlen] at h
    simp only [Except.ok.injEq] at h
    rw [h]
  · rw [if_neg hlen] at h
    have hlen2 : c.parameter_type_ids.length = args.length := not_not.mp hlen
    rw [if_neg (by omega)] at h
    cases hl : position_loop c.parameter_type_ids args args.length 0 st with
    | error e1 => simp [hl] at h
    | ok r =>
      obtain ⟨b1, s1⟩ := r
      cases b1 with
      | false =>
        simp only [hl, Except.ok.injEq] at h
        subst h
        exact (position_loop_inv _ _ _ _ _ _ _ hl).1
      | true =>
        exact absurd hl
          (position_loop_never_succeeds _ _ k p a tp ta e hp ha hne hconv _ 0 st s1
            (by omega) (by omega) htp hta)

theorem scan_overloads_never_accepts {args : List type_id_t} {c : function_symbol_environment}
    {k : Nat} {p a : type_id_t} {tp ta : type} {e : assertion_failure}
    (hp : c.parameter_type_ids[k]? = some p) (ha : args[k]? = some a) (hne : p ≠ a)
    (hconv : convert_attributes tp ta = .error e) :
    ∀ (overloads : List function_symbol_environment) (st st1 : solver_state),
      get_type_at st.env p = some tp → get_type_at st.env a = some ta →
      c ∉ st.f_candidate_envs → scan_overloads args overloads st = .ok st1 →
      c ∉ st1.f_candidate_envs := by
  intro overloads
  induction overloads with
  | nil =>
    intro st st1 _ _ hc h
    simp only [scan_overloads, Except.ok.injEq] at h
    rw [← h]
    exact hc
  | cons d rest ih =>
    intro st st1 htp hta hc h
    simp only [scan_overloads] at h
    cases hd : solve_candidate args d st with
    | error e1 => simp [hd] at h
    | ok s1 =>
      simp only [hd] at h
      obtain ⟨_, hle, hacc⟩ := solve_candidate_inv hd
      refine ih s1 st1 (hle _ _ htp) (hle _ _ hta) ?_ h
      by_cases hdc : d = c
      · subst hdc
        rw [solve_candidate_never_accepts hp ha hne hconv htp hta hd]
        exact hc
      · rcases hacc with hacc | ⟨hacc, _⟩
        · rw [hacc]; exact hc
        · rw [hacc]
          simp only [List.mem_append, List.mem_singleton, not_or]
          exact ⟨hc, fun h => hdc h.symm⟩

theorem solve_candidate_abort {args : List type_id_t} {c : function_symbol_environment}
    {k : Nat} {p a : type_id_t} {tp ta : type} {e : assertion_failure}
    {st st1 : solver_state}
    (hlen : c.parameter_type_ids.length = args.length)
    (hfirst : position_loop c.parameter_type_ids args k 0 st = .ok (true, st1))
    (hp : c.parameter_type_ids[k]? = some p) (ha : args[k]? = some a) (hne : p ≠ a)
    (htp : get_type_at st.env p = some tp) (hta : get_type_at st.env a = some ta)
    (hconv : convert_attributes tp ta = .error e) :
    solve_candidate args c st = .error e := by
  have hk : k < args.length := (List.getElem?_eq_some.mp ha).1
  obtain ⟨_, _, hle⟩ := position_loop_inv _ _ _ _ _ _ _ hfirst
  unfold solve_candidate
  rw [if_neg (by omega), if_neg (by omega)]
  have hsplit : args.length = k + ((args.length - k - 1) + 1) := by omega
  rw [hsplit, position_loop_add, hfirst]
  simp only [position_loop, Nat.zero_add, hp, ha,
    solve_position_abort k hne (hle _ _ htp) (hle _ _ hta) hconv]

/-! ## Supporting lemmas: the class check -/

theorem convert_attributes_keeps_class {tp ta s : type}
    (hq : ¬ (tp.attributes.quality = .k_val ∧ ta.attributes.quality = .k_ref))
    (h : convert_attributes tp ta = .ok s) : s.class_env_id = ta.class_env_id := by
  obtain ⟨cp, ⟨qp, mp⟩⟩ := tp
  obtain ⟨ca, ⟨qa, ma⟩⟩ := ta
  cases qp <;> cases qa <;> cases mp <;> cases ma <;>
    simp [convert_attributes, convert_quality, check_modifiability] at h hq ⊢ <;>
    simp [← h]

theorem solve_position_class_mismatch {p a : type_id_t} (i : Nat) {st : solver_state}
    {tp ta : type} (hne : p ≠ a) (hp : get_type_at st.env p = some tp)
    (ha : get_type_at st.env a = some ta) (hcls : tp.class_env_id ≠ ta.class_env_id)
    (hq : ¬ (tp.attributes.quality = .k_val ∧ ta.attributes.quality = .k_ref))
    (st1 : solver_state) : solve_position p a i st ≠ .ok (true, st1) := by
  rw [solve_position_differ i hne hp ha]
  cases hc : convert_attributes tp ta with
  | error e => simp
  | ok s =>
    have hs : tp.class_env_id ≠ s.class_env_id := by
      rw [convert_attributes_keeps_class hq hc]; exact hcls
    simp only
    rw [if_pos hs]
    simp

/-! ## Class identity and assertions during candidate filtering -/

/-- C1 at its failing input: the argument type is `{ref, immutable}` of class
0, the only candidate has one `{val, immutable}` parameter of class 1.  The
classes differ, yet the candidate is accepted and returned: the `val` branch
of the quality conversion assigns the whole parameter type to `self_arg_type`,
class included, so the class check that follows compares the parameter's class
with itself. -/
theorem ref_argument_val_parameter_class_mismatch_accepted :
    get_type_at [⟨0, ⟨.k_ref, .k_immutable⟩⟩, ⟨1, ⟨.k_val, .k_immutable⟩⟩] 0 =
        some ⟨0, ⟨.k_ref, .k_immutable⟩⟩ ∧
      get_type_at [⟨0, ⟨.k_ref, .k_immutable⟩⟩, ⟨1, ⟨.k_val, .k_immutable⟩⟩] 1 =
        some ⟨1, ⟨.k_val, .k_immutable⟩⟩ ∧
      convert_attributes ⟨1, ⟨.k_val, .k_immutable⟩⟩ ⟨0, ⟨.k_ref, .k_immutable⟩⟩ =
        .ok ⟨1, ⟨.k_val, .k_immutable⟩⟩ ∧
      overload_scan [0] [⟨0, [1]⟩]
          [⟨0, ⟨.k_ref, .k_immutable⟩⟩, ⟨1, ⟨.k_val, .k_immutable⟩⟩] =
        .ok ⟨[⟨0, ⟨.k_ref, .k_immutable⟩⟩, ⟨1, ⟨.k_val, .k_immutable⟩⟩], [some 1],
          [⟨0, [1]⟩],
          [.get_type_at 1, .get_type_at 0, .make_type_id 1 ⟨.k_val, .k_immutable⟩]⟩ ∧
      overload_solver [0] [⟨0, [1]⟩]
          [⟨0, ⟨.k_ref, .k_immutable⟩⟩, ⟨1, ⟨.k_val, .k_immutable⟩⟩] =
        .ok (some ⟨0, [1]⟩) := by
  decide

/-- C2 (as amended): a position whose attribute step asserts (for example a
`{val, immutable}` argument against a `{ref, mutable}` parameter, differing
type ids) does not make the scan skip the candidate.  Once the scan reaches the
position (the candidates before it were scanned and the positions before it
passed without an assertion failure) the run stops at that assertion: the
candidates after it are not tried and neither `overload_solver` nor
`overload_solver_allow_no_entry` returns a signature, whatever candidates
follow. -/
theorem asserting_conversion_stops_resolution (args : List type_id_t)
    (before after : List function_symbol_environment) (c : function_symbol_environment)
    (env : type_table) (st st1 : solver_state) (k : Nat) (p a : type_id_t) (tp ta : type)
    (e : assertion_failure)
    (hbefore : scan_overloads args before (initial_state args env) = .ok st)
    (hlen : c.parameter_type_ids.length = args.length)
    (hfirst : position_loop c.parameter_type_ids args k 0 st = .ok (true, st1))
    (hp : c.parameter_type_ids[k]? = some p) (ha : args[k]? = some a) (hne : p ≠ a)
    (htp : get_type_at env p = some tp) (hta : get_type_at env a = some ta)
    (hconv : convert_attributes tp ta = .error e) :
    overload_scan args (before ++ c :: after) env = .error e ∧
      overload_solver args (before ++ c :: after) env = .error e ∧
      overload_solver_allow_no_entry args (before ++ c :: after) env = .error e := by
  obtain ⟨_, hle, _⟩ := scan_overloads_inv args before _ _ hbefore
  have hscan : overload_scan args (before ++ c :: after) env = .error e := by
    unfold overload_scan
    rw [scan_overloads_append, hbefore]
    simp only [scan_overloads]
    rw [solve_candidate_abort hlen hfirst hp ha hne (hle _ _ htp) (hle _ _ hta) hconv]
  refine ⟨hscan, ?_, ?_⟩
  · simp [overload_solver, overload_solver_with, hscan]
  · simp [overload_solver_allow_no_entry, overload_solver_with, hscan]

/-- A concrete instance: the asserting candidate comes first and is followed by a
candidate with the argument type ids themselves. -/
theorem asserting_conversion_stops_resolution_witness :
    overload_scan [0] ([] ++ ⟨0, [1]⟩ :: [⟨1, [0]⟩])
        [⟨0, ⟨.k_val, .k_immutable⟩⟩, ⟨0, ⟨.k_ref, .k_mutable⟩⟩] =
          .error .invalid_mutable_from_immutable ∧
      overload_solver [0] ([] ++ ⟨0, [1]⟩ :: [⟨1, [0]⟩])
        [⟨0, ⟨.k_val, .k_immutable⟩⟩, ⟨0, ⟨.k_ref, .k_mutable⟩⟩] =
          .error .invalid_mutable_from_immutable ∧
      overload_solver_allow_no_entry [0] ([] ++ ⟨0, [1]⟩ :: [⟨1, [0]⟩])
        [⟨0, ⟨.k_val, .k_immutable⟩⟩, ⟨0, ⟨.k_ref, .k_mutable⟩⟩] =
          .error .invalid_mutable_from_immutable :=
  asserting_conversion_stops_resolution [0] [] [⟨1, [0]⟩] ⟨0, [1]⟩
    [⟨0, ⟨.k_val, .k_immutable⟩⟩, ⟨0, ⟨.k_ref, .k_mutable⟩⟩]
    (initial_state [0] [⟨0, ⟨.k_val, .k_immutable⟩⟩, ⟨0, ⟨.k_ref, .k_mutable⟩⟩])
    (initial_state [0] [⟨0, ⟨.k_val, .k_immutable⟩⟩, ⟨0, ⟨.k_ref, .k_mutable⟩⟩])
    0 1 0 ⟨0, ⟨.k_ref, .k_mutable⟩⟩ ⟨0, ⟨.k_val, .k_immutable⟩⟩
    .invalid_mutable_from_immutable rfl rfl rfl rfl rfl (by decide) rfl rfl rfl

/-- C2 (as stated) fails: the first candidate has a `{ref, mutable}` parameter
of the class of the `{val, immutable}` argument, the second candidate has the
argument's own type id.  Resolution does not skip the first candidate and
return the second, as it does on the overload set without the first: it stops
at the assertion. -/
theorem rejected_conversion_is_not_skipped :
    get_type_at [⟨0, ⟨.k_val, .k_immutable⟩⟩, ⟨0, ⟨.k_ref, .k_mutable⟩⟩] 0 =
        some ⟨0, ⟨.k_val, .k_immutable⟩⟩ ∧
      get_type_at [⟨0, ⟨.k_val, .k_immutable⟩⟩, ⟨0, ⟨.k_ref, .k_mutable⟩⟩] 1 =
        some ⟨0, ⟨.k_ref, .k_mutable⟩⟩ ∧
      overload_solver [0] [⟨1, [0]⟩]
        [⟨0, ⟨.k_val, .k_immutable⟩⟩, ⟨0, ⟨.k_ref, .k_mutable⟩⟩] = .ok (some ⟨1, [0]⟩) ∧
      overload_solver [0] [⟨0, [1]⟩, ⟨1, [0]⟩]
        [⟨0, ⟨.k_val, .k_immutable⟩⟩, ⟨0, ⟨.k_ref, .k_mutable⟩⟩] =
          .error .invalid_mutable_from_immutable ∧
      overload_solver [0] [⟨0, [1]⟩, ⟨1, [0]⟩]
          [⟨0, ⟨.k_val, .k_immutable⟩⟩, ⟨0, ⟨.k_ref, .k_mutable⟩⟩] ≠
        overload_solver [0] [⟨1, [0]⟩]
          [⟨0, ⟨.k_val, .k_immutable⟩⟩, ⟨0, ⟨.k_ref, .k_mutable⟩⟩] := by
  decide

/-! ## The selection policy -/

/-- C3: when the scan ends with more than one accepted candidate, both
`overload_solver` and `overload_solver_allow_no_entry` stop at the assertion
`"duplecate?..."` (the ambiguity failure) and return no signature; in
particular this is the outcome for an overload set of two candidates whose
parameter type ids are exactly the argument type ids. -/
theorem more_than_one_accepted_is_duplicate_failure (args : List type_id_t) (env : type_table) :
    (∀ (overloads : List function_symbol_environment) (st : solver_state),
      overload_scan args overloads env = .ok st → 1 < st.f_candidate_envs.length →
        overload_solver args overloads env = .error .duplicate ∧
          overload_solver_allow_no_entry args overloads env = .error .duplicate) ∧
    (∀ c1 c2 : function_symbol_environment,
      c1.parameter_type_ids = args → c2.parameter_type_ids = args →
        (∃ st, overload_scan args [c1, c2] env = .ok st ∧ st.f_candidate_envs = [c1, c2]) ∧
          overload_solver args [c1, c2] env = .error .duplicate ∧
          overload_solver_allow_no_entry args [c1, c2] env = .error .duplicate) := by
  have general : ∀ (overloads : List function_symbol_environment) (st : solver_state),
      overload_scan args overloads env = .ok st → 1 < st.f_candidate_envs.length →
        overload_solver args overloads env = .error .duplicate ∧
          overload_solver_allow_no_entry args overloads env = .error .duplicate := by
    intro overloads st hscan hmany
    unfold overload_solver overload_solver_allow_no_entry
    rw [overload_solver_with_of_scan _ hscan, overload_solver_with_of_scan _ hscan]
    exact ⟨select_unique_many hmany, select_unique_allow_no_entry_many hmany⟩
  refine ⟨general, ?_⟩
  intro c1 c2 h1 h2
  have hscan : overload_scan args [c1, c2] env =
      .ok ⟨env, args.map some, [c1, c2], []⟩ := by
    simp only [overload_scan, scan_overloads]
    rw [solve_candidate_same args c1 _ h1 (by simp [initial_state])]
    simp only
    rw [solve_candidate_same args c2 _ h2 (by simp)]
    simp [initial_state]
  exact ⟨⟨_, hscan, rfl⟩, general _ _ hscan (by simp)⟩

/-- A concrete instance: two accepted candidates, once through a conversion and once
with the argument type ids themselves. -/
theorem more_than_one_accepted_is_duplicate_failure_witness :
    (overload_solver [0] [⟨0, [1]⟩, ⟨1, [0]⟩]
          [⟨0, ⟨.k_val, .k_mutable⟩⟩, ⟨0, ⟨.k_ref, .k_mutable⟩⟩] = .error .duplicate ∧
        overload_solver_allow_no_entry [0] [⟨0, [1]⟩, ⟨1, [0]⟩]
          [⟨0, ⟨.k_val, .k_mutable⟩⟩, ⟨0, ⟨.k_ref, .k_mutable⟩⟩] = .error .duplicate) ∧
      (overload_solver [0] [⟨0, [0]⟩, ⟨1, [0]⟩] [⟨0, ⟨.k_val, .k_mutable⟩⟩] =
          .error .duplicate ∧
        overload_solver_allow_no_entry [0] [⟨0, [0]⟩, ⟨1, [0]⟩] [⟨0, ⟨.k_val, .k_mutable⟩⟩] =
          .error .duplicate) :=
  ⟨(more_than_one_accepted_is_duplicate_failure [0]
      [⟨0, ⟨.k_val, .k_mutable⟩⟩, ⟨0, ⟨.k_ref, .k_mutable⟩⟩]).1
      [⟨0, [1]⟩, ⟨1, [0]⟩]
      ⟨[⟨0, ⟨.k_val, .k_mutable⟩⟩, ⟨0, ⟨.k_ref, .k_mutable⟩⟩], [some 0],
        [⟨0, [1]⟩, ⟨1, [0]⟩],
        [.get_type_at 1, .get_type_at 0, .make_type_id 0 ⟨.k_ref, .k_mutable⟩]⟩
      rfl (by decide),
    ((more_than_one_accepted_is_duplicate_failure [0] [⟨0, ⟨.k_val, .k_mutable⟩⟩]).2
      ⟨0, [0]⟩ ⟨1, [0]⟩ rfl rfl).2⟩

/-- C4: when the scan ends with an empty accepted list, `overload_solver` stops
at the assertion `"Overload failed..."` (no matching overload) and returns no
signature, while `overload_solver_allow_no_entry` returns `nullptr` without
failing. -/
theorem none_accepted_fails_or_returns_null (args : List type_id_t)
    (overloads : List function_symbol_environment) (env : type_table) (st : solver_state)
    (hscan : overload_scan args overloads env = .ok st) (hnone : st.f_candidate_envs = []) :
    overload_solver args overloads env = .error .overload_failed ∧
      overload_solver_allow_no_entry args overloads env = .ok none := by
  unfold overload_solver overload_solver_allow_no_entry
  rw [overload_solver_with_of_scan _ hscan, overload_solver_with_of_scan _ hscan, hnone]
  exact ⟨rfl, rfl⟩

/-- A concrete instance: the only candidate has a parameter of another class. -/
theorem none_accepted_fails_or_returns_null_witness :
    overload_solver [0] [⟨0, [1]⟩]
        [⟨0, ⟨.k_val, .k_mutable⟩⟩, ⟨1, ⟨.k_val, .k_mutable⟩⟩] = .error .overload_failed ∧
      overload_solver_allow_no_entry [0] [⟨0, [1]⟩]
        [⟨0, ⟨.k_val, .k_mutable⟩⟩, ⟨1, ⟨.k_val, .k_mutable⟩⟩] = .ok none :=
  none_accepted_fails_or_returns_null [0] [⟨0, [1]⟩]
    [⟨0, ⟨.k_val, .k_mutable⟩⟩, ⟨1, ⟨.k_val, .k_mutable⟩⟩]
    ⟨[⟨0, ⟨.k_val, .k_mutable⟩⟩, ⟨1, ⟨.k_val, .k_mutable⟩⟩], [none], [],
      [.get_type_at 1, .get_type_at 0]⟩
    rfl rfl

/-- C5: when the scan ends with exactly one accepted candidate, both
`overload_solver` and `overload_solver_allow_no_entry` return that candidate,
and it is a member of the overload set that was given. -/
theorem single_accepted_is_returned (args : List type_id_t)
    (overloads : List function_symbol_environment) (env : type_table) (st : solver_state)
    (c : function_symbol_environment)
    (hscan : overload_scan args overloads env = .ok st) (hone : st.f_candidate_envs = [c]) :
    overload_solver args overloads env = .ok (some c) ∧
      overload_solver_allow_no_entry args overloads env = .ok (some c) ∧
      c ∈ overloads := by
  unfold overload_solver overload_solver_allow_no_entry
  rw [overload_solver_with_of_scan _ hscan, overload_solver_with_of_scan _ hscan, hone]
  refine ⟨rfl, rfl, ?_⟩
  have hsub := (overload_scan_accepted hscan).1
  rw [hone] at hsub
  exact hsub.subset (List.mem_singleton.mpr rfl)

/-- A concrete instance: of three candidates only the last one is accepted. -/
theorem single_accepted_is_returned_witness :
    overload_solver [0] [⟨0, [1]⟩, ⟨1, [0, 0]⟩, ⟨2, [2]⟩]
        [⟨0, ⟨.k_val, .k_mutable⟩⟩, ⟨1, ⟨.k_val, .k_mutable⟩⟩, ⟨0, ⟨.k_ref, .k_mutable⟩⟩] =
          .ok (some ⟨2, [2]⟩) ∧
      overload_solver_allow_no_entry [0] [⟨0, [1]⟩, ⟨1, [0, 0]⟩, ⟨2, [2]⟩]
        [⟨0, ⟨.k_val, .k_mutable⟩⟩, ⟨1, ⟨.k_val, .k_mutable⟩⟩, ⟨0, ⟨.k_ref, .k_mutable⟩⟩] =
          .ok (some ⟨2, [2]⟩) ∧
      (⟨2, [2]⟩ : function_symbol_environment) ∈
        [(⟨0, [1]⟩ : function_symbol_environment), ⟨1, [0, 0]⟩, ⟨2, [2]⟩] :=
  single_accepted_is_returned [0] [⟨0, [1]⟩, ⟨1, [0, 0]⟩, ⟨2, [2]⟩]
    [⟨0, ⟨.k_val, .k_mutable⟩⟩, ⟨1, ⟨.k_val, .k_mutable⟩⟩, ⟨0, ⟨.k_ref, .k_mutable⟩⟩]
    ⟨[⟨0, ⟨.k_val, .k_mutable⟩⟩, ⟨1, ⟨.k_val, .k_mutable⟩⟩, ⟨0, ⟨.k_ref, .k_mutable⟩⟩],
      [some 2], [⟨2, [2]⟩],
      [.get_type_at 1, .get_type_at 0, .get_type_at 2, .get_type_at 0,
        .make_type_id 0 ⟨.k_ref, .k_mutable⟩]⟩
    ⟨2, [2]⟩ rfl rfl

/-! ## Candidate filtering -/

/-- C6: every candidate in the accepted list of `overload_solver` has exactly
as many parameter type ids as there are arguments; a candidate of another arity
leaves the whole solver state as it was: it is not accepted and no environment
call (no dereference, no `make_type_id`) is made for it. -/
theorem arity_mismatch_never_accepted (args : List type_id_t) :
    (∀ (overloads : List function_symbol_environment) (env : type_table) (st : solver_state),
      overload_scan args overloads env = .ok st →
        ∀ c ∈ st.f_candidate_envs, c.parameter_type_ids.length = args.length) ∧
    (∀ (c : function_symbol_environment) (st : solver_state),
      c.parameter_type_ids.length ≠ args.length → solve_candidate args c st = .ok st) := by
  refine ⟨fun overloads env st hscan => (overload_scan_accepted hscan).2, ?_⟩
  intro c st hlen
  unfold solve_candidate
  rw [if_pos hlen]

/-- A concrete instance: a two-parameter candidate against one argument. -/
theorem arity_mismatch_never_accepted_witness :
    (∀ c ∈ [(⟨1, [0]⟩ : function_symbol_environment)], c.parameter_type_ids.length = 1) ∧
      solve_candidate [0] ⟨0, [0, 0]⟩ ⟨[⟨0, ⟨.k_val, .k_mutable⟩⟩], [none], [], []⟩ =
        .ok ⟨[⟨0, ⟨.k_val, .k_mutable⟩⟩], [none], [], []⟩ :=
  ⟨(arity_mismatch_never_accepted [0]).1 [⟨0, [0, 0]⟩, ⟨1, [0]⟩]
      [⟨0, ⟨.k_val, .k_mutable⟩⟩]
      ⟨[⟨0, ⟨.k_val, .k_mutable⟩⟩], [some 0], [⟨1, [0]⟩], []⟩ rfl,
    (arity_mismatch_never_accepted [0]).2 ⟨0, [0, 0]⟩
      ⟨[⟨0, ⟨.k_val, .k_mutable⟩⟩], [none], [], []⟩ (by decide)⟩

/-- C7: with an empty argument list the scan accepts exactly the
zero-parameter candidates, in order, and does nothing else: the type table is
unchanged and no environment call is made (no lookup, hence no attribute or
class check).  So a call with zero arguments against an overload set with
exactly one zero-parameter candidate returns that candidate. -/
theorem zero_arity_accepted_unconditionally (env : type_table) :
    (∀ overloads : List function_symbol_environment,
      overload_scan [] overloads env =
        .ok ⟨env, [],
          overloads.filter (fun c => decide (c.parameter_type_ids.length = 0)), []⟩) ∧
    (∀ (overloads : List function_symbol_environment) (c : function_symbol_environment),
      overloads.filter (fun c => decide (c.parameter_type_ids.length = 0)) = [c] →
        overload_solver [] overloads env = .ok (some c) ∧
          overload_solver_allow_no_entry [] overloads env = .ok (some c)) := by
  have hscan : ∀ overloads : List function_symbol_environment,
      overload_scan [] overloads env =
        .ok ⟨env, [],
          overloads.filter (fun c => decide (c.parameter_type_ids.length = 0)), []⟩ := by
    intro overloads
    unfold overload_scan
    rw [scan_overloads_no_argument]
    simp [initial_state]
  refine ⟨hscan, ?_⟩
  intro overloads c hc
  unfold overload_solver overload_solver_allow_no_entry
  rw [overload_solver_with_of_scan _ (hscan overloads),
    overload_solver_with_of_scan _ (hscan overloads)]
  simp only [hc]
  exact ⟨rfl, rfl⟩

/-- A concrete instance: an empty type table, one candidate without parameters. -/
theorem zero_arity_accepted_unconditionally_witness :
    overload_solver [] [⟨0, [7]⟩, ⟨1, []⟩] [] = .ok (some ⟨1, []⟩) ∧
      overload_solver_allow_no_entry [] [⟨0, [7]⟩, ⟨1, []⟩] [] = .ok (some ⟨1, []⟩) :=
  (zero_arity_accepted_unconditionally []).2 [⟨0, [7]⟩, ⟨1, []⟩] ⟨1, []⟩ rfl

/-- C8: a candidate whose parameter type ids are, position by position, the
argument type ids is accepted; the type table and the log of environment calls
are unchanged (nothing is dereferenced, `make_type_id` is not called), and every
slot of `holder` holds the argument's type id. -/
theorem identical_type_ids_accepted_without_lookup (args : List type_id_t)
    (c : function_symbol_environment) (st : solver_state)
    (hsame : c.parameter_type_ids = args) (hholder : st.holder.length = args.length) :
    solve_candidate args c st =
      .ok ⟨st.env, args.map some, st.f_candidate_envs ++ [c], st.calls⟩ :=
  solve_candidate_same args c st hsame hholder

/-- A concrete instance: two positions, and a type table that is empty, so that any
dereference would stop the run. -/
theorem identical_type_ids_accepted_without_lookup_witness :
    solve_candidate [5, 3] ⟨0, [5, 3]⟩ ⟨[], [none, none], [], []⟩ =
      .ok ⟨[], [some 5, some 3], [⟨0, [5, 3]⟩], []⟩ :=
  identical_type_ids_accepted_without_lookup [5, 3] ⟨0, [5, 3]⟩ ⟨[], [none, none], [], []⟩
    rfl rfl

/-! ## The attribute conversion -/

/-- C9: for every source type and every modifiability `m`, the attribute step
towards a parameter of attributes `{val, m}` raises no assertion and leaves the
argument with exactly the attributes `{val, m}`: the quality and the
modifiability of the source are both discarded. -/
theorem val_target_always_admitted (f_class self_class : environment_id_t)
    (a : type_attributes) (m : modifiability_kind) :
    ∃ converted : type,
      convert_attributes ⟨f_class, ⟨.k_val, m⟩⟩ ⟨self_class, a⟩ = .ok converted ∧
        converted.attributes = ⟨.k_val, m⟩ := by
  obtain ⟨q, ma⟩ := a
  cases q <;> simp [convert_attributes, convert_quality, set_modifiability]

/-- C10: a `{val, immutable}` argument is not converted to a
`{ref, mutable}` parameter: the attribute step stops at the assertion under
`mutable -> immutable : INVARID`, and for every overload set a candidate with
such a position (differing type ids) is never in the accepted list and is never
returned by `overload_solver`. -/
theorem val_immutable_to_ref_mutable_never_accepted (args : List type_id_t)
    (overloads : List function_symbol_environment) (env : type_table)
    (c : function_symbol_environment) (k : Nat) (p a : type_id_t)
    (f_class self_class : environment_id_t)
    (hp : c.parameter_type_ids[k]? = some p) (ha : args[k]? = some a) (hne : p ≠ a)
    (htp : get_type_at env p = some ⟨f_class, ⟨.k_ref, .k_mutable⟩⟩)
    (hta : get_type_at env a = some ⟨self_class, ⟨.k_val, .k_immutable⟩⟩) :
    convert_attributes ⟨f_class, ⟨.k_ref, .k_mutable⟩⟩ ⟨self_class, ⟨.k_val, .k_immutable⟩⟩ =
        .error .invalid_mutable_from_immutable ∧
      (∀ st, overload_scan args overloads env = .ok st → c ∉ st.f_candidate_envs) ∧
      overload_solver args overloads env ≠ .ok (some c) := by
  have hconv : convert_attributes ⟨f_class, ⟨.k_ref, .k_mutable⟩⟩
      ⟨self_class, ⟨.k_val, .k_immutable⟩⟩ = .error .invalid_mutable_from_immutable := rfl
  have hacc : ∀ st, overload_scan args overloads env = .ok st → c ∉ st.f_candidate_envs := by
    intro st hscan
    exact scan_overloads_never_accepts hp ha hne hconv overloads _ st htp hta
      (by simp [initial_state]) hscan
  refine ⟨hconv, hacc, ?_⟩
  intro hret
  cases hscan : overload_scan args overloads env with
  | error e => simp [overload_solver, overload_solver_with, hscan] at hret
  | ok st =>
    unfold overload_solver at hret
    rw [overload_solver_with_of_scan _ hscan] at hret
    have hmem : c ∈ st.f_candidate_envs := by
      rw [select_unique_mem hret]; exact List.mem_singleton.mpr rfl
    exact hacc st hscan hmem

/-- A concrete instance in which the scan completes: the second candidate fails
the class check at its first position and its second position is never reached. -/
theorem val_immutable_to_ref_mutable_never_accepted_witness :
    convert_attributes ⟨0, ⟨.k_ref, .k_mutable⟩⟩ ⟨0, ⟨.k_val, .k_immutable⟩⟩ =
        .error .invalid_mutable_from_immutable ∧
      (∀ st, overload_scan [0, 0] [⟨0, [0, 0]⟩, ⟨1, [2, 1]⟩]
          [⟨0, ⟨.k_val, .k_immutable⟩⟩, ⟨0, ⟨.k_ref, .k_mutable⟩⟩,
            ⟨1, ⟨.k_val, .k_immutable⟩⟩] = .ok st →
        (⟨1, [2, 1]⟩ : function_symbol_environment) ∉ st.f_candidate_envs) ∧
      overload_solver [0, 0] [⟨0, [0, 0]⟩, ⟨1, [2, 1]⟩]
          [⟨0, ⟨.k_val, .k_immutable⟩⟩, ⟨0, ⟨.k_ref, .k_mutable⟩⟩,
            ⟨1, ⟨.k_val, .k_immutable⟩⟩] ≠ .ok (some ⟨1, [2, 1]⟩) :=
  val_immutable_to_ref_mutable_never_accepted [0, 0] [⟨0, [0, 0]⟩, ⟨1, [2, 1]⟩]
    [⟨0, ⟨.k_val, .k_immutable⟩⟩, ⟨0, ⟨.k_ref, .k_mutable⟩⟩, ⟨1, ⟨.k_val, .k_immutable⟩⟩]
    ⟨1, [2, 1]⟩ 1 1 0 0 0 rfl rfl (by decide) rfl rfl


/-! ## Supporting lemmas: the type table is changed by `make_type_id` only -/

theorem table_grows_refl (env : type_table) : table_grows env env := ⟨[], by simp⟩

theorem table_grows_trans {e1 e2 e3 : type_table} (h12 : table_grows e1 e2)
    (h23 : table_grows e2 e3) : table_grows e1 e3 := by
  obtain ⟨l1, rfl⟩ := h12
  obtain ⟨l2, rfl⟩ := h23
  exact ⟨l1 ++ l2, by simp⟩

theorem table_le_of_grows {env env' : type_table} (h : table_grows env env') :
    table_le env env' := by
  obtain ⟨added, rfl⟩ := h
  intro id ty hid
  unfold get_type_at at hid ⊢
  have hlt : id < env.length := (List.getElem?_eq_some.mp hid).1
  rw [List.getElem?_append_left hlt]
  exact hid

theorem make_type_id_grows (env : type_table) (c : environment_id_t) (a : type_attributes) :
    table_grows env (make_type_id env c a).2 := by
  unfold make_type_id
  simp only
  split
  · exact table_grows_refl env
  · exact ⟨_, rfl⟩

theorem make_type_id_on_grown {env grown : type_table} (c : environment_id_t)
    (a : type_attributes) (h : table_grows (make_type_id env c a).2 grown) :
    make_type_id grown c a = ((make_type_id env c a).1, grown) := by
  unfold make_type_id at h ⊢
  simp only at h ⊢
  by_cases hmem : (⟨c, a⟩ : type) ∈ env
  · rw [if_pos hmem] at h ⊢
    obtain ⟨added, rfl⟩ := h
    have hmem2 : (⟨c, a⟩ : type) ∈ env ++ added := List.mem_append_left _ hmem
    rw [if_pos hmem2, List.indexOf_append_of_mem hmem]
  · rw [if_neg hmem] at h ⊢
    obtain ⟨added, rfl⟩ := h
    have hmem2 : (⟨c, a⟩ : type) ∈ env ++ [⟨c, a⟩] ++ added := by simp
    rw [if_pos hmem2, List.append_assoc, List.indexOf_append_of_not_mem hmem]
    simp

theorem replay_calls_append (l1 l2 : List env_call) :
    ∀ env : type_table,
      replay_calls env (l1 ++ l2) = replay_calls (replay_calls env l1) l2 := by
  induction l1 with
  | nil => intro env; rfl
  | cons call rest ih =>
    intro env
    cases call with
    | get_type_at id =>
      show replay_calls env (rest ++ l2) = replay_calls (replay_calls env rest) l2
      exact ih env
    | make_type_id c a =>
      show replay_calls (make_type_id env c a).2 (rest ++ l2) =
        replay_calls (replay_calls (make_type_id env c a).2 rest) l2
      exact ih _

theorem replay_calls_grows (l : List env_call) :
    ∀ env : type_table, table_grows env (replay_calls env l) := by
  induction l with
  | nil => intro env; exact table_grows_refl env
  | cons call rest ih =>
    intro env
    cases call with
    | get_type_at id => exact ih env
    | make_type_id c a =>
      exact table_grows_trans (make_type_id_grows env c a) (ih _)

theorem solve_position_cases {p a : type_id_t} {i : Nat} {st st1 : solver_state} {b : Bool}
    (h : solve_position p a i st = .ok (b, st1)) :
    (p = a ∧ b = true ∧ i < st.holder.length ∧
      st1 = ⟨st.env, st.holder.set i (some a), st.f_candidate_envs, st.calls⟩) ∨
    (p ≠ a ∧ ∃ tp ta s, get_type_at st.env p = some tp ∧ get_type_at st.env a = some ta ∧
      convert_attributes tp ta = .ok s ∧
      ((tp.class_env_id ≠ s.class_env_id ∧ b = false ∧
          st1 = ⟨st.env, st.holder, st.f_candidate_envs,
            st.calls ++ [env_call.get_type_at p, env_call.get_type_at a]⟩) ∨
        (tp.class_env_id = s.class_env_id ∧ b = true ∧ i < st.holder.length ∧
          st1 = ⟨(make_type_id st.env tp.class_env_id tp.attributes).2,
            st.holder.set i (some (make_type_id st.env tp.class_env_id tp.attributes).1),
            st.f_candidate_envs,
            st.calls ++ [env_call.get_type_at p, env_call.get_type_at a,
              env_call.make_type_id tp.class_env_id tp.attributes]⟩))) := by
  by_cases hpa : p = a
  · subst hpa
    left
    rw [solve_position_same] at h
    cases hh : holder_assign st i p with
    | error e => simp [hh] at h
    | ok s =>
      simp only [hh, Except.ok.injEq, Prod.mk.injEq] at h
      obtain ⟨hb, rfl⟩ := h
      obtain ⟨hi, hs⟩ := holder_assign_ok hh
      exact ⟨rfl, hb.symm, hi, hs⟩
  · right
    refine ⟨hpa, ?_⟩
    cases hp : get_type_at st.env p with
    | none => simp [solve_position, hpa, hp] at h
    | some tp =>
      cases ha : get_type_at st.env a with
      | none => simp [solve_position, hpa, hp, ha] at h
      | some ta =>
        rw [solve_position_differ i hpa hp ha] at h
        cases hc : convert_attributes tp ta with
        | error e => simp [hc] at h
        | ok s =>
          refine ⟨tp, ta, s, rfl, rfl, hc, ?_⟩
          simp only [hc] at h
          by_cases hcls : tp.class_env_id ≠ s.class_env_id
          · rw [if_pos hcls] at h
            simp only [Except.ok.injEq, Prod.mk.injEq] at h
            exact Or.inl ⟨hcls, h.1.symm, h.2.symm⟩
          · rw [if_neg hcls] at h
            right
            cases hh : holder_assign
              ⟨(make_type_id st.env tp.class_env_id tp.attributes).2, st.holder,
                st.f_candidate_envs,
                st.calls ++ [env_call.get_type_at p, env_call.get_type_at a,
                  env_call.make_type_id tp.class_env_id tp.attributes]⟩
              i (make_type_id st.env tp.class_env_id tp.attributes).1 with
            | error e => simp [hh] at h
            | ok s2 =>
              simp only [hh, Except.ok.injEq, Prod.mk.injEq] at h
              obtain ⟨hb, rfl⟩ := h
              obtain ⟨hi, hs⟩ := holder_assign_ok hh
              exact ⟨not_not.mp hcls, hb.symm, hi, hs⟩

theorem state_frame_refl (st : solver_state) : state_frame st st := ⟨[], by simp, rfl⟩

theorem state_frame_trans {s1 s2 s3 : solver_state} (h12 : state_frame s1 s2)
    (h23 : state_frame s2 s3) : state_frame s1 s3 := by
  obtain ⟨l1, hc1, he1⟩ := h12
  obtain ⟨l2, hc2, he2⟩ := h23
  refine ⟨l1 ++ l2, ?_, ?_⟩
  · rw [hc2, hc1, List.append_assoc]
  · rw [he2, he1, replay_calls_append]

theorem state_frame_grows {st st1 : solver_state} (h : state_frame st st1) :
    table_grows st.env st1.env := by
  obtain ⟨l, _, he⟩ := h
  rw [he]
  exact replay_calls_grows l st.env

theorem solve_position_frame {p a : type_id_t} {i : Nat} {st st1 : solver_state} {b : Bool}
    (h : solve_position p a i st = .ok (b, st1)) : state_frame st st1 := by
  rcases solve_position_cases h with ⟨_, _, _, rfl⟩ | ⟨_, tp, ta, s, _, _, _, hcase⟩
  · exact ⟨[], by simp, rfl⟩
  · rcases hcase with ⟨_, _, rfl⟩ | ⟨_, _, _, rfl⟩
    · exact ⟨[env_call.get_type_at p, env_call.get_type_at a], rfl, rfl⟩
    · exact ⟨[env_call.get_type_at p, env_call.get_type_at a,
        env_call.make_type_id tp.class_env_id tp.attributes], rfl, rfl⟩

theorem position_loop_frame (ps args : List type_id_t) :
    ∀ (n i : Nat) (st st1 : solver_state) (b : Bool),
      position_loop ps args n i st = .ok (b, st1) → state_frame st st1 := by
  intro n
  induction n with
  | zero =>
    intro i st st1 b h
    simp only [position_loop, Except.ok.injEq, Prod.mk.injEq] at h
    obtain ⟨_, rfl⟩ := h
    exact state_frame_refl st
  | succ n ih =>
    intro i st st1 b h
    simp only [position_loop] at h
    cases hp : ps[i]? with
    | none => simp [hp] at h
    | some p =>
      cases ha : args[i]? with
      | none => simp [hp, ha] at h
      | some a =>
        simp only [hp, ha] at h
        cases hs : solve_position p a i st with
        | error e => simp [hs] at h
        | ok r =>
          obtain ⟨b1, s1⟩ := r
          have h1 := solve_position_frame hs
          cases b1 with
          | false =>
            simp only [hs, Except.ok.injEq, Prod.mk.injEq] at h
            obtain ⟨_, rfl⟩ := h
            exact h1
          | true =>
            simp only [hs] at h
            exact state_frame_trans h1 (ih (i + 1) s1 st1 b h)

theorem push_candidate_frame (st : solver_state) (c : function_symbol_environment) :
    state_frame st (push_candidate st c) := ⟨[], by simp [push_candidate], rfl⟩

theorem solve_candidate_frame {args : List type_id_t} {c : function_symbol_environment}
    {st st1 : solver_state} (h : solve_candidate args c st = .ok st1) : state_frame st st1 := by
  unfold solve_candidate at h
  by_cases hlen : c.parameter_type_ids.length ≠ args.length
  · rw [if_pos hlen] at h
    simp only [Except.ok.injEq] at h
    subst h
    exact state_frame_refl st
  · rw [if_neg hlen] at h
    by_cases hz : c.parameter_type_ids.length = 0
    · rw [if_pos hz] at h
      simp only [Except.ok.injEq] at h
      subst h
      exact push_candidate_frame st c
    · rw [if_neg hz] at h
      cases hl : position_loop c.parameter_type_ids args args.length 0 st with
      | error e => simp [hl] at h
      | ok r =>
        obtain ⟨b1, s1⟩ := r
        have h1 := position_loop_frame _ _ _ _ _ _ _ hl
        cases b1 with
        | false =>
          simp only [hl, Except.ok.injEq] at h
          subst h
          exact h1
        | true =>
          simp only [hl, Except.ok.injEq] at h
          subst h
          exact state_frame_trans h1 (push_candidate_frame s1 c)

theorem scan_overloads_frame (args : List type_id_t) :
    ∀ (overloads : List function_symbol_environment) (st st1 : solver_state),
      scan_overloads args overloads st = .ok st1 → state_frame st st1 := by
  intro overloads
  induction overloads with
  | nil =>
    intro st st1 h
    simp only [scan_overloads, Except.ok.injEq] at h
    subst h
    exact state_frame_refl st
  | cons c rest ih =>
    intro st st1 h
    simp only [scan_overloads] at h
    cases hc : solve_candidate args c st with
    | error e => simp [hc] at h
    | ok s1 =>
      simp only [hc] at h
      exact state_frame_trans (solve_candidate_frame hc) (ih s1 st1 h)

/-! ## Supporting lemmas: a second run on the type table left by a first run -/

theorem solve_position_on_grown {p a : type_id_t} {i : Nat} {st st1 : solver_state} {b : Bool}
    {grown : type_table} (h : solve_position p a i st = .ok (b, st1))
    (hg : table_grows st1.env grown) :
    solve_position p a i ⟨grown, st.holder, st.f_candidate_envs, st.calls⟩ =
      .ok (b, ⟨grown, st1.holder, st1.f_candidate_envs, st1.calls⟩) := by
  have hle : table_le st.env grown :=
    table_le_of_grows (table_grows_trans (state_frame_grows (solve_position_frame h)) hg)
  rcases solve_position_cases h with ⟨rfl, rfl, hi, rfl⟩ | ⟨hne, tp, ta, s, hp, ha, hc, hcase⟩
  · rw [solve_position_same, holder_assign_of_lt _ (by exact hi)]
  · rw [solve_position_differ i hne (hle _ _ hp) (hle _ _ ha), hc]
    rcases hcase with ⟨hcls, rfl, rfl⟩ | ⟨hcls, rfl, hi, rfl⟩
    · simp only
      rw [if_pos hcls]
    · simp only
      rw [if_neg (not_not.mpr hcls), make_type_id_on_grown _ _ hg,
        holder_assign_of_lt _ (by exact hi)]

theorem position_loop_on_grown (ps args : List type_id_t) (grown : type_table) :
    ∀ (n i : Nat) (st st1 : solver_state) (b : Bool),
      position_loop ps args n i st = .ok (b, st1) → table_grows st1.env grown →
      position_loop ps args n i ⟨grown, st.holder, st.f_candidate_envs, st.calls⟩ =
        .ok (b, ⟨grown, st1.holder, st1.f_candidate_envs, st1.calls⟩) := by
  intro n
  induction n with
  | zero =>
    intro i st st1 b h _
    simp only [position_loop, Except.ok.injEq, Prod.mk.injEq] at h
    obtain ⟨rfl, rfl⟩ := h
    simp [position_loop]
  | succ n ih =>
    intro i st st1 b h hg
    simp only [position_loop] at h ⊢
    cases hp : ps[i]? with
    | none => simp [hp] at h
    | some p =>
      cases ha : args[i]? with
      | none => simp [hp, ha] at h
      | some a =>
        simp only [hp, ha] at h ⊢
        cases hs : solve_position p a i st with
        | error e => simp [hs] at h
        | ok r =>
          obtain ⟨b1, s1⟩ := r
          cases b1 with
          | false =>
            simp only [hs, Except.ok.injEq, Prod.mk.injEq] at h
            obtain ⟨rfl, rfl⟩ := h
            rw [solve_position_on_grown hs hg]
          | true =>
            simp only [hs] at h
            have hg1 : table_grows s1.env grown :=
              table_grows_trans
                (state_frame_grows (position_loop_frame _ _ _ _ _ _ _ h)) hg
            rw [solve_position_on_grown hs hg1]
            exact ih (i + 1) s1 st1 b h hg

theorem solve_candidate_on_grown {args : List type_id_t} {c : function_symbol_environment}
    {st st1 : solver_state} {grown : type_table}
    (h : solve_candidate args c st = .ok st1) (hg : table_grows st1.env grown) :
    solve_candidate args c ⟨grown, st.holder, st.f_candidate_envs, st.calls⟩ =
      .ok ⟨grown, st1.holder, st1.f_candidate_envs, st1.calls⟩ := by
  unfold solve_candidate at h ⊢
  by_cases hlen : c.parameter_type_ids.length ≠ args.length
  · rw [if_pos hlen] at h ⊢
    simp only [Except.ok.injEq] at h
    subst h
    rfl
  · rw [if_neg hlen] at h ⊢
    by_cases hz : c.parameter_type_ids.length = 0
    · rw [if_pos hz] at h ⊢
      simp only [Except.ok.injEq] at h
      subst h
      rfl
    · rw [if_neg hz] at h ⊢
      cases hl : position_loop c.parameter_type_ids args args.length 0 st with
      | error e => simp [hl] at h
      | ok r =>
        obtain ⟨b1, s1⟩ := r
        cases b1 with
        | false =>
          simp only [hl, Except.ok.injEq] at h
          subst h
          rw [position_loop_on_grown _ _ _ _ _ _ _ _ hl hg]
        | true =>
          simp only [hl, Except.ok.injEq] at h
          subst h
          rw [position_loop_on_grown _ _ _ _ _ _ _ _ hl (by exact hg)]
          rfl

theorem scan_overloads_on_grown (args : List type_id_t) (grown : type_table) :
    ∀ (overloads : List function_symbol_environment) (st st1 : solver_state),
      scan_overloads args overloads st = .ok st1 → table_grows st1.env grown →
      scan_overloads args overloads ⟨grown, st.holder, st.f_candidate_envs, st.calls⟩ =
        .ok ⟨grown, st1.holder, st1.f_candidate_envs, st1.calls⟩ := by
  intro overloads
  induction overloads with
  | nil =>
    intro st st1 h _
    simp only [scan_overloads, Except.ok.injEq] at h
    subst h
    rfl
  | cons c rest ih =>
    intro st st1 h hg
    simp only [scan_overloads] at h ⊢
    cases hc : solve_candidate args c st with
    | error e => simp [hc] at h
    | ok s1 =>
      simp only [hc] at h
      have hg1 : table_grows s1.env grown :=
        table_grows_trans (state_frame_grows (scan_overloads_frame _ _ _ _ h)) hg
      rw [solve_candidate_on_grown hc hg1]
      exact ih s1 st1 h hg

/-! ## Supporting lemmas: the requested type ids are already registered -/

theorem make_type_id_of_registered {env : type_table} {p : type_id_t} {tp : type}
    (hp : get_type_at env p = some tp) :
    (make_type_id env tp.class_env_id tp.attributes).2 = env := by
  have hmem : (⟨tp.class_env_id, tp.attributes⟩ : type) ∈ env := by
    unfold get_type_at at hp
    exact List.getElem?_mem hp
  unfold make_type_id
  simp only
  rw [if_pos hmem]

theorem solve_position_env {p a : type_id_t} {i : Nat} {st st1 : solver_state} {b : Bool}
    (h : solve_position p a i st = .ok (b, st1)) : st1.env = st.env := by
  rcases solve_position_cases h with ⟨_, _, _, rfl⟩ | ⟨_, tp, ta, s, hp, _, _, hcase⟩
  · rfl
  · rcases hcase with ⟨_, _, rfl⟩ | ⟨_, _, _, rfl⟩
    · rfl
    · exact make_type_id_of_registered hp

theorem position_loop_env (ps args : List type_id_t) :
    ∀ (n i : Nat) (st st1 : solver_state) (b : Bool),
      position_loop ps args n i st = .ok (b, st1) → st1.env = st.env := by
  intro n
  induction n with
  | zero =>
    intro i st st1 b h
    simp only [position_loop, Except.ok.injEq, Prod.mk.injEq] at h
    obtain ⟨_, rfl⟩ := h
    rfl
  | succ n ih =>
    intro i st st1 b h
    simp only [position_loop] at h
    cases hp : ps[i]? with
    | none => simp [hp] at h
    | some p =>
      cases ha : args[i]? with
      | none => simp [hp, ha] at h
      | some a =>
        simp only [hp, ha] at h
        cases hs : solve_position p a i st with
        | error e => simp [hs] at h
        | ok r =>
          obtain ⟨b1, s1⟩ := r
          have h1 := solve_position_env hs
          cases b1 with
          | false =>
            simp only [hs, Except.ok.injEq, Prod.mk.injEq] at h
            obtain ⟨_, rfl⟩ := h
            exact h1
          | true =>
            simp only [hs] at h
            exact (ih (i + 1) s1 st1 b h).trans h1

theorem solve_candidate_env {args : List type_id_t} {c : function_symbol_environment}
    {st st1 : solver_state} (h : solve_candidate args c st = .ok st1) : st1.env = st.env := by
  unfold solve_candidate at h
  by_cases hlen : c.parameter_type_ids.length ≠ args.length
  · rw [if_pos hlen] at h
    simp only [Except.ok.injEq] at h
    subst h
    rfl
  · rw [if_neg hlen] at h
    by_cases hz : c.parameter_type_ids.length = 0
    · rw [if_pos hz] at h
      simp only [Except.ok.injEq] at h
      subst h
      rfl
    · rw [if_neg hz] at h
      cases hl : position_loop c.parameter_type_ids args args.length 0 st with
      | error e => simp [hl] at h
      | ok r =>
        obtain ⟨b1, s1⟩ := r
        have h1 := position_loop_env _ _ _ _ _ _ _ hl
        cases b1 with
        | false =>
          simp only [hl, Except.ok.injEq] at h
          subst h
          exact h1
        | true =>
          simp only [hl, Except.ok.injEq] at h
          subst h
          exact h1

theorem scan_overloads_env (args : List type_id_t) :
    ∀ (overloads : List function_symbol_environment) (st st1 : solver_state),
      scan_overloads args overloads st = .ok st1 → st1.env = st.env := by
  intro overloads
  induction overloads with
  | nil =>
    intro st st1 h
    simp only [scan_overloads, Except.ok.injEq] at h
    subst h
    rfl
  | cons c rest ih =>
    intro st st1 h
    simp only [scan_overloads] at h
    cases hc : solve_candidate args c st with
    | error e => simp [hc] at h
    | ok s1 =>
      simp only [hc] at h
      exact (ih s1 st1 h).trans (solve_candidate_env hc)

/-! ## Supporting lemmas: candidates all of whose positions are admitted -/

theorem position_admitted_of_convert {env : type_table} {p a : type_id_t} {tp ta s : type}
    (hp : get_type_at env p = some tp) (ha : get_type_at env a = some ta)
    (hc : convert_attributes tp ta = .ok s) (hcls : tp.class_env_id = s.class_env_id) :
    position_admitted env p a = true := by
  unfold position_admitted
  by_cases hpa : p = a
  · rw [if_pos hpa]
  · rw [if_neg hpa]
    simp only [hp, ha, hc, hcls, decide_True]

theorem solve_position_of_admitted {p a : type_id_t} {i : Nat} {st : solver_state}
    {env : type_table} (hle : table_le env st.env)
    (hadm : position_admitted env p a = true) (hi : i < st.holder.length) :
    ∃ st1, solve_position p a i st = .ok (true, st1) := by
  unfold position_admitted at hadm
  by_cases hpa : p = a
  · subst hpa
    rw [solve_position_same, holder_assign_of_lt _ hi]
    exact ⟨_, rfl⟩
  · rw [if_neg hpa] at hadm
    cases hp : get_type_at env p with
    | none => simp [hp] at hadm
    | some tp =>
      cases ha : get_type_at env a with
      | none => simp [hp, ha] at hadm
      | some ta =>
        simp only [hp, ha] at hadm
        cases hc : convert_attributes tp ta with
        | error e => simp [hc] at hadm
        | ok s =>
          simp only [hc, decide_eq_true_eq] at hadm
          rw [solve_position_differ i hpa (hle _ _ hp) (hle _ _ ha), hc]
          simp only
          rw [if_neg (not_not.mpr hadm), holder_assign_of_lt _ (by exact hi)]
          exact ⟨_, rfl⟩

theorem position_loop_of_admitted (ps args : List type_id_t) (env : type_table)
    (hadm : ∀ (j : Nat) (p a : type_id_t), ps[j]? = some p → args[j]? = some a → position_admitted env p a = true)
    (hlen : ps.length = args.length) :
    ∀ (n i : Nat) (st : solver_state), i + n = args.length →
      st.holder.length = args.length → table_le env st.env →
      ∃ st1, position_loop ps args n i st = .ok (true, st1) := by
  intro n
  induction n with
  | zero => intro i st _ _ _; exact ⟨st, rfl⟩
  | succ n ih =>
    intro i st hi hh hle
    have hia : i < args.length := by omega
    have hip : i < ps.length := by omega
    have hp : ps[i]? = some ps[i] := List.getElem?_eq_getElem hip
    have ha : args[i]? = some args[i] := List.getElem?_eq_getElem hia
    obtain ⟨s1, hs⟩ := solve_position_of_admitted (i := i) hle (hadm i _ _ hp ha) (by omega)
    obtain ⟨_, hh1, hle1⟩ := solve_position_inv hs
    obtain ⟨st1, hl⟩ := ih (i + 1) s1 (by omega) (by omega) (table_le_trans hle hle1)
    refine ⟨st1, ?_⟩
    simp only [position_loop, hp, ha, hs]
    exact hl

theorem solve_candidate_of_admitted {args : List type_id_t} {c : function_symbol_environment}
    {st : solver_state}
    (hlen : c.parameter_type_ids.length = args.length)
    (hholder : st.holder.length = args.length)
    (hadm : ∀ (j : Nat) (p a : type_id_t), c.parameter_type_ids[j]? = some p → args[j]? = some a →
      position_admitted st.env p a = true) :
    ∃ st1, solve_candidate args c st = .ok st1 ∧
      st1.f_candidate_envs = st.f_candidate_envs ++ [c] := by
  unfold solve_candidate
  rw [if_neg (not_not.mpr hlen)]
  by_cases hz : c.parameter_type_ids.length = 0
  · rw [if_pos hz]
    exact ⟨_, rfl, rfl⟩
  · rw [if_neg hz]
    obtain ⟨s1, hl⟩ := position_loop_of_admitted c.parameter_type_ids args st.env hadm hlen
      args.length 0 st (by omega) hholder (table_le_refl _)
    rw [hl]
    refine ⟨_, rfl, ?_⟩
    simp [push_candidate, (position_loop_inv _ _ _ _ _ _ _ hl).1]

theorem solve_candidate_of_position {args : List type_id_t} {c : function_symbol_environment}
    {st : solver_state} {k : Nat} {p a : type_id_t} {tp ta s : type}
    (hlen : c.parameter_type_ids.length = args.length)
    (hholder : st.holder.length = args.length)
    (hp : c.parameter_type_ids[k]? = some p) (ha : args[k]? = some a)
    (htp : get_type_at st.env p = some tp) (hta : get_type_at st.env a = some ta)
    (hconv : convert_attributes tp ta = .ok s) (hcls : tp.class_env_id = s.class_env_id)
    (hothers : ∀ (j : Nat) (p1 a1 : type_id_t), j ≠ k → c.parameter_type_ids[j]? = some p1 →
      args[j]? = some a1 → position_admitted st.env p1 a1 = true) :
    ∃ st1, solve_candidate args c st = .ok st1 ∧
      st1.f_candidate_envs = st.f_candidate_envs ++ [c] := by
  apply solve_candidate_of_admitted hlen hholder
  intro j p1 a1 hp1 ha1
  by_cases hjk : j = k
  · subst hjk
    rw [hp] at hp1
    rw [ha] at ha1
    simp only [Option.some.injEq] at hp1 ha1
    subst hp1
    subst ha1
    exact position_admitted_of_convert htp hta hconv hcls
  · exact hothers j p1 a1 hjk hp1 ha1

theorem can_convert_iff (f_class self_class : environment_id_t) (source target : type_attributes) :
    can_convert source target = true ↔
      ∃ converted, convert_attributes ⟨f_class, target⟩ ⟨self_class, source⟩ = .ok converted := by
  obtain ⟨qs, ms⟩ := source
  obtain ⟨qt, mt⟩ := target
  cases qs <;> cases ms <;> cases qt <;> cases mt <;>
    simp [can_convert, convert_attributes, convert_quality, check_modifiability]

/-! ## The attribute conversion, pair by pair -/

/-- C11 (as stated) fails: the argument is `{ref, immutable}`, the only
candidate has one `{ref, mutable}` parameter of the same class under another
type id.  The attribute step raises nothing and the candidate is accepted and
returned. -/
theorem ref_to_ref_modifiability_mismatch_is_accepted :
    get_type_at [⟨0, ⟨.k_ref, .k_immutable⟩⟩, ⟨0, ⟨.k_ref, .k_mutable⟩⟩] 0 =
        some ⟨0, ⟨.k_ref, .k_immutable⟩⟩ ∧
      get_type_at [⟨0, ⟨.k_ref, .k_immutable⟩⟩, ⟨0, ⟨.k_ref, .k_mutable⟩⟩] 1 =
        some ⟨0, ⟨.k_ref, .k_mutable⟩⟩ ∧
      convert_attributes ⟨0, ⟨.k_ref, .k_mutable⟩⟩ ⟨0, ⟨.k_ref, .k_immutable⟩⟩ =
        .ok ⟨0, ⟨.k_ref, .k_mutable⟩⟩ ∧
      overload_scan [0] [⟨0, [1]⟩]
          [⟨0, ⟨.k_ref, .k_immutable⟩⟩, ⟨0, ⟨.k_ref, .k_mutable⟩⟩] =
        .ok ⟨[⟨0, ⟨.k_ref, .k_immutable⟩⟩, ⟨0, ⟨.k_ref, .k_mutable⟩⟩], [some 1],
          [⟨0, [1]⟩],
          [.get_type_at 1, .get_type_at 0, .make_type_id 0 ⟨.k_ref, .k_mutable⟩]⟩ ∧
      overload_solver [0] [⟨0, [1]⟩]
          [⟨0, ⟨.k_ref, .k_immutable⟩⟩, ⟨0, ⟨.k_ref, .k_mutable⟩⟩] =
        .ok (some ⟨0, [1]⟩) := by
  decide

/-- C11 (as amended): for a `ref` argument and a `ref` parameter of the same
class, whatever their two modifiabilities, the attribute step raises no
assertion (the qualities are equal, so the quality switch is not entered) and
leaves the argument with the parameter's modifiability; the position is
admitted, so a candidate whose other positions are admitted is accepted. -/
theorem ref_to_ref_modifiability_mismatch_admitted (args : List type_id_t)
    (c : function_symbol_environment) (st : solver_state) (k : Nat) (p a : type_id_t)
    (cls : environment_id_t) (m_p m_a : modifiability_kind)
    (hlen : c.parameter_type_ids.length = args.length)
    (hholder : st.holder.length = args.length)
    (hp : c.parameter_type_ids[k]? = some p) (ha : args[k]? = some a)
    (htp : get_type_at st.env p = some ⟨cls, ⟨.k_ref, m_p⟩⟩)
    (hta : get_type_at st.env a = some ⟨cls, ⟨.k_ref, m_a⟩⟩)
    (hothers : ∀ (j : Nat) (p1 a1 : type_id_t), j ≠ k → c.parameter_type_ids[j]? = some p1 →
      args[j]? = some a1 → position_admitted st.env p1 a1 = true) :
    convert_attributes ⟨cls, ⟨.k_ref, m_p⟩⟩ ⟨cls, ⟨.k_ref, m_a⟩⟩ = .ok ⟨cls, ⟨.k_ref, m_p⟩⟩ ∧
      ∃ st1, solve_candidate args c st = .ok st1 ∧
        st1.f_candidate_envs = st.f_candidate_envs ++ [c] := by
  have hconv : convert_attributes ⟨cls, ⟨.k_ref, m_p⟩⟩ ⟨cls, ⟨.k_ref, m_a⟩⟩ =
      .ok ⟨cls, ⟨.k_ref, m_p⟩⟩ := by
    simp [convert_attributes, convert_quality, set_modifiability]
  exact ⟨hconv, solve_candidate_of_position hlen hholder hp ha htp hta hconv rfl hothers⟩

/-- A concrete instance: an immutable reference argument and a mutable
reference parameter of the same class, in a one-parameter candidate. -/
theorem ref_to_ref_modifiability_mismatch_admitted_witness :
    convert_attributes ⟨0, ⟨.k_ref, .k_mutable⟩⟩ ⟨0, ⟨.k_ref, .k_immutable⟩⟩ =
        .ok ⟨0, ⟨.k_ref, .k_mutable⟩⟩ ∧
      ∃ st1, solve_candidate [0] ⟨0, [1]⟩
          ⟨[⟨0, ⟨.k_ref, .k_immutable⟩⟩, ⟨0, ⟨.k_ref, .k_mutable⟩⟩], [none], [], []⟩ = .ok st1 ∧
        st1.f_candidate_envs = [] ++ [⟨0, [1]⟩] :=
  ref_to_ref_modifiability_mismatch_admitted [0] ⟨0, [1]⟩
    ⟨[⟨0, ⟨.k_ref, .k_immutable⟩⟩, ⟨0, ⟨.k_ref, .k_mutable⟩⟩], [none], [], []⟩
    0 1 0 0 .k_mutable .k_immutable rfl rfl rfl rfl rfl rfl
    (fun j p1 a1 hj hp1 _ => by
      cases j with
      | zero => exact absurd rfl hj
      | succ n => simp at hp1)

/-- C12: a `{val, m}` argument against a `{ref, m}` parameter of the same class
under another type id: the attribute step raises no assertion and leaves the
argument with modifiability `m`, and the position is admitted, the type id
requested for it being the one of the parameter's `{ref, m}` type. -/
theorem val_to_ref_same_modifiability_admitted (p a : type_id_t) (i : Nat) (st : solver_state)
    (cls : environment_id_t) (m : modifiability_kind) (hne : p ≠ a)
    (htp : get_type_at st.env p = some ⟨cls, ⟨.k_ref, m⟩⟩)
    (hta : get_type_at st.env a = some ⟨cls, ⟨.k_val, m⟩⟩)
    (hi : i < st.holder.length) :
    convert_attributes ⟨cls, ⟨.k_ref, m⟩⟩ ⟨cls, ⟨.k_val, m⟩⟩ = .ok ⟨cls, ⟨.k_val, m⟩⟩ ∧
      solve_position p a i st =
        .ok (true, ⟨(make_type_id st.env cls ⟨.k_ref, m⟩).2,
          st.holder.set i (some (make_type_id st.env cls ⟨.k_ref, m⟩).1),
          st.f_candidate_envs,
          st.calls ++ [env_call.get_type_at p, env_call.get_type_at a,
            env_call.make_type_id cls ⟨.k_ref, m⟩]⟩) := by
  have hconv : convert_attributes ⟨cls, ⟨.k_ref, m⟩⟩ ⟨cls, ⟨.k_val, m⟩⟩ =
      .ok ⟨cls, ⟨.k_val, m⟩⟩ := by
    simp [convert_attributes, convert_quality, set_modifiability]
  refine ⟨hconv, ?_⟩
  rw [solve_position_differ i hne htp hta, hconv]
  simp only
  rw [if_neg (by simp), holder_assign_of_lt _ (by exact hi)]

/-- A concrete instance: `{val, mutable}` to `{ref, mutable}`. -/
theorem val_to_ref_same_modifiability_admitted_witness :
    convert_attributes ⟨0, ⟨.k_ref, .k_mutable⟩⟩ ⟨0, ⟨.k_val, .k_mutable⟩⟩ =
        .ok ⟨0, ⟨.k_val, .k_mutable⟩⟩ ∧
      solve_position 1 0 0
          ⟨[⟨0, ⟨.k_val, .k_mutable⟩⟩, ⟨0, ⟨.k_ref, .k_mutable⟩⟩], [none], [], []⟩ =
        .ok (true, ⟨[⟨0, ⟨.k_val, .k_mutable⟩⟩, ⟨0, ⟨.k_ref, .k_mutable⟩⟩], [some 1], [],
          [.get_type_at 1, .get_type_at 0, .make_type_id 0 ⟨.k_ref, .k_mutable⟩]⟩) :=
  val_to_ref_same_modifiability_admitted 1 0 0
    ⟨[⟨0, ⟨.k_val, .k_mutable⟩⟩, ⟨0, ⟨.k_ref, .k_mutable⟩⟩], [none], [], []⟩
    0 .k_mutable (by decide) rfl rfl (by decide)

/-- C13: a `val` argument whose modifiability is not `const` is not converted
to a `{ref, const}` parameter: the attribute step stops at the assertion under
`case k_const: // TODO: implement`, and for every overload set a candidate with
such a position (differing type ids) is never in the accepted list and is never
returned by `overload_solver`. -/
theorem val_to_ref_const_never_accepted (args : List type_id_t)
    (overloads : List function_symbol_environment) (env : type_table)
    (c : function_symbol_environment) (k : Nat) (p a : type_id_t)
    (f_class self_class : environment_id_t) (m : modifiability_kind)
    (hm : m ≠ .k_const)
    (hp : c.parameter_type_ids[k]? = some p) (ha : args[k]? = some a) (hne : p ≠ a)
    (htp : get_type_at env p = some ⟨f_class, ⟨.k_ref, .k_const⟩⟩)
    (hta : get_type_at env a = some ⟨self_class, ⟨.k_val, m⟩⟩) :
    convert_attributes ⟨f_class, ⟨.k_ref, .k_const⟩⟩ ⟨self_class, ⟨.k_val, m⟩⟩ =
        .error .const_target_not_implemented ∧
      (∀ st, overload_scan args overloads env = .ok st → c ∉ st.f_candidate_envs) ∧
      overload_solver args overloads env ≠ .ok (some c) := by
  have hconv : convert_attributes ⟨f_class, ⟨.k_ref, .k_const⟩⟩ ⟨self_class, ⟨.k_val, m⟩⟩ =
      .error .const_target_not_implemented := by
    cases m with
    | k_const => exact absurd rfl hm
    | k_mutable => rfl
    | k_immutable => rfl
  have hacc : ∀ st, overload_scan args overloads env = .ok st → c ∉ st.f_candidate_envs := by
    intro st hscan
    exact scan_overloads_never_accepts hp ha hne hconv overloads _ st htp hta
      (by simp [initial_state]) hscan
  refine ⟨hconv, hacc, ?_⟩
  intro hret
  cases hscan : overload_scan args overloads env with
  | error e => simp [overload_solver, overload_solver_with, hscan] at hret
  | ok st =>
    unfold overload_solver at hret
    rw [overload_solver_with_of_scan _ hscan] at hret
    have hmem : c ∈ st.f_candidate_envs := by
      rw [select_unique_mem hret]; exact List.mem_singleton.mpr rfl
    exact hacc st hscan hmem

/-- A concrete instance in which the scan completes: the second candidate fails
the class check at its first position, so its `{ref, const}` position is never
reached. -/
theorem val_to_ref_const_never_accepted_witness :
    convert_attributes ⟨0, ⟨.k_ref, .k_const⟩⟩ ⟨0, ⟨.k_val, .k_mutable⟩⟩ =
        .error .const_target_not_implemented ∧
      (∀ st, overload_scan [0, 0] [⟨0, [0, 0]⟩, ⟨1, [2, 1]⟩]
          [⟨0, ⟨.k_val, .k_mutable⟩⟩, ⟨0, ⟨.k_ref, .k_const⟩⟩,
            ⟨1, ⟨.k_val, .k_mutable⟩⟩] = .ok st →
        (⟨1, [2, 1]⟩ : function_symbol_environment) ∉ st.f_candidate_envs) ∧
      overload_solver [0, 0] [⟨0, [0, 0]⟩, ⟨1, [2, 1]⟩]
          [⟨0, ⟨.k_val, .k_mutable⟩⟩, ⟨0, ⟨.k_ref, .k_const⟩⟩,
            ⟨1, ⟨.k_val, .k_mutable⟩⟩] ≠ .ok (some ⟨1, [2, 1]⟩) :=
  val_to_ref_const_never_accepted [0, 0] [⟨0, [0, 0]⟩, ⟨1, [2, 1]⟩]
    [⟨0, ⟨.k_val, .k_mutable⟩⟩, ⟨0, ⟨.k_ref, .k_const⟩⟩, ⟨1, ⟨.k_val, .k_mutable⟩⟩]
    ⟨1, [2, 1]⟩ 1 1 0 0 0 .k_mutable (by decide) rfl rfl (by decide) rfl rfl

/-- C14: for a `val` argument of any modifiability, the attribute step towards
a `{ref, immutable}` parameter raises no assertion and leaves the argument
with modifiability `immutable`. -/
theorem val_to_ref_immutable_admitted (f_class self_class : environment_id_t)
    (m : modifiability_kind) :
    convert_attributes ⟨f_class, ⟨.k_ref, .k_immutable⟩⟩ ⟨self_class, ⟨.k_val, m⟩⟩ =
      .ok ⟨self_class, ⟨.k_val, .k_immutable⟩⟩ := by
  cases m <;> rfl

/-- C15: for a `{val, const}` argument and a `{ref, mutable}` parameter the
attribute step raises no assertion and leaves the argument with modifiability
`mutable`; when the classes match the position is admitted, so a candidate
whose other positions are admitted is accepted. -/
theorem val_const_to_ref_mutable_admitted (args : List type_id_t)
    (c : function_symbol_environment) (st : solver_state) (k : Nat) (p a : type_id_t)
    (cls : environment_id_t)
    (hlen : c.parameter_type_ids.length = args.length)
    (hholder : st.holder.length = args.length)
    (hp : c.parameter_type_ids[k]? = some p) (ha : args[k]? = some a)
    (htp : get_type_at st.env p = some ⟨cls, ⟨.k_ref, .k_mutable⟩⟩)
    (hta : get_type_at st.env a = some ⟨cls, ⟨.k_val, .k_const⟩⟩)
    (hothers : ∀ (j : Nat) (p1 a1 : type_id_t), j ≠ k → c.parameter_type_ids[j]? = some p1 →
      args[j]? = some a1 → position_admitted st.env p1 a1 = true) :
    convert_attributes ⟨cls, ⟨.k_ref, .k_mutable⟩⟩ ⟨cls, ⟨.k_val, .k_const⟩⟩ =
        .ok ⟨cls, ⟨.k_val, .k_mutable⟩⟩ ∧
      ∃ st1, solve_candidate args c st = .ok st1 ∧
        st1.f_candidate_envs = st.f_candidate_envs ++ [c] :=
  ⟨rfl, solve_candidate_of_position hlen hholder hp ha htp hta rfl rfl hothers⟩

/-- A concrete instance: a two-parameter candidate whose first position has the
argument's own type id and whose second position is the conversion. -/
theorem val_const_to_ref_mutable_admitted_witness :
    convert_attributes ⟨0, ⟨.k_ref, .k_mutable⟩⟩ ⟨0, ⟨.k_val, .k_const⟩⟩ =
        .ok ⟨0, ⟨.k_val, .k_mutable⟩⟩ ∧
      ∃ st1, solve_candidate [0, 0] ⟨0, [0, 1]⟩
          ⟨[⟨0, ⟨.k_val, .k_const⟩⟩, ⟨0, ⟨.k_ref, .k_mutable⟩⟩], [none, none], [], []⟩ =
            .ok st1 ∧
        st1.f_candidate_envs = [] ++ [⟨0, [0, 1]⟩] :=
  val_const_to_ref_mutable_admitted [0, 0] ⟨0, [0, 1]⟩
    ⟨[⟨0, ⟨.k_val, .k_const⟩⟩, ⟨0, ⟨.k_ref, .k_mutable⟩⟩], [none, none], [], []⟩
    1 1 0 0 rfl rfl rfl rfl rfl rfl
    (fun j p1 a1 hj hp1 ha1 => by
      cases j with
      | zero =>
        simp only [List.getElem?_cons_zero, Option.some.injEq] at hp1 ha1
        subst hp1
        subst ha1
        rfl
      | succ n =>
        cases n with
        | zero => exact absurd rfl hj
        | succ n2 => simp at hp1)

/-- C16: converting an attribute pair to itself is the identity: the attribute
step raises no assertion and leaves the argument's attribute pair (and class)
as it was. -/
theorem identical_attributes_conversion (f_class self_class : environment_id_t)
    (a : type_attributes) :
    convert_attributes ⟨f_class, a⟩ ⟨self_class, a⟩ = .ok ⟨self_class, a⟩ := by
  simp [convert_attributes, convert_quality, set_modifiability]

/-- C17 (as stated) fails: the relation "can be converted to" is not
antisymmetric (`{val, mutable}` and `{val, immutable}` convert to each other)
and not transitive (`{val, immutable}` converts to `{val, mutable}`, which
converts to `{ref, mutable}`, but `{val, immutable}` does not convert to
`{ref, mutable}`), so it is not an order. -/
theorem can_convert_not_an_order :
    ¬ (∀ a b : type_attributes, can_convert a b = true → can_convert b a = true → a = b) ∧
      ¬ (∀ a b c : type_attributes,
        can_convert a b = true → can_convert b c = true → can_convert a c = true) := by
  constructor
  · intro h
    have hab := h ⟨.k_val, .k_mutable⟩ ⟨.k_val, .k_immutable⟩ (by decide) (by decide)
    exact absurd hab (by decide)
  · intro h
    have hac := h ⟨.k_val, .k_immutable⟩ ⟨.k_val, .k_mutable⟩ ⟨.k_ref, .k_mutable⟩
      (by decide) (by decide)
    exact absurd hac (by decide)

/-- C17 (as amended): on the six attribute pairs the relation "can be
converted to" is reflexive and total (of any two pairs, one converts to the
other). -/
theorem can_convert_reflexive_total :
    (∀ a : type_attributes, can_convert a a = true) ∧
      (∀ a b : type_attributes, can_convert a b = true ∨ can_convert b a = true) := by
  constructor
  · rintro ⟨q, m⟩
    cases q <;> cases m <;> decide
  · rintro ⟨qa, ma⟩ ⟨qb, mb⟩
    cases qa <;> cases ma <;> cases qb <;> cases mb <;> decide

/-! ## The attribute resolver -/

/-- C18: `determine_type_attributes` returns the requested quality when there
is one and `k_val` otherwise, the requested modifiability when there is one and
`k_immutable` otherwise; it is a total function, and the request with both axes
absent (the default argument) yields `{val, immutable}`. -/
theorem determine_type_attributes_defaults :
    (∀ (q : quality_kind) (m : modifiability_kind),
      determine_type_attributes ⟨some q, some m⟩ = ⟨q, m⟩ ∧
        determine_type_attributes ⟨some q, none⟩ = ⟨q, .k_immutable⟩ ∧
        determine_type_attributes ⟨none, some m⟩ = ⟨.k_val, m⟩) ∧
      determine_type_attributes ⟨none, none⟩ = ⟨.k_val, .k_immutable⟩ ∧
      determine_type_attributes type_attributes_optional_default =
        ⟨.k_val, .k_immutable⟩ :=
  ⟨fun _ _ => ⟨rfl, rfl, rfl⟩, rfl, rfl⟩

/-! ## Determinism and frame -/

/-- C19: overload resolution is deterministic.  The accepted list and the
result are functions of the overload set, the argument type ids and the type
table alone, so two runs on the same three inputs agree; and a run repeated on
the type table left behind by a completed first run (or on any table that
extends it) goes through the same environment calls, fills `holder` with the
same type ids, accepts the same candidates and gives the same result. -/
theorem overload_resolution_deterministic (args : List type_id_t)
    (overloads : List function_symbol_environment) (env : type_table) :
    (∀ first second : Except assertion_failure solver_state,
      overload_scan args overloads env = first → overload_scan args overloads env = second →
        first = second) ∧
    (∀ first second : Except assertion_failure function_symbol_environment_ptr,
      overload_solver args overloads env = first → overload_solver args overloads env = second →
        first = second) ∧
    (∀ (st : solver_state) (later : type_table),
      overload_scan args overloads env = .ok st → table_grows st.env later →
        overload_scan args overloads later =
            .ok ⟨later, st.holder, st.f_candidate_envs, st.calls⟩ ∧
          overload_solver args overloads later = overload_solver args overloads env ∧
          overload_solver_allow_no_entry args overloads later =
            overload_solver_allow_no_entry args overloads env) := by
  refine ⟨fun _ _ h1 h2 => h1.symm.trans h2, fun _ _ h1 h2 => h1.symm.trans h2, ?_⟩
  intro st later hscan hg
  have hlater : overload_scan args overloads later =
      .ok ⟨later, st.holder, st.f_candidate_envs, st.calls⟩ :=
    scan_overloads_on_grown args later overloads _ st hscan hg
  refine ⟨hlater, ?_, ?_⟩
  · unfold overload_solver
    rw [overload_solver_with_of_scan _ hscan, overload_solver_with_of_scan _ hlater]
  · unfold overload_solver_allow_no_entry
    rw [overload_solver_with_of_scan _ hscan, overload_solver_with_of_scan _ hlater]

/-- A concrete instance: the second run starts from the table of the first run
extended by one further entry. -/
theorem overload_resolution_deterministic_witness :
    overload_scan [0] [⟨0, [1]⟩, ⟨1, [2]⟩]
        [⟨0, ⟨.k_val, .k_mutable⟩⟩, ⟨1, ⟨.k_val, .k_mutable⟩⟩, ⟨0, ⟨.k_ref, .k_immutable⟩⟩,
          ⟨0, ⟨.k_val, .k_immutable⟩⟩] =
        .ok ⟨[⟨0, ⟨.k_val, .k_mutable⟩⟩, ⟨1, ⟨.k_val, .k_mutable⟩⟩,
            ⟨0, ⟨.k_ref, .k_immutable⟩⟩, ⟨0, ⟨.k_val, .k_immutable⟩⟩],
          [some 2], [⟨1, [2]⟩],
          [.get_type_at 1, .get_type_at 0, .get_type_at 2, .get_type_at 0,
            .make_type_id 0 ⟨.k_ref, .k_immutable⟩]⟩ ∧
      overload_solver [0] [⟨0, [1]⟩, ⟨1, [2]⟩]
          [⟨0, ⟨.k_val, .k_mutable⟩⟩, ⟨1, ⟨.k_val, .k_mutable⟩⟩, ⟨0, ⟨.k_ref, .k_immutable⟩⟩,
            ⟨0, ⟨.k_val, .k_immutable⟩⟩] =
        overload_solver [0] [⟨0, [1]⟩, ⟨1, [2]⟩]
          [⟨0, ⟨.k_val, .k_mutable⟩⟩, ⟨1, ⟨.k_val, .k_mutable⟩⟩, ⟨0, ⟨.k_ref, .k_immutable⟩⟩] ∧
      overload_solver_allow_no_entry [0] [⟨0, [1]⟩, ⟨1, [2]⟩]
          [⟨0, ⟨.k_val, .k_mutable⟩⟩, ⟨1, ⟨.k_val, .k_mutable⟩⟩, ⟨0, ⟨.k_ref, .k_immutable⟩⟩,
            ⟨0, ⟨.k_val, .k_immutable⟩⟩] =
        overload_solver_allow_no_entry [0] [⟨0, [1]⟩, ⟨1, [2]⟩]
          [⟨0, ⟨.k_val, .k_mutable⟩⟩, ⟨1, ⟨.k_val, .k_mutable⟩⟩, ⟨0, ⟨.k_ref, .k_immutable⟩⟩] :=
  (overload_resolution_deterministic [0] [⟨0, [1]⟩, ⟨1, [2]⟩]
    [⟨0, ⟨.k_val, .k_mutable⟩⟩, ⟨1, ⟨.k_val, .k_mutable⟩⟩, ⟨0, ⟨.k_ref, .k_immutable⟩⟩]).2.2
    ⟨[⟨0, ⟨.k_val, .k_mutable⟩⟩, ⟨1, ⟨.k_val, .k_mutable⟩⟩, ⟨0, ⟨.k_ref, .k_immutable⟩⟩],
      [some 2], [⟨1, [2]⟩],
      [.get_type_at 1, .get_type_at 0, .get_type_at 2, .get_type_at 0,
        .make_type_id 0 ⟨.k_ref, .k_immutable⟩]⟩
    [⟨0, ⟨.k_val, .k_mutable⟩⟩, ⟨1, ⟨.k_val, .k_mutable⟩⟩, ⟨0, ⟨.k_ref, .k_immutable⟩⟩,
      ⟨0, ⟨.k_val, .k_immutable⟩⟩]
    rfl ⟨[⟨0, ⟨.k_val, .k_immutable⟩⟩], rfl⟩

/-- C20: a completed run of the scan leaves the overload set alone.  The
overload set is only read: the accepted list handed to the selection callback
is a sublist of it, made of its own signatures with their parameter type ids.
The only environment calls are `get_type_at` and `make_type_id`, and the type
table at the end is the one at the start after the `make_type_id` calls of the
log: no entry of it is altered or removed.  (With a memoizing `make_type_id`
the table is even unchanged, since every type id requested is the one of a
parameter type that is already registered.) -/
theorem overload_solver_frame (args : List type_id_t)
    (overloads : List function_symbol_environment) (env : type_table) (st : solver_state)
    (hscan : overload_scan args overloads env = .ok st) :
    st.f_candidate_envs.Sublist overloads ∧
      (∀ c ∈ st.f_candidate_envs, c ∈ overloads) ∧
      st.env = replay_calls env st.calls ∧
      table_grows env st.env ∧
      st.env = env := by
  have hsub := (overload_scan_accepted hscan).1
  have hframe := scan_overloads_frame args overloads _ st hscan
  refine ⟨hsub, fun c hc => hsub.subset hc, ?_, state_frame_grows hframe,
    scan_overloads_env args overloads _ st hscan⟩
  obtain ⟨added, hcalls, henv⟩ := hframe
  simp only [initial_state, List.nil_append] at hcalls henv
  rw [henv, hcalls]

/-- A concrete instance: two candidates, the second one accepted through a
conversion that requests a type id. -/
theorem overload_solver_frame_witness :
    List.Sublist [(⟨1, [2]⟩ : function_symbol_environment)] [⟨0, [1]⟩, ⟨1, [2]⟩] ∧
      (∀ c ∈ [(⟨1, [2]⟩ : function_symbol_environment)],
        c ∈ [(⟨0, [1]⟩ : function_symbol_environment), ⟨1, [2]⟩]) ∧
      ([⟨0, ⟨.k_val, .k_mutable⟩⟩, ⟨1, ⟨.k_val, .k_mutable⟩⟩, ⟨0, ⟨.k_ref, .k_immutable⟩⟩] :
          type_table) =
        replay_calls
          [⟨0, ⟨.k_val, .k_mutable⟩⟩, ⟨1, ⟨.k_val, .k_mutable⟩⟩, ⟨0, ⟨.k_ref, .k_immutable⟩⟩]
          [.get_type_at 1, .get_type_at 0, .get_type_at 2, .get_type_at 0,
            .make_type_id 0 ⟨.k_ref, .k_immutable⟩] ∧
      table_grows
        [⟨0, ⟨.k_val, .k_mutable⟩⟩, ⟨1, ⟨.k_val, .k_mutable⟩⟩, ⟨0, ⟨.k_ref, .k_immutable⟩⟩]
        [⟨0, ⟨.k_val, .k_mutable⟩⟩, ⟨1, ⟨.k_val, .k_mutable⟩⟩, ⟨0, ⟨.k_ref, .k_immutable⟩⟩] ∧
      ([⟨0, ⟨.k_val, .k_mutable⟩⟩, ⟨1, ⟨.k_val, .k_mutable⟩⟩, ⟨0, ⟨.k_ref, .k_immutable⟩⟩] :
          type_table) =
        [⟨0, ⟨.k_val, .k_mutable⟩⟩, ⟨1, ⟨.k_val, .k_mutable⟩⟩, ⟨0, ⟨.k_ref, .k_immutable⟩⟩] :=
  overload_solver_frame [0] [⟨0, [1]⟩, ⟨1, [2]⟩]
    [⟨0, ⟨.k_val, .k_mutable⟩⟩, ⟨1, ⟨.k_val, .k_mutable⟩⟩, ⟨0, ⟨.k_ref, .k_immutable⟩⟩]
    ⟨[⟨0, ⟨.k_val, .k_mutable⟩⟩, ⟨1, ⟨.k_val, .k_mutable⟩⟩, ⟨0, ⟨.k_ref, .k_immutable⟩⟩],
      [some 2], [⟨1, [2]⟩],
      [.get_type_at 1, .get_type_at 0, .get_type_at 2, .get_type_at 0,
        .make_type_id 0 ⟨.k_ref, .k_immutable⟩]⟩
    rfl


/-! ## Supporting lemmas: what decides the acceptance of a candidate -/

theorem position_admitted_of_mismatch {env : type_table} {p a : type_id_t} {tp ta s : type}
    (hne : p ≠ a) (hp : get_type_at env p = some tp) (ha : get_type_at env a = some ta)
    (hc : convert_attributes tp ta = .ok s) (hcls : tp.class_env_id ≠ s.class_env_id) :
    position_admitted env p a = false := by
  unfold position_admitted
  rw [if_neg hne]
  simp only [hp, ha, hc]
  exact decide_eq_false hcls

theorem solve_position_decides {p a : type_id_t} {i : Nat} {st st1 : solver_state} {b : Bool}
    (h : solve_position p a i st = .ok (b, st1)) : position_admitted st.env p a = b := by
  rcases solve_position_cases h with ⟨hpa, hb, _, _⟩ | ⟨hne, tp, ta, s, hp, ha, hc, hcase⟩
  · rw [hb]
    unfold position_admitted
    rw [if_pos hpa]
  · rcases hcase with ⟨hcls, hb, _⟩ | ⟨hcls, hb, _, _⟩
    · rw [hb]
      exact position_admitted_of_mismatch hne hp ha hc hcls
    · rw [hb]
      exact position_admitted_of_convert hp ha hc hcls

theorem position_loop_decides (ps args : List type_id_t) :
    ∀ (n i : Nat) (st st1 : solver_state) (b : Bool),
      position_loop ps args n i st = .ok (b, st1) →
      (b = true ∧ ∀ (j : Nat) (p a : type_id_t), i ≤ j → j < i + n → ps[j]? = some p →
          args[j]? = some a → position_admitted st.env p a = true) ∨
        (b = false ∧ ∃ (j : Nat) (p a : type_id_t), i ≤ j ∧ j < i + n ∧ ps[j]? = some p ∧
          args[j]? = some a ∧ position_admitted st.env p a = false) := by
  intro n
  induction n with
  | zero =>
    intro i st st1 b h
    simp only [position_loop, Except.ok.injEq, Prod.mk.injEq] at h
    left
    exact ⟨h.1.symm, fun j p a h1 h2 => by omega⟩
  | succ n ih =>
    intro i st st1 b h
    simp only [position_loop] at h
    cases hp : ps[i]? with
    | none => simp [hp] at h
    | some p =>
      cases ha : args[i]? with
      | none => simp [hp, ha] at h
      | some a =>
        simp only [hp, ha] at h
        cases hs : solve_position p a i st with
        | error e => simp [hs] at h
        | ok r =>
          obtain ⟨b1, s1⟩ := r
          have hdec := solve_position_decides hs
          cases b1 with
          | false =>
            simp only [hs, Except.ok.injEq, Prod.mk.injEq] at h
            right
            exact ⟨h.1.symm, i, p, a, Nat.le_refl i, by omega, hp, ha, hdec⟩
          | true =>
            simp only [hs] at h
            have henv := solve_position_env hs
            rcases ih (i + 1) s1 st1 b h with ⟨hb, hall⟩ | ⟨hb, j, p1, a1, h1, h2, h3, h4, h5⟩
            · left
              refine ⟨hb, ?_⟩
              intro j p1 a1 h1 h2 hp1 ha1
              by_cases hji : j = i
              · subst hji
                rw [hp] at hp1
                rw [ha] at ha1
                simp only [Option.some.injEq] at hp1 ha1
                rw [← hp1, ← ha1]
                exact hdec
              · rw [← henv]
                exact hall j p1 a1 (by omega) (by omega) hp1 ha1
            · right
              rw [henv] at h5
              exact ⟨hb, j, p1, a1, by omega, by omega, h3, h4, h5⟩

theorem solve_candidate_decides {args : List type_id_t} {c : function_symbol_environment}
    {st st1 : solver_state} (h : solve_candidate args c st = .ok st1) :
    (st1.f_candidate_envs = st.f_candidate_envs ++ [c] ∧
        c.parameter_type_ids.length = args.length ∧
        ∀ (j : Nat) (p a : type_id_t), c.parameter_type_ids[j]? = some p → args[j]? = some a →
          position_admitted st.env p a = true) ∨
      (st1.f_candidate_envs = st.f_candidate_envs ∧
        (c.parameter_type_ids.length ≠ args.length ∨
          ∃ (j : Nat) (p a : type_id_t), c.parameter_type_ids[j]? = some p ∧
            args[j]? = some a ∧ position_admitted st.env p a = false)) := by
  unfold solve_candidate at h
  by_cases hlen : c.parameter_type_ids.length ≠ args.length
  · rw [if_pos hlen] at h
    simp only [Except.ok.injEq] at h
    subst h
    exact Or.inr ⟨rfl, Or.inl hlen⟩
  · rw [if_neg hlen] at h
    have hlen2 : c.parameter_type_ids.length = args.length := not_not.mp hlen
    by_cases hz : c.parameter_type_ids.length = 0
    · rw [if_pos hz] at h
      simp only [Except.ok.injEq] at h
      subst h
      left
      refine ⟨rfl, hlen2, ?_⟩
      intro j p a hp _
      have hj : j < c.parameter_type_ids.length := (List.getElem?_eq_some.mp hp).1
      omega
    · rw [if_neg hz] at h
      cases hl : position_loop c.parameter_type_ids args args.length 0 st with
      | error e => simp [hl] at h
      | ok r =>
        obtain ⟨b1, s1⟩ := r
        have hacc := (position_loop_inv _ _ _ _ _ _ _ hl).1
        rcases position_loop_decides _ _ _ _ _ _ _ hl with
          ⟨hb, hall⟩ | ⟨hb, j, p, a, _, _, hp, ha, hadm⟩
        · subst hb
          simp only [hl, Except.ok.injEq] at h
          subst h
          left
          refine ⟨by simp [push_candidate, hacc], hlen2, ?_⟩
          intro j p a hp ha
          have hj : j < args.length := (List.getElem?_eq_some.mp ha).1
          exact hall j p a (Nat.zero_le j) (by omega) hp ha
        · subst hb
          simp only [hl, Except.ok.injEq] at h
          subst h
          exact Or.inr ⟨hacc, Or.inr ⟨j, p, a, hp, ha, hadm⟩⟩

/-! ## The accepted list and the requested type ids -/

/-- C21: the accepted list handed to the selection callback is a sublist of
the overload set: the accepted candidates come in the order in which they occur
in the overload set, and no candidate occurs in the accepted list more often
than it occurs in the overload set. -/
theorem accepted_list_in_insertion_order (args : List type_id_t)
    (overloads : List function_symbol_environment) (env : type_table) (st : solver_state)
    (hscan : overload_scan args overloads env = .ok st) :
    st.f_candidate_envs.Sublist overloads ∧
      ∀ c : function_symbol_environment,
        st.f_candidate_envs.count c ≤ overloads.count c := by
  have hsub := (overload_scan_accepted hscan).1
  exact ⟨hsub, fun c => hsub.count_le c⟩

/-- A concrete instance: of four candidates the second and the fourth are
accepted, in that order. -/
theorem accepted_list_in_insertion_order_witness :
    List.Sublist [(⟨1, [0]⟩ : function_symbol_environment), ⟨3, [2]⟩]
        [⟨0, [1]⟩, ⟨1, [0]⟩, ⟨2, [0, 0]⟩, ⟨3, [2]⟩] ∧
      ∀ c : function_symbol_environment,
        List.count c [(⟨1, [0]⟩ : function_symbol_environment), ⟨3, [2]⟩] ≤
          List.count c [⟨0, [1]⟩, ⟨1, [0]⟩, ⟨2, [0, 0]⟩, ⟨3, [2]⟩] :=
  accepted_list_in_insertion_order [0] [⟨0, [1]⟩, ⟨1, [0]⟩, ⟨2, [0, 0]⟩, ⟨3, [2]⟩]
    [⟨0, ⟨.k_val, .k_mutable⟩⟩, ⟨1, ⟨.k_val, .k_mutable⟩⟩, ⟨0, ⟨.k_ref, .k_mutable⟩⟩]
    ⟨[⟨0, ⟨.k_val, .k_mutable⟩⟩, ⟨1, ⟨.k_val, .k_mutable⟩⟩, ⟨0, ⟨.k_ref, .k_mutable⟩⟩],
      [some 2], [⟨1, [0]⟩, ⟨3, [2]⟩],
      [.get_type_at 1, .get_type_at 0, .get_type_at 2, .get_type_at 0,
        .make_type_id 0 ⟨.k_ref, .k_mutable⟩]⟩
    rfl

/-- C22 (as stated) fails: a `{val, mutable}` argument is bound to a
`{ref, mutable}` parameter of the same class.  The attribute step leaves the
argument with the attributes `{val, mutable}`, but the type id requested from
the type table is the one of `{ref, mutable}`, the parameter's own attributes. -/
theorem requested_type_id_is_not_the_converted_argument :
    convert_attributes ⟨0, ⟨.k_ref, .k_mutable⟩⟩ ⟨0, ⟨.k_val, .k_mutable⟩⟩ =
        .ok ⟨0, ⟨.k_val, .k_mutable⟩⟩ ∧
      solve_position 1 0 0
          ⟨[⟨0, ⟨.k_val, .k_mutable⟩⟩, ⟨0, ⟨.k_ref, .k_mutable⟩⟩], [none], [], []⟩ =
        .ok (true, ⟨[⟨0, ⟨.k_val, .k_mutable⟩⟩, ⟨0, ⟨.k_ref, .k_mutable⟩⟩], [some 1], [],
          [.get_type_at 1, .get_type_at 0, .make_type_id 0 ⟨.k_ref, .k_mutable⟩]⟩) ∧
      (make_type_id [⟨0, ⟨.k_val, .k_mutable⟩⟩, ⟨0, ⟨.k_ref, .k_mutable⟩⟩] 0
          ⟨.k_ref, .k_mutable⟩).1 = 1 ∧
      (make_type_id [⟨0, ⟨.k_val, .k_mutable⟩⟩, ⟨0, ⟨.k_ref, .k_mutable⟩⟩] 0
          ⟨.k_val, .k_mutable⟩).1 = 0 := by
  decide

/-- C22 (as amended): at a position where the type ids differ, the attribute
step raises no assertion and the classes match, the type id requested from the
type table and stored in `holder` is `make_type_id` of the parameter's class
and the parameter's own attributes, whatever attributes the conversion left on
the argument; that type id dereferences to the parameter's type. -/
theorem requested_type_id_is_the_parameter_type (p a : type_id_t) (i : Nat)
    (st : solver_state) (tp ta converted : type) (hne : p ≠ a)
    (htp : get_type_at st.env p = some tp) (hta : get_type_at st.env a = some ta)
    (hconv : convert_attributes tp ta = .ok converted)
    (hcls : tp.class_env_id = converted.class_env_id) (hi : i < st.holder.length) :
    solve_position p a i st =
        .ok (true, ⟨(make_type_id st.env tp.class_env_id tp.attributes).2,
          st.holder.set i (some (make_type_id st.env tp.class_env_id tp.attributes).1),
          st.f_candidate_envs,
          st.calls ++ [env_call.get_type_at p, env_call.get_type_at a,
            env_call.make_type_id tp.class_env_id tp.attributes]⟩) ∧
      get_type_at (make_type_id st.env tp.class_env_id tp.attributes).2
        (make_type_id st.env tp.class_env_id tp.attributes).1 = some tp := by
  constructor
  · rw [solve_position_differ i hne htp hta, hconv]
    simp only
    rw [if_neg (not_not.mpr hcls), holder_assign_of_lt _ (by exact hi)]
  · have hmem : tp ∈ st.env := by
      unfold get_type_at at htp
      exact List.getElem?_mem htp
    unfold make_type_id get_type_at
    simp only
    rw [if_pos hmem]
    simp only
    rw [List.getElem?_eq_getElem (List.indexOf_lt_length.mpr hmem)]
    simp

/-- A concrete instance: a `{val, const}` argument against a `{ref, mutable}`
parameter of the same class. -/
theorem requested_type_id_is_the_parameter_type_witness :
    solve_position 1 0 0
          ⟨[⟨0, ⟨.k_val, .k_const⟩⟩, ⟨0, ⟨.k_ref, .k_mutable⟩⟩], [none], [], []⟩ =
        .ok (true, ⟨[⟨0, ⟨.k_val, .k_const⟩⟩, ⟨0, ⟨.k_ref, .k_mutable⟩⟩], [some 1], [],
          [.get_type_at 1, .get_type_at 0, .make_type_id 0 ⟨.k_ref, .k_mutable⟩]⟩) ∧
      get_type_at [⟨0, ⟨.k_val, .k_const⟩⟩, ⟨0, ⟨.k_ref, .k_mutable⟩⟩] 1 =
        some ⟨0, ⟨.k_ref, .k_mutable⟩⟩ :=
  requested_type_id_is_the_parameter_type 1 0 0
    ⟨[⟨0, ⟨.k_val, .k_const⟩⟩, ⟨0, ⟨.k_ref, .k_mutable⟩⟩], [none], [], []⟩
    ⟨0, ⟨.k_ref, .k_mutable⟩⟩ ⟨0, ⟨.k_val, .k_const⟩⟩ ⟨0, ⟨.k_val, .k_mutable⟩⟩
    (by decide) rfl rfl rfl rfl (by decide)

/-! ## Supporting lemmas: the declaration of the parameters -/

theorem parameter_frame_refl (st : template_state) : parameter_frame st st :=
  ⟨rfl, rfl, rfl, rfl, table_grows_refl _, [], by simp, rfl⟩

theorem parameter_frame_trans {s1 s2 s3 : template_state} (h12 : parameter_frame s1 s2)
    (h23 : parameter_frame s2 s3) : parameter_frame s1 s3 := by
  obtain ⟨a1, a2, a3, a4, a5, l1, a6, a7⟩ := h12
  obtain ⟨b1, b2, b3, b4, b5, l2, b6, b7⟩ := h23
  refine ⟨b1.trans a1, b2.trans a2, b3.trans a3, b4.trans a4, table_grows_trans a5 b5,
    l1 ++ l2, ?_, ?_⟩
  · rw [b6, a6, List.append_assoc]
  · rw [List.all_append, a7, b7]
    rfl

theorem declare_parameter_ok {v : analyzer} {b : List (identifier_value × template_argument)}
    {e : variable_declaration} {f f1 : function_symbol_environment} {st st1 : template_state}
    (h : declare_parameter v b e f st = ⟨st1, .ok f1⟩) :
    ∃ type_expr solved,
      e.decl_unit.init_unit.type = some type_expr ∧
      v.solve_type b type_expr st.world = some solved ∧
      st1 = ⟨⟨(make_type_id st.world.env solved.class_env
              (set_quality solved.ty.attributes e.quality)).2,
            st.world.overloads, st.world.completed, st.world.next_id⟩,
          st.calls ++ [template_call.solve_type type_expr,
            template_call.parameter_variable_construct f.id e.decl_unit.name
              solved.class_env (set_quality solved.ty.attributes e.quality)],
          st.generic_function_env⟩ ∧
      f1 = ⟨f.id, f.parameter_type_ids ++
        [(make_type_id st.world.env solved.class_env
          (set_quality solved.ty.attributes e.quality)).1]⟩ := by
  unfold declare_parameter at h
  cases ht : e.decl_unit.init_unit.type with
  | none =>
    cases hi : e.decl_unit.init_unit.initializer with
    | none => simp [ht, hi] at h
    | some x => simp [ht, hi] at h
  | some t =>
    simp only [ht] at h
    cases hs : v.solve_type b t st.world with
    | none => simp [hs] at h
    | some solved =>
      simp only [hs, step_result.mk.injEq, Except.ok.injEq] at h
      exact ⟨t, solved, rfl, hs, h.1.symm, h.2.symm⟩

theorem declare_parameter_frame (v : analyzer) (b : List (identifier_value × template_argument))
    (e : variable_declaration) (f : function_symbol_environment) (st : template_state) :
    parameter_frame st (declare_parameter v b e f st).state := by
  unfold declare_parameter
  cases ht : e.decl_unit.init_unit.type with
  | none =>
    cases hi : e.decl_unit.init_unit.initializer with
    | none => exact parameter_frame_refl st
    | some x => exact parameter_frame_refl st
  | some t =>
    simp only
    cases hs : v.solve_type b t st.world with
    | none => exact ⟨rfl, rfl, rfl, rfl, table_grows_refl _, _, rfl, rfl⟩
    | some solved =>
      exact ⟨rfl, rfl, rfl, rfl, make_type_id_grows _ _ _, _, rfl, rfl⟩

theorem declare_parameters_frame (v : analyzer)
    (b : List (identifier_value × template_argument)) :
    ∀ (ps : List variable_declaration) (f : function_symbol_environment)
      (st : template_state), parameter_frame st (declare_parameters v b ps f st).state := by
  intro ps
  induction ps with
  | nil => intro f st; exact parameter_frame_refl st
  | cons e rest ih =>
    intro f st
    simp only [declare_parameters]
    have h1 := declare_parameter_frame v b e f st
    cases hd : declare_parameter v b e f st with
    | mk st1 r =>
      rw [hd] at h1
      cases r with
      | error failure => exact h1
      | ok f1 => exact parameter_frame_trans h1 (ih f1 st1)

theorem declare_parameters_append (v : analyzer)
    (b : List (identifier_value × template_argument)) :
    ∀ (xs ys : List variable_declaration) (f : function_symbol_environment)
      (st : template_state),
      declare_parameters v b (xs ++ ys) f st =
        match declare_parameters v b xs f st with
        | ⟨st1, .error failure⟩ => ⟨st1, .error failure⟩
        | ⟨st1, .ok f1⟩ => declare_parameters v b ys f1 st1 := by
  intro xs
  induction xs with
  | nil => intro ys f st; simp [declare_parameters]
  | cons e rest ih =>
    intro ys f st
    simp only [List.cons_append, declare_parameters]
    cases hd : declare_parameter v b e f st with
    | mk st1 r =>
      cases r with
      | error failure => rfl
      | ok f1 => exact ih ys f1 st1

theorem declare_parameters_ok (v : analyzer)
    (b : List (identifier_value × template_argument)) :
    ∀ (ps : List variable_declaration) (f f1 : function_symbol_environment)
      (st st1 : template_state),
      declare_parameters v b ps f st = ⟨st1, .ok f1⟩ →
      (∀ e ∈ ps, e.decl_unit.init_unit.type ≠ none) ∧
        ∃ ids : List type_id_t,
          f1 = ⟨f.id, f.parameter_type_ids ++ ids⟩ ∧ ids.length = ps.length ∧
          ∀ (g : function_symbol_environment) (st2 : template_state),
            solve_type_stable v → table_grows st1.world.env st2.world.env →
            ∃ st3, declare_parameters v b ps g st2 =
                ⟨st3, .ok ⟨g.id, g.parameter_type_ids ++ ids⟩⟩ ∧
              st3.world = st2.world ∧ st3.generic_function_env = st2.generic_function_env := by
  intro ps
  induction ps with
  | nil =>
    intro f f1 st st1 h
    simp only [declare_parameters, step_result.mk.injEq, Except.ok.injEq] at h
    refine ⟨by simp, [], by simp [← h.2], rfl, ?_⟩
    intro g st2 _ _
    exact ⟨st2, by simp [declare_parameters], rfl, rfl⟩
  | cons e rest ih =>
    intro f f1 st st1 h
    simp only [declare_parameters] at h
    cases hd : declare_parameter v b e f st with
    | mk sa r =>
      cases r with
      | error failure => simp [hd] at h
      | ok fa =>
        simp only [hd] at h
        obtain ⟨t, solved, ht, hs, hsa, hfa⟩ := declare_parameter_ok hd
        obtain ⟨hannot, ids, hf1, hlen, hrep⟩ := ih fa f1 sa st1 h
        have hgrow : table_grows sa.world.env st1.world.env := by
          have := declare_parameters_frame v b rest fa sa
          rw [h] at this
          exact this.2.2.2.2.1
        refine ⟨?_, (make_type_id st.world.env solved.class_env
            (set_quality solved.ty.attributes e.quality)).1 :: ids, ?_, by simp [hlen], ?_⟩
        · intro e1 he1
          rcases List.mem_cons.mp he1 with rfl | he1
          · rw [ht]; simp
          · exact hannot e1 he1
        · rw [hf1, hfa]
          simp
        · intro g st2 hstable hg
          have hsa_env : sa.world.env = (make_type_id st.world.env solved.class_env
              (set_quality solved.ty.attributes e.quality)).2 := by rw [hsa]
          have hgrow0 : table_grows st.world.env sa.world.env := by
            rw [hsa_env]; exact make_type_id_grows _ _ _
          have hs2 : v.solve_type b t st2.world = some solved :=
            hstable b t st.world st2.world solved
              (table_grows_trans hgrow0 (table_grows_trans hgrow hg)) hs
          have hmade : make_type_id st2.world.env solved.class_env
              (set_quality solved.ty.attributes e.quality) =
              ((make_type_id st.world.env solved.class_env
                (set_quality solved.ty.attributes e.quality)).1, st2.world.env) := by
            apply make_type_id_on_grown
            rw [← hsa_env]
            exact table_grows_trans hgrow hg
          obtain ⟨st3, h3, hw3, hg3⟩ := hrep
            ⟨g.id, g.parameter_type_ids ++ [(make_type_id st.world.env solved.class_env
              (set_quality solved.ty.attributes e.quality)).1]⟩
            ⟨st2.world, st2.calls ++ [template_call.solve_type t,
              template_call.parameter_variable_construct g.id e.decl_unit.name
                solved.class_env (set_quality solved.ty.attributes e.quality)],
              st2.generic_function_env⟩
            hstable hg
          refine ⟨st3, ?_, hw3, hg3⟩
          simp only [declare_parameters, declare_parameter, ht, hs2, hmade]
          simp only [List.append_assoc, List.singleton_append] at h3
          exact h3

theorem declare_parameters_total (v : analyzer)
    (b : List (identifier_value × template_argument)) (env0 : type_table) :
    ∀ (ps : List variable_declaration) (f : function_symbol_environment)
      (st : template_state), table_grows env0 st.world.env →
      (∀ e ∈ ps, ∃ type_expr, e.decl_unit.init_unit.type = some type_expr ∧
        ∀ world : template_world, table_grows env0 world.env →
          v.solve_type b type_expr world ≠ none) →
      ∃ st1 f1, declare_parameters v b ps f st = ⟨st1, .ok f1⟩ := by
  intro ps
  induction ps with
  | nil => intro f st _ _; exact ⟨st, f, rfl⟩
  | cons e rest ih =>
    intro f st hgrow hannot
    obtain ⟨t, ht, hres⟩ := hannot e (List.mem_cons_self _ _)
    obtain ⟨solved, hs⟩ := Option.ne_none_iff_exists'.mp (hres st.world hgrow)
    obtain ⟨st1, f1, h1⟩ := ih
      ⟨f.id, f.parameter_type_ids ++ [(make_type_id st.world.env solved.class_env
        (set_quality solved.ty.attributes e.quality)).1]⟩
      ⟨⟨(make_type_id st.world.env solved.class_env
            (set_quality solved.ty.attributes e.quality)).2,
          st.world.overloads, st.world.completed, st.world.next_id⟩,
        st.calls ++ [template_call.solve_type t,
          template_call.parameter_variable_construct f.id e.decl_unit.name
            solved.class_env (set_quality solved.ty.attributes e.quality)],
        st.generic_function_env⟩
      (table_grows_trans hgrow (make_type_id_grows _ _ _))
      (fun e1 he1 => hannot e1 (List.mem_cons_of_mem _ he1))
    refine ⟨st1, f1, ?_⟩
    simp only [declare_parameters, declare_parameter, ht, hs]
    exact h1

theorem declare_parameters_unannotated (v : analyzer)
    (b : List (identifier_value × template_argument)) :
    ∀ (ps : List variable_declaration) (f : function_symbol_environment)
      (st : template_state), (∃ e ∈ ps, e.decl_unit.init_unit.type = none) →
      ∃ failure, (declare_parameters v b ps f st).result = .error failure := by
  intro ps f st hex
  cases hd : declare_parameters v b ps f st with
  | mk st1 r =>
    cases r with
    | error failure => exact ⟨failure, rfl⟩
    | ok f1 =>
      obtain ⟨e, he, hnone⟩ := hex
      exact absurd hnone ((declare_parameters_ok v b ps f f1 st st1 hd).1 e he)

/-! ## Supporting lemmas: the instantiation of one candidate -/

theorem instantiate_candidate_skip (v : analyzer) (targs : List template_argument)
    (c : template_environment) (st : template_state)
    (h : targs.length > c.parameter_num) :
    instantiate_candidate v targs c st = ⟨st, .ok ()⟩ := by
  unfold instantiate_candidate
  rw [if_pos h]

theorem instantiate_candidate_unfold (v : analyzer) (targs : List template_argument)
    (c : template_environment) (st : template_state) (tmpl : template_statement)
    (fn : function_definition_statement)
    (hadm : targs.length ≤ c.parameter_num) (hast : c.related_ast = some tmpl)
    (hfn : tmpl.inner_node = some fn) :
    instantiate_candidate v targs c st =
      match declare_parameters v (bind_template_parameters tmpl.parameter_list targs)
          fn.parameter_list ⟨st.world.next_id, []⟩ (begin_instantiation fn st) with
      | ⟨st1, .error failure⟩ => ⟨st1, .error failure⟩
      | ⟨st1, .ok f_env⟩ =>
        finish_instantiation v (bind_template_parameters tmpl.parameter_list targs)
          fn f_env st1 := by
  unfold instantiate_candidate
  rw [if_neg (by omega)]
  simp only [hast, hfn]

theorem finish_instantiation_ok {v : analyzer}
    {b : List (identifier_value × template_argument)} {fn : function_definition_statement}
    {f : function_symbol_environment} {st st1 : template_state}
    (h : finish_instantiation v b fn f st = ⟨st1, .ok ()⟩) :
    ∃ w3 rt solved,
      v.dispatch fn.inner_ f st.world = .ok w3 ∧ fn.return_type_ = some rt ∧
      v.solve_type b rt w3 = some solved ∧
      st1 = ⟨⟨w3.env, w3.overloads ++ [f], w3.completed ++ [f.id], w3.next_id⟩,
        st.calls ++ [template_call.dispatch f.id, template_call.solve_type rt,
          template_call.complete f.id solved.ty_d.type_id,
          template_call.add_overload f.id, template_call.link_with_ast f.id],
        st.generic_function_env⟩ := by
  unfold finish_instantiation at h
  cases hd : v.dispatch fn.inner_ f st.world with
  | error failure => simp [hd] at h
  | ok w3 =>
    simp only [hd] at h
    cases hr : fn.return_type_ with
    | none => simp [hr] at h
    | some rt =>
      simp only [hr] at h
      cases hs : v.solve_type b rt w3 with
      | none => simp [hs] at h
      | some solved =>
        simp only [hs, step_result.mk.injEq, and_true] at h
        exact ⟨w3, rt, solved, rfl, rfl, hs, h.symm⟩

theorem instantiate_candidate_ok {v : analyzer} {targs : List template_argument}
    {c : template_environment} {st st1 : template_state}
    (h : instantiate_candidate v targs c st = ⟨st1, .ok ()⟩)
    (hadm : targs.length ≤ c.parameter_num) :
    ∃ tmpl fn st2 f w3 rt solved,
      c.related_ast = some tmpl ∧ tmpl.inner_node = some fn ∧
      declare_parameters v (bind_template_parameters tmpl.parameter_list targs)
        fn.parameter_list ⟨st.world.next_id, []⟩ (begin_instantiation fn st) =
          ⟨st2, .ok f⟩ ∧
      v.dispatch fn.inner_ f st2.world = .ok w3 ∧ fn.return_type_ = some rt ∧
      v.solve_type (bind_template_parameters tmpl.parameter_list targs) rt w3 = some solved ∧
      st1 = ⟨⟨w3.env, w3.overloads ++ [f], w3.completed ++ [f.id], w3.next_id⟩,
        st2.calls ++ [template_call.dispatch f.id, template_call.solve_type rt,
          template_call.complete f.id solved.ty_d.type_id,
          template_call.add_overload f.id, template_call.link_with_ast f.id],
        st2.generic_function_env⟩ := by
  cases hast : c.related_ast with
  | none =>
    unfold instantiate_candidate at h
    rw [if_neg (by omega)] at h
    simp [hast] at h
  | some tmpl =>
    cases hfn : tmpl.inner_node with
    | none =>
      unfold instantiate_candidate at h
      rw [if_neg (by omega)] at h
      simp [hast, hfn] at h
    | some fn =>
      rw [instantiate_candidate_unfold v targs c st tmpl fn hadm hast hfn] at h
      cases hd : declare_parameters v (bind_template_parameters tmpl.parameter_list targs)
          fn.parameter_list ⟨st.world.next_id, []⟩ (begin_instantiation fn st) with
      | mk st2 r =>
        cases r with
        | error failure => simp [hd] at h
        | ok f =>
          simp only [hd] at h
          obtain ⟨w3, rt, solved, h1, h2, h3, h4⟩ := finish_instantiation_ok h
          exact ⟨tmpl, fn, st2, f, w3, rt, solved, rfl, hfn, hd, h1, h2, h3, h4⟩

/-! ## Supporting lemmas: the loop over the candidates -/

theorem instantiate_candidates_append (v : analyzer) (targs : List template_argument) :
    ∀ (xs ys : List template_environment) (st : template_state),
      instantiate_candidates v targs (xs ++ ys) st =
        match instantiate_candidates v targs xs st with
        | ⟨st1, .error failure⟩ => ⟨st1, .error failure⟩
        | ⟨st1, .ok _⟩ => instantiate_candidates v targs ys st1 := by
  intro xs
  induction xs with
  | nil => intro ys st; simp [instantiate_candidates]
  | cons c rest ih =>
    intro ys st
    simp only [List.cons_append, instantiate_candidates]
    cases hd : instantiate_candidate v targs c st with
    | mk st1 r =>
      cases r with
      | error failure => rfl
      | ok u => exact ih ys st1

theorem instantiate_candidates_all_skipped (v : analyzer) (targs : List template_argument) :
    ∀ (cands : List template_environment) (st : template_state),
      (∀ c ∈ cands, targs.length > c.parameter_num) →
      instantiate_candidates v targs cands st = ⟨st, .ok ()⟩ := by
  intro cands
  induction cands with
  | nil => intro st _; rfl
  | cons c rest ih =>
    intro st hall
    simp only [instantiate_candidates,
      instantiate_candidate_skip v targs c st (hall c (List.mem_cons_self _ _))]
    exact ih st (fun c1 hc1 => hall c1 (List.mem_cons_of_mem _ hc1))

theorem instantiate_candidates_filter (v : analyzer) (targs : List template_argument) :
    ∀ (cands : List template_environment) (st : template_state),
      instantiate_candidates v targs cands st =
        instantiate_candidates v targs (cands.filter (admits_template_args targs)) st := by
  intro cands
  induction cands with
  | nil => intro st; rfl
  | cons c rest ih =>
    intro st
    by_cases hadm : targs.length ≤ c.parameter_num
    · have hf : admits_template_args targs c = true := by simp [admits_template_args, hadm]
      rw [List.filter_cons_of_pos hf]
      simp only [instantiate_candidates]
      cases hd : instantiate_candidate v targs c st with
      | mk st1 r =>
        cases r with
        | error failure => rfl
        | ok u => exact ih st1
    · have hf : ¬ admits_template_args targs c = true := by simp [admits_template_args, hadm]
      rw [List.filter_cons_of_neg hf]
      simp only [instantiate_candidates,
        instantiate_candidate_skip v targs c st (by omega)]
      exact ih st

/-! ## Supporting lemmas: reading the log -/

theorem constructed_ids_append (l1 l2 : List template_call) :
    constructed_ids (l1 ++ l2) = constructed_ids l1 ++ constructed_ids l2 := by
  induction l1 with
  | nil => rfl
  | cons call rest ih => cases call <;> simp [constructed_ids, ih]

theorem added_overload_ids_append (l1 l2 : List template_call) :
    added_overload_ids (l1 ++ l2) = added_overload_ids l1 ++ added_overload_ids l2 := by
  induction l1 with
  | nil => rfl
  | cons call rest ih => cases call <;> simp [added_overload_ids, ih]

theorem overload_solver_calls_append (l1 l2 : List template_call) :
    overload_solver_calls (l1 ++ l2) =
      overload_solver_calls l1 ++ overload_solver_calls l2 := by
  induction l1 with
  | nil => rfl
  | cons call rest ih => cases call <;> simp [overload_solver_calls, ih]

theorem parameter_calls_silent (l : List template_call)
    (h : l.all is_parameter_call = true) :
    constructed_ids l = [] ∧ added_overload_ids l = [] ∧ overload_solver_calls l = [] := by
  induction l with
  | nil => exact ⟨rfl, rfl, rfl⟩
  | cons call rest ih =>
    simp only [List.all_cons, Bool.and_eq_true] at h
    obtain ⟨h1, h2, h3⟩ := ih h.2
    cases call <;>
      simp [is_parameter_call, constructed_ids, added_overload_ids, overload_solver_calls,
        h1, h2, h3] at h ⊢

theorem instantiate_candidate_log {v : analyzer} {targs : List template_argument}
    {c : template_environment} {st st1 : template_state}
    (h : instantiate_candidate v targs c st = ⟨st1, .ok ()⟩)
    (hadm : targs.length ≤ c.parameter_num) :
    ∃ (fn : function_definition_statement) (f : function_symbol_environment)
      (st2 : template_state) (w3 : template_world) (rt : type_expression) (tid : type_id_t)
      (added : List template_call),
      f.id = st.world.next_id ∧
      f.parameter_type_ids.length = function_parameter_count c ∧
      added.all is_parameter_call = true ∧
      st2.calls = st.calls ++ [template_call.clone_inner_node,
        template_call.incomplete_construct fn.identifier f.id, template_call.tp f.id] ++
          added ∧
      st2.world.overloads = st.world.overloads ∧
      st2.world.completed = st.world.completed ∧
      st2.world.next_id = st.world.next_id + 1 ∧
      table_grows st.world.env st2.world.env ∧
      v.dispatch fn.inner_ f st2.world = .ok w3 ∧
      st1.calls = st2.calls ++ [template_call.dispatch f.id, template_call.solve_type rt,
        template_call.complete f.id tid, template_call.add_overload f.id,
        template_call.link_with_ast f.id] ∧
      st1.world = ⟨w3.env, w3.overloads ++ [f], w3.completed ++ [f.id], w3.next_id⟩ ∧
      st1.generic_function_env = some fn.identifier := by
  obtain ⟨tmpl, fn, st2, f, w3, rt, solved, hast, hfn, hdecl, hdisp, hrt, hsol, hst1⟩ :=
    instantiate_candidate_ok h hadm
  have hframe := declare_parameters_frame v
    (bind_template_parameters tmpl.parameter_list targs) fn.parameter_list
    ⟨st.world.next_id, []⟩ (begin_instantiation fn st)
  rw [hdecl] at hframe
  obtain ⟨a1, a2, a3, a4, a5, added, a6, a7⟩ := hframe
  obtain ⟨_, ids, hf, hlen, _⟩ := declare_parameters_ok v _ _ _ _ _ _ hdecl
  have hfid : f.id = st.world.next_id := by rw [hf]
  refine ⟨fn, f, st2, w3, rt, solved.ty_d.type_id, added, hfid, ?_, a7, ?_, a1, a2, a3, a5,
    hdisp, ?_, ?_, ?_⟩
  · rw [hf]
    simp [function_parameter_count, hast, hfn, hlen]
  · rw [a6, hfid]
    simp [begin_instantiation]
  · rw [hst1]
  · rw [hst1]
  · rw [hst1]
    exact a4

theorem instantiate_candidates_log (v : analyzer) (targs : List template_argument) :
    ∀ (cands : List template_environment) (st st1 : template_state),
      instantiate_candidates v targs cands st = ⟨st1, .ok ()⟩ →
      ∃ ids : List Nat,
        constructed_ids st1.calls = constructed_ids st.calls ++ ids ∧
        added_overload_ids st1.calls = added_overload_ids st.calls ++ ids ∧
        ids.length = (cands.filter (admits_template_args targs)).length ∧
        overload_solver_calls st1.calls = overload_solver_calls st.calls ∧
        (dispatch_keeps_overloads v →
          ∃ appended : List function_symbol_environment,
            st1.world.overloads = st.world.overloads ++ appended ∧
            appended.map (fun f => f.id) = ids ∧
            appended.map (fun f => f.parameter_type_ids.length) =
              (cands.filter (admits_template_args targs)).map function_parameter_count) := by
  intro cands
  induction cands with
  | nil =>
    intro st st1 h
    simp only [instantiate_candidates, step_result.mk.injEq, and_true] at h
    subst h
    exact ⟨[], by simp, by simp, rfl, rfl, fun _ => ⟨[], by simp, rfl, rfl⟩⟩
  | cons c rest ih =>
    intro st st1 h
    simp only [instantiate_candidates] at h
    cases hd : instantiate_candidate v targs c st with
    | mk sa r =>
      cases r with
      | error failure => simp [hd] at h
      | ok u =>
        simp only [hd] at h
        obtain ⟨ids, i1, i2, i3, i4, i5⟩ := ih sa st1 h
        by_cases hadm : targs.length ≤ c.parameter_num
        · have hf : admits_template_args targs c = true := by
            simp [admits_template_args, hadm]
          obtain ⟨fn, f, st2, w3, rt, tid, added, l1, l2, l3, l4, l5, l6, l7, l8, l9, l10,
            l11, l12⟩ := instantiate_candidate_log hd hadm
          obtain ⟨p1, p2, p3⟩ := parameter_calls_silent added l3
          have hc : constructed_ids sa.calls = constructed_ids st.calls ++ [f.id] := by
            rw [l10, l4]
            simp [constructed_ids_append, constructed_ids, p1]
          have ha : added_overload_ids sa.calls = added_overload_ids st.calls ++ [f.id] := by
            rw [l10, l4]
            simp [added_overload_ids_append, added_overload_ids, p2]
          have ho : overload_solver_calls sa.calls = overload_solver_calls st.calls := by
            rw [l10, l4]
            simp [overload_solver_calls_append, overload_solver_calls, p3]
          refine ⟨f.id :: ids, ?_, ?_, ?_, ?_, ?_⟩
          · rw [i1, hc]; simp
          · rw [i2, ha]; simp
          · rw [List.filter_cons_of_pos hf]; simp [i3]
          · rw [i4, ho]
          · intro hkeep
            obtain ⟨appended, q1, q2, q3⟩ := i5 hkeep
            refine ⟨f :: appended, ?_, ?_, ?_⟩
            · rw [q1, l11]
              simp only
              rw [hkeep _ _ _ _ l9, l5]
              simp
            · simp [q2]
            · rw [List.filter_cons_of_pos hf]
              simp [q3, l2]
        · have hf : ¬ admits_template_args targs c = true := by
            simp [admits_template_args, hadm]
          have hskip := instantiate_candidate_skip v targs c st (by omega)
          rw [hskip] at hd
          simp only [step_result.mk.injEq, and_true] at hd
          subst hd
          refine ⟨ids, i1, i2, ?_, i4, ?_⟩
          · rw [List.filter_cons_of_neg hf]; exact i3
          · intro hkeep
            obtain ⟨appended, q1, q2, q3⟩ := i5 hkeep
            refine ⟨appended, q1, q2, ?_⟩
            rw [List.filter_cons_of_neg hf]; exact q3

theorem overload_solver_with_template_with_of_loop {v : analyzer}
    {targs : List template_argument} {cands : List template_environment}
    {w : template_world} {st : template_state} {ident : identifier_value}
    (args : List type_detail)
    (f : List function_symbol_environment →
      Except assertion_failure function_symbol_environment_ptr)
    (hloop : instantiate_candidates v targs cands ⟨w, [], none⟩ = ⟨st, .ok ()⟩)
    (hgfe : st.generic_function_env = some ident) :
    overload_solver_with_template_with v (some targs) args ⟨cands⟩ w f =
      ⟨⟨st.world, st.calls ++ [template_call.overload_solver (args.map to_type_id_t2)],
          st.generic_function_env⟩,
        overload_solver_with (args.map to_type_id_t2) st.world.overloads st.world.env f⟩ := by
  simp only [overload_solver_with_template_with, hloop, hgfe]

theorem overload_solver_with_template_with_of_failure {v : analyzer}
    {targs : List template_argument} {cands : List template_environment}
    {w : template_world} {st : template_state} {failure : assertion_failure}
    (args : List type_detail)
    (f : List function_symbol_environment →
      Except assertion_failure function_symbol_environment_ptr)
    (hloop : instantiate_candidates v targs cands ⟨w, [], none⟩ = ⟨st, .error failure⟩) :
    overload_solver_with_template_with v (some targs) args ⟨cands⟩ w f =
      ⟨st, .error failure⟩ := by
  simp only [overload_solver_with_template_with, hloop]

theorem instantiate_candidates_failure {v : analyzer} {targs : List template_argument}
    {before after : List template_environment} {c : template_environment}
    {st stB stF : template_state} {failure : assertion_failure}
    (hbefore : instantiate_candidates v targs before st = ⟨stB, .ok ()⟩)
    (hc : instantiate_candidate v targs c stB = ⟨stF, .error failure⟩) :
    instantiate_candidates v targs (before ++ c :: after) st = ⟨stF, .error failure⟩ := by
  rw [instantiate_candidates_append, hbefore]
  simp only [instantiate_candidates, hc]

theorem no_instantiable_candidate (v : analyzer) (targs : List template_argument)
    (args : List type_detail) (cands : List template_environment) (w : template_world)
    (f : List function_symbol_environment →
      Except assertion_failure function_symbol_environment_ptr)
    (hall : ∀ c ∈ cands, targs.length > c.parameter_num) :
    overload_solver_with_template_with v (some targs) args ⟨cands⟩ w f =
      ⟨⟨w, [], none⟩, .error .generic_function_env_is_null⟩ := by
  simp only [overload_solver_with_template_with,
    instantiate_candidates_all_skipped v targs cands _ hall]

/-! ## Template instantiation: failures -/

/-- C26 (as stated) fails: the failure on a parameter with a default
initializer and no type annotation is not an outcome that is reported to the
caller.  On this input the run stops at the bare `assert( false )` under
`TODO: implement type inference`, before `overload_solver` is called (the log
has no `overload_solver` call), for every selection callback: neither policy,
not even the one that tolerates absence, gets to decide the outcome, and
nothing is returned. -/
theorem unannotated_parameter_ends_at_an_assertion :
    (∀ f : List function_symbol_environment →
        Except assertion_failure function_symbol_environment_ptr,
      (overload_solver_with_template_with literal_analyzer (some [3]) [⟨0⟩]
          ⟨[⟨1, some ⟨[100], some ⟨7,
            [⟨.k_ref, ⟨1, ⟨some 0, none⟩⟩⟩, ⟨.k_val, ⟨2, ⟨none, some 8⟩⟩⟩], some 0, 0⟩⟩⟩]⟩
          ⟨[⟨0, ⟨.k_val, .k_mutable⟩⟩], [], [], 5⟩ f).result =
        .error .type_inference_not_implemented) ∧
      overload_solver_calls
        (overload_solver_with_template literal_analyzer (some [3]) [⟨0⟩]
          ⟨[⟨1, some ⟨[100], some ⟨7,
            [⟨.k_ref, ⟨1, ⟨some 0, none⟩⟩⟩, ⟨.k_val, ⟨2, ⟨none, some 8⟩⟩⟩], some 0, 0⟩⟩⟩]⟩
          ⟨[⟨0, ⟨.k_val, .k_mutable⟩⟩], [], [], 5⟩).state.calls = [] ∧
      (∀ r : function_symbol_environment_ptr,
        (overload_solver_with_template literal_analyzer (some [3]) [⟨0⟩]
          ⟨[⟨1, some ⟨[100], some ⟨7,
            [⟨.k_ref, ⟨1, ⟨some 0, none⟩⟩⟩, ⟨.k_val, ⟨2, ⟨none, some 8⟩⟩⟩], some 0, 0⟩⟩⟩]⟩
          ⟨[⟨0, ⟨.k_val, .k_mutable⟩⟩], [], [], 5⟩).result ≠ .ok r) ∧
      (∀ r : function_symbol_environment_ptr,
        (overload_solver_allow_no_entry_with_template literal_analyzer (some [3]) [⟨0⟩]
          ⟨[⟨1, some ⟨[100], some ⟨7,
            [⟨.k_ref, ⟨1, ⟨some 0, none⟩⟩⟩, ⟨.k_val, ⟨2, ⟨none, some 8⟩⟩⟩], some 0, 0⟩⟩⟩]⟩
          ⟨[⟨0, ⟨.k_val, .k_mutable⟩⟩], [], [], 5⟩).result ≠ .ok r) := by
  refine ⟨fun f => rfl, rfl, fun r h => ?_, fun r h => ?_⟩
  · cases h
  · cases h

/-- C26 (as amended): a candidate that is instantiated and has a parameter with
no type annotation but a default initializer.  Once the candidates before it
are instantiated and the parameters before that one are declared, the run
stops at the `assert( false )` under `TODO: implement type inference`, for
every selection callback: the callback is not invoked.  The state in which it
stops is the one reached after the earlier parameters: the parameter is not
declared, and the overload set and the completed environments are those from
before the candidate.  Whatever happens before, the instantiation of such a
candidate never succeeds, so no signature is appended for it. -/
theorem unannotated_parameter_stops_instantiation (v : analyzer)
    (targs : List template_argument) (args : List type_detail)
    (before after : List template_environment) (c : template_environment)
    (w : template_world) (stB st2 : template_state) (tmpl : template_statement)
    (fn : function_definition_statement) (pre post : List variable_declaration)
    (e : variable_declaration) (x : expression) (f_env : function_symbol_environment)
    (hbefore : instantiate_candidates v targs before ⟨w, [], none⟩ = ⟨stB, .ok ()⟩)
    (hadm : targs.length ≤ c.parameter_num) (hast : c.related_ast = some tmpl)
    (hfn : tmpl.inner_node = some fn) (hparams : fn.parameter_list = pre ++ e :: post)
    (hpre : declare_parameters v (bind_template_parameters tmpl.parameter_list targs) pre
      ⟨stB.world.next_id, []⟩ (begin_instantiation fn stB) = ⟨st2, .ok f_env⟩)
    (htype : e.decl_unit.init_unit.type = none)
    (hinit : e.decl_unit.init_unit.initializer = some x) :
    overload_solver_with_template v (some targs) args ⟨before ++ c :: after⟩ w =
        ⟨st2, .error .type_inference_not_implemented⟩ ∧
      (∀ f : List function_symbol_environment →
          Except assertion_failure function_symbol_environment_ptr,
        overload_solver_with_template_with v (some targs) args ⟨before ++ c :: after⟩ w f =
          ⟨st2, .error .type_inference_not_implemented⟩) ∧
      st2.world.overloads = stB.world.overloads ∧
      st2.world.completed = stB.world.completed ∧
      (∃ added : List template_call, added.all is_parameter_call = true ∧
        st2.calls = stB.calls ++ [template_call.clone_inner_node,
          template_call.incomplete_construct fn.identifier stB.world.next_id,
          template_call.tp stB.world.next_id] ++ added) ∧
      (∀ st : template_state, ∃ failure,
        (instantiate_candidate v targs c st).result = .error failure) := by
  have hdecl : declare_parameters v (bind_template_parameters tmpl.parameter_list targs)
      fn.parameter_list ⟨stB.world.next_id, []⟩ (begin_instantiation fn stB) =
      ⟨st2, .error .type_inference_not_implemented⟩ := by
    rw [hparams, declare_parameters_append, hpre]
    simp only [declare_parameters, declare_parameter, htype, hinit]
  have hc : instantiate_candidate v targs c stB =
      ⟨st2, .error .type_inference_not_implemented⟩ := by
    rw [instantiate_candidate_unfold v targs c stB tmpl fn hadm hast hfn, hdecl]
  have hframe := declare_parameters_frame v
    (bind_template_parameters tmpl.parameter_list targs) pre
    ⟨stB.world.next_id, []⟩ (begin_instantiation fn stB)
  rw [hpre] at hframe
  obtain ⟨a1, a2, _, _, _, added, a6, a7⟩ := hframe
  refine ⟨?_, fun f => ?_, a1, a2, ⟨added, a7, ?_⟩, ?_⟩
  · exact overload_solver_with_template_with_of_failure args select_unique
      (instantiate_candidates_failure hbefore hc)
  · exact overload_solver_with_template_with_of_failure args f
      (instantiate_candidates_failure hbefore hc)
  · rw [a6]
    simp [begin_instantiation]
  · intro st
    rw [instantiate_candidate_unfold v targs c st tmpl fn hadm hast hfn]
    obtain ⟨failure, hfail⟩ := declare_parameters_unannotated v
      (bind_template_parameters tmpl.parameter_list targs) fn.parameter_list
      ⟨st.world.next_id, []⟩ (begin_instantiation fn st)
      ⟨e, by rw [hparams]; simp, htype⟩
    cases hd : declare_parameters v (bind_template_parameters tmpl.parameter_list targs)
        fn.parameter_list ⟨st.world.next_id, []⟩ (begin_instantiation fn st) with
    | mk s r =>
      rw [hd] at hfail
      simp only at hfail
      subst hfail
      exact ⟨failure, rfl⟩

/-- A concrete instance: the second parameter of the only candidate has an
initializer and no type annotation. -/
theorem unannotated_parameter_stops_instantiation_witness :
    overload_solver_with_template literal_analyzer (some [3]) [⟨0⟩]
        ⟨[] ++ (⟨1, some ⟨[100], some ⟨7,
          [⟨.k_ref, ⟨1, ⟨some 0, none⟩⟩⟩, ⟨.k_val, ⟨2, ⟨none, some 8⟩⟩⟩], some 0, 0⟩⟩⟩ :
            template_environment) :: []⟩
        ⟨[⟨0, ⟨.k_val, .k_mutable⟩⟩], [], [], 5⟩ =
      ⟨⟨⟨[⟨0, ⟨.k_val, .k_mutable⟩⟩, ⟨0, ⟨.k_ref, .k_mutable⟩⟩], [], [], 6⟩,
          [.clone_inner_node, .incomplete_construct 7 5, .tp 5, .solve_type 0,
            .parameter_variable_construct 5 1 0 ⟨.k_ref, .k_mutable⟩],
          some 7⟩,
        .error .type_inference_not_implemented⟩ :=
  (unannotated_parameter_stops_instantiation literal_analyzer [3] [⟨0⟩] [] []
    ⟨1, some ⟨[100], some ⟨7,
      [⟨.k_ref, ⟨1, ⟨some 0, none⟩⟩⟩, ⟨.k_val, ⟨2, ⟨none, some 8⟩⟩⟩], some 0, 0⟩⟩⟩
    ⟨[⟨0, ⟨.k_val, .k_mutable⟩⟩], [], [], 5⟩
    ⟨⟨[⟨0, ⟨.k_val, .k_mutable⟩⟩], [], [], 5⟩, [], none⟩
    ⟨⟨[⟨0, ⟨.k_val, .k_mutable⟩⟩, ⟨0, ⟨.k_ref, .k_mutable⟩⟩], [], [], 6⟩,
      [.clone_inner_node, .incomplete_construct 7 5, .tp 5, .solve_type 0,
        .parameter_variable_construct 5 1 0 ⟨.k_ref, .k_mutable⟩],
      some 7⟩
    ⟨[100], some ⟨7,
      [⟨.k_ref, ⟨1, ⟨some 0, none⟩⟩⟩, ⟨.k_val, ⟨2, ⟨none, some 8⟩⟩⟩], some 0, 0⟩⟩
    ⟨7, [⟨.k_ref, ⟨1, ⟨some 0, none⟩⟩⟩, ⟨.k_val, ⟨2, ⟨none, some 8⟩⟩⟩], some 0, 0⟩
    [⟨.k_ref, ⟨1, ⟨some 0, none⟩⟩⟩] [] ⟨.k_val, ⟨2, ⟨none, some 8⟩⟩⟩ 8 ⟨5, [1]⟩
    rfl (by decide) rfl rfl rfl rfl rfl rfl).1

/-- C27: a candidate that is instantiated and whose cloned function has no
return-type annotation.  Once the candidates before it are instantiated, its
parameters are declared and its body is checked, the run stops at the assertion
`"function return type inference was not supported yet"`, the failure that the
specification names `TypeInferenceUnsupported`; the state in which it stops is
the one that the check of the body left, with only the `dispatch` call added to
the log: `complete` and `add_overload` are not called.  Whatever happens
before, the instantiation of such a candidate never succeeds, so the signature
is never completed and never appended. -/
theorem missing_return_type_stops_instantiation (v : analyzer)
    (targs : List template_argument) (args : List type_detail)
    (before after : List template_environment) (c : template_environment)
    (w w3 : template_world) (stB st2 : template_state) (tmpl : template_statement)
    (fn : function_definition_statement) (f_env : function_symbol_environment)
    (hbefore : instantiate_candidates v targs before ⟨w, [], none⟩ = ⟨stB, .ok ()⟩)
    (hadm : targs.length ≤ c.parameter_num) (hast : c.related_ast = some tmpl)
    (hfn : tmpl.inner_node = some fn) (hret : fn.return_type_ = none)
    (hdecl : declare_parameters v (bind_template_parameters tmpl.parameter_list targs)
      fn.parameter_list ⟨stB.world.next_id, []⟩ (begin_instantiation fn stB) =
        ⟨st2, .ok f_env⟩)
    (hbody : v.dispatch fn.inner_ f_env st2.world = .ok w3) :
    overload_solver_with_template v (some targs) args ⟨before ++ c :: after⟩ w =
        ⟨⟨w3, st2.calls ++ [template_call.dispatch f_env.id], st2.generic_function_env⟩,
          .error .return_type_inference_not_supported⟩ ∧
      added_overload_ids (st2.calls ++ [template_call.dispatch f_env.id]) =
        added_overload_ids stB.calls ∧
      (∀ st : template_state, ∃ failure,
        (instantiate_candidate v targs c st).result = .error failure) := by
  have hc : instantiate_candidate v targs c stB =
      ⟨⟨w3, st2.calls ++ [template_call.dispatch f_env.id], st2.generic_function_env⟩,
        .error .return_type_inference_not_supported⟩ := by
    rw [instantiate_candidate_unfold v targs c stB tmpl fn hadm hast hfn, hdecl]
    simp only [finish_instantiation, hbody, hret]
  have hframe := declare_parameters_frame v
    (bind_template_parameters tmpl.parameter_list targs) fn.parameter_list
    ⟨stB.world.next_id, []⟩ (begin_instantiation fn stB)
  rw [hdecl] at hframe
  obtain ⟨_, _, _, _, _, added, a6, a7⟩ := hframe
  refine ⟨?_, ?_, ?_⟩
  · exact overload_solver_with_template_with_of_failure args select_unique
      (instantiate_candidates_failure hbefore hc)
  · rw [a6]
    simp [begin_instantiation, added_overload_ids_append, added_overload_ids,
      (parameter_calls_silent added a7).2.1]
  · intro st
    rw [instantiate_candidate_unfold v targs c st tmpl fn hadm hast hfn]
    cases hd : declare_parameters v (bind_template_parameters tmpl.parameter_list targs)
        fn.parameter_list ⟨st.world.next_id, []⟩ (begin_instantiation fn st) with
    | mk s r =>
      cases r with
      | error failure => exact ⟨failure, rfl⟩
      | ok f1 =>
        simp only [finish_instantiation, hret]
        cases hdisp : v.dispatch fn.inner_ f1 s.world with
        | error failure => exact ⟨failure, rfl⟩
        | ok w4 => exact ⟨_, rfl⟩

/-- A concrete instance: the only candidate has one annotated parameter and no
return-type annotation. -/
theorem missing_return_type_stops_instantiation_witness :
    overload_solver_with_template literal_analyzer (some [3]) [⟨0⟩]
        ⟨[] ++ (⟨1, some ⟨[100], some ⟨7, [⟨.k_ref, ⟨1, ⟨some 0, none⟩⟩⟩], none, 0⟩⟩⟩ :
            template_environment) :: []⟩
        ⟨[⟨0, ⟨.k_val, .k_mutable⟩⟩], [], [], 5⟩ =
      ⟨⟨⟨[⟨0, ⟨.k_val, .k_mutable⟩⟩, ⟨0, ⟨.k_ref, .k_mutable⟩⟩], [], [], 6⟩,
          [.clone_inner_node, .incomplete_construct 7 5, .tp 5, .solve_type 0,
            .parameter_variable_construct 5 1 0 ⟨.k_ref, .k_mutable⟩] ++ [.dispatch 5],
          some 7⟩,
        .error .return_type_inference_not_supported⟩ :=
  (missing_return_type_stops_instantiation literal_analyzer [3] [⟨0⟩] [] []
    ⟨1, some ⟨[100], some ⟨7, [⟨.k_ref, ⟨1, ⟨some 0, none⟩⟩⟩], none, 0⟩⟩⟩
    ⟨[⟨0, ⟨.k_val, .k_mutable⟩⟩], [], [], 5⟩
    ⟨[⟨0, ⟨.k_val, .k_mutable⟩⟩, ⟨0, ⟨.k_ref, .k_mutable⟩⟩], [], [], 6⟩
    ⟨⟨[⟨0, ⟨.k_val, .k_mutable⟩⟩], [], [], 5⟩, [], none⟩
    ⟨⟨[⟨0, ⟨.k_val, .k_mutable⟩⟩, ⟨0, ⟨.k_ref, .k_mutable⟩⟩], [], [], 6⟩,
      [.clone_inner_node, .incomplete_construct 7 5, .tp 5, .solve_type 0,
        .parameter_variable_construct 5 1 0 ⟨.k_ref, .k_mutable⟩],
      some 7⟩
    ⟨[100], some ⟨7, [⟨.k_ref, ⟨1, ⟨some 0, none⟩⟩⟩], none, 0⟩⟩
    ⟨7, [⟨.k_ref, ⟨1, ⟨some 0, none⟩⟩⟩], none, 0⟩ ⟨5, [1]⟩
    rfl (by decide) rfl rfl rfl rfl rfl).1

/-- C28 (as stated) fails: with an empty template set the run does not end in
the outcome that `overload_solver` gives for an empty accepted list (the
assertion `"Overload failed..."`, which the specification names
`NoMatchingOverload`): it stops at `assert( generic_function_env != nullptr )`,
another assertion, raised before `overload_solver` is called. -/
theorem no_instantiation_is_not_no_matching_overload :
    (overload_solver_with_template literal_analyzer (some []) [] ⟨[]⟩
        ⟨[], [], [], 0⟩).result = .error .generic_function_env_is_null ∧
      overload_solver [] [] [] = .error .overload_failed ∧
      (overload_solver_with_template literal_analyzer (some []) [] ⟨[]⟩
        ⟨[], [], [], 0⟩).result ≠ overload_solver [] [] [] := by
  decide

/-- C28 (as amended): when no template candidate is instantiated (the
template set is empty, or every candidate declares fewer template parameters
than template arguments are supplied), `overload_solver_with_template` stops at
the assertion `generic_function_env != nullptr`, an internal error and not the
outcome of `overload_solver` for an empty accepted list; the environment is as
it was and no collaborator was called. -/
theorem no_instantiation_stops_at_internal_assertion (v : analyzer)
    (targs : List template_argument) (args : List type_detail)
    (cands : List template_environment) (w : template_world)
    (hall : ∀ c ∈ cands, targs.length > c.parameter_num) :
    overload_solver_with_template v (some targs) args ⟨cands⟩ w =
        ⟨⟨w, [], none⟩, .error .generic_function_env_is_null⟩ ∧
      assertion_failure.generic_function_env_is_null ≠ assertion_failure.overload_failed :=
  ⟨no_instantiable_candidate v targs args cands w select_unique hall, by decide⟩

/-- A concrete instance: one candidate with one template parameter, two
template arguments. -/
theorem no_instantiation_stops_at_internal_assertion_witness :
    overload_solver_with_template literal_analyzer (some [3, 4]) [⟨0⟩]
        ⟨[⟨1, some ⟨[100], some ⟨7, [], some 0, 0⟩⟩⟩]⟩ ⟨[], [], [], 0⟩ =
      ⟨⟨⟨[], [], [], 0⟩, [], none⟩, .error .generic_function_env_is_null⟩ :=
  (no_instantiation_stops_at_internal_assertion literal_analyzer [3, 4] [⟨0⟩]
    [⟨1, some ⟨[100], some ⟨7, [], some 0, 0⟩⟩⟩] ⟨[], [], [], 0⟩
    (fun c hc => by
      rw [List.mem_singleton.mp hc]
      decide)).1

/-! ## Template instantiation: the order of the steps -/

/-- C29: the candidates that declare fewer template parameters than template
arguments are supplied are skipped with no effect at all, and every other
candidate is instantiated, whether or not an earlier one succeeded.  When no
step fails, one function environment is constructed and then handed to
`add_overload` per candidate that is not skipped, in candidate order; if the
body checks leave the overload set alone, the overload set at the end is the
initial one followed by these signatures, the k-th of them having as many
parameters as the function of the k-th candidate that is not skipped.
`overload_solver` is called once, as the last step, on the type ids of the
argument nodes and the overload set reached at the end of the loop. -/
theorem every_admitting_candidate_is_instantiated (v : analyzer)
    (targs : List template_argument) :
    (∀ (c : template_environment) (st : template_state),
      targs.length > c.parameter_num → instantiate_candidate v targs c st = ⟨st, .ok ()⟩) ∧
    (∀ (cands : List template_environment) (st : template_state),
      instantiate_candidates v targs cands st =
        instantiate_candidates v targs (cands.filter (admits_template_args targs)) st) ∧
    (∀ (cands : List template_environment) (st st1 : template_state),
      instantiate_candidates v targs cands st = ⟨st1, .ok ()⟩ →
      ∃ ids : List Nat,
        constructed_ids st1.calls = constructed_ids st.calls ++ ids ∧
        added_overload_ids st1.calls = added_overload_ids st.calls ++ ids ∧
        ids.length = (cands.filter (admits_template_args targs)).length ∧
        overload_solver_calls st1.calls = overload_solver_calls st.calls ∧
        (dispatch_keeps_overloads v →
          ∃ appended : List function_symbol_environment,
            st1.world.overloads = st.world.overloads ++ appended ∧
            appended.map (fun f => f.id) = ids ∧
            appended.map (fun f => f.parameter_type_ids.length) =
              (cands.filter (admits_template_args targs)).map function_parameter_count)) ∧
    (∀ (args : List type_detail) (cands : List template_environment) (w : template_world)
      (st1 : template_state) (ident : identifier_value)
      (f : List function_symbol_environment →
        Except assertion_failure function_symbol_environment_ptr),
      instantiate_candidates v targs cands ⟨w, [], none⟩ = ⟨st1, .ok ()⟩ →
      st1.generic_function_env = some ident →
      (overload_solver_with_template_with v (some targs) args ⟨cands⟩ w f).state.calls =
          st1.calls ++ [template_call.overload_solver (args.map to_type_id_t2)] ∧
        overload_solver_calls
          (overload_solver_with_template_with v (some targs) args ⟨cands⟩ w f).state.calls =
            [args.map to_type_id_t2] ∧
        (overload_solver_with_template_with v (some targs) args ⟨cands⟩ w f).result =
          overload_solver_with (args.map to_type_id_t2) st1.world.overloads
            st1.world.env f) := by
  refine ⟨instantiate_candidate_skip v targs, instantiate_candidates_filter v targs,
    instantiate_candidates_log v targs, ?_⟩
  intro args cands w st1 ident f hloop hgfe
  rw [overload_solver_with_template_with_of_loop args f hloop hgfe]
  refine ⟨rfl, ?_, rfl⟩
  obtain ⟨ids, _, _, _, h4, _⟩ := instantiate_candidates_log v targs cands _ st1 hloop
  simp only [overload_solver_calls_append, h4]
  rfl

/-- A concrete instance: of three candidates the second declares too few
template parameters; the first and the third are instantiated. -/
theorem every_admitting_candidate_is_instantiated_witness :
    (overload_solver_with_template_with literal_analyzer (some [3, 4]) [⟨0⟩]
        ⟨[⟨2, some ⟨[100, 101], some ⟨7, [⟨.k_val, ⟨1, ⟨some 0, none⟩⟩⟩], some 0, 0⟩⟩⟩,
          ⟨1, some ⟨[100], some ⟨7, [], some 0, 0⟩⟩⟩,
          ⟨3, some ⟨[100, 101, 102], some ⟨7, [], some 0, 0⟩⟩⟩]⟩
        ⟨[⟨0, ⟨.k_val, .k_immutable⟩⟩], [], [], 5⟩ select_unique).state.calls =
      [.clone_inner_node, .incomplete_construct 7 5, .tp 5, .solve_type 0,
        .parameter_variable_construct 5 1 0 ⟨.k_val, .k_immutable⟩, .dispatch 5,
        .solve_type 0, .complete 5 0, .add_overload 5, .link_with_ast 5,
        .clone_inner_node, .incomplete_construct 7 6, .tp 6, .dispatch 6,
        .solve_type 0, .complete 6 0, .add_overload 6, .link_with_ast 6] ++
        [.overload_solver (List.map to_type_id_t2 [⟨0⟩])] ∧
      overload_solver_calls
          (overload_solver_with_template_with literal_analyzer (some [3, 4]) [⟨0⟩]
            ⟨[⟨2, some ⟨[100, 101], some ⟨7, [⟨.k_val, ⟨1, ⟨some 0, none⟩⟩⟩], some 0, 0⟩⟩⟩,
              ⟨1, some ⟨[100], some ⟨7, [], some 0, 0⟩⟩⟩,
              ⟨3, some ⟨[100, 101, 102], some ⟨7, [], some 0, 0⟩⟩⟩]⟩
            ⟨[⟨0, ⟨.k_val, .k_immutable⟩⟩], [], [], 5⟩ select_unique).state.calls =
        [List.map to_type_id_t2 [⟨0⟩]] ∧
      (overload_solver_with_template_with literal_analyzer (some [3, 4]) [⟨0⟩]
          ⟨[⟨2, some ⟨[100, 101], some ⟨7, [⟨.k_val, ⟨1, ⟨some 0, none⟩⟩⟩], some 0, 0⟩⟩⟩,
            ⟨1, some ⟨[100], some ⟨7, [], some 0, 0⟩⟩⟩,
            ⟨3, some ⟨[100, 101, 102], some ⟨7, [], some 0, 0⟩⟩⟩]⟩
          ⟨[⟨0, ⟨.k_val, .k_immutable⟩⟩], [], [], 5⟩ select_unique).result =
        overload_solver_with (List.map to_type_id_t2 [⟨0⟩]) [⟨5, [0]⟩, ⟨6, []⟩]
          [⟨0, ⟨.k_val, .k_immutable⟩⟩] select_unique :=
  (every_admitting_candidate_is_instantiated literal_analyzer [3, 4]).2.2.2 [⟨0⟩]
    [⟨2, some ⟨[100, 101], some ⟨7, [⟨.k_val, ⟨1, ⟨some 0, none⟩⟩⟩], some 0, 0⟩⟩⟩,
      ⟨1, some ⟨[100], some ⟨7, [], some 0, 0⟩⟩⟩,
      ⟨3, some ⟨[100, 101, 102], some ⟨7, [], some 0, 0⟩⟩⟩]
    ⟨[⟨0, ⟨.k_val, .k_immutable⟩⟩], [], [], 5⟩
    ⟨⟨[⟨0, ⟨.k_val, .k_immutable⟩⟩], [⟨5, [0]⟩, ⟨6, []⟩], [5, 6], 7⟩,
      [.clone_inner_node, .incomplete_construct 7 5, .tp 5, .solve_type 0,
        .parameter_variable_construct 5 1 0 ⟨.k_val, .k_immutable⟩, .dispatch 5,
        .solve_type 0, .complete 5 0, .add_overload 5, .link_with_ast 5,
        .clone_inner_node, .incomplete_construct 7 6, .tp 6, .dispatch 6,
        .solve_type 0, .complete 6 0, .add_overload 6, .link_with_ast 6],
      some 7⟩
    7 select_unique rfl rfl

/-- C30: the steps of a successful instantiation of a candidate that is not
skipped come in this order: `clone_inner_node`, `incomplete_construct`, the
binding of the template parameters, the declarations of the parameters, the
check of the body, then `solve_type` for the return type, `complete`,
`add_overload` and `link_with_ast`.  `add_overload` is called once for the new
function environment, after `complete`.  The environment handed to the check of
the body still has the overload set and the completed environments from before
the candidate, so (ids below the id source being the ones in use) the signature
under construction is not in its overload set and is not completed then. -/
theorem instantiation_call_order (v : analyzer) (targs : List template_argument)
    (c : template_environment) (st st1 : template_state)
    (h : instantiate_candidate v targs c st = ⟨st1, .ok ()⟩)
    (hadm : targs.length ≤ c.parameter_num)
    (hfresh : ∀ g ∈ st.world.overloads, g.id < st.world.next_id)
    (hfresh2 : ∀ i ∈ st.world.completed, i < st.world.next_id) :
    ∃ (fn : function_definition_statement) (f : function_symbol_environment)
      (st2 : template_state) (w3 : template_world) (rt : type_expression) (tid : type_id_t)
      (added : List template_call),
      f.id = st.world.next_id ∧
      added.all is_parameter_call = true ∧
      st2.calls = st.calls ++ [template_call.clone_inner_node,
        template_call.incomplete_construct fn.identifier f.id, template_call.tp f.id] ++
          added ∧
      st2.world.overloads = st.world.overloads ∧
      st2.world.completed = st.world.completed ∧
      (∀ g ∈ st2.world.overloads, g.id ≠ f.id) ∧
      f.id ∉ st2.world.completed ∧
      v.dispatch fn.inner_ f st2.world = .ok w3 ∧
      st1.calls = st2.calls ++ [template_call.dispatch f.id, template_call.solve_type rt,
        template_call.complete f.id tid, template_call.add_overload f.id,
        template_call.link_with_ast f.id] ∧
      st1.world.overloads = w3.overloads ++ [f] ∧
      st1.world.completed = w3.completed ++ [f.id] ∧
      added_overload_ids st1.calls = added_overload_ids st.calls ++ [f.id] := by
  obtain ⟨fn, f, st2, w3, rt, tid, added, l1, _, l3, l4, l5, l6, _, _, l9, l10, l11, _⟩ :=
    instantiate_candidate_log h hadm
  refine ⟨fn, f, st2, w3, rt, tid, added, l1, l3, l4, l5, l6, ?_, ?_, l9, l10, ?_, ?_, ?_⟩
  · intro g hg
    rw [l5] at hg
    have := hfresh g hg
    omega
  · intro hmem
    rw [l6] at hmem
    have := hfresh2 f.id hmem
    omega
  · rw [l11]
  · rw [l11]
  · rw [l10, l4]
    simp [added_overload_ids_append, added_overload_ids,
      (parameter_calls_silent added l3).2.1]

/-- A concrete instance: a candidate with one annotated parameter, instantiated
in an environment whose overload set already holds a signature. -/
theorem instantiation_call_order_witness :
    ∃ (fn : function_definition_statement) (f : function_symbol_environment)
      (st2 : template_state) (w3 : template_world) (rt : type_expression) (tid : type_id_t)
      (added : List template_call),
      f.id = 5 ∧
      added.all is_parameter_call = true ∧
      st2.calls = [] ++ [template_call.clone_inner_node,
        template_call.incomplete_construct fn.identifier f.id, template_call.tp f.id] ++
          added ∧
      st2.world.overloads = [⟨2, [0]⟩] ∧
      st2.world.completed = [2] ∧
      (∀ g ∈ st2.world.overloads, g.id ≠ f.id) ∧
      f.id ∉ st2.world.completed ∧
      literal_analyzer.dispatch fn.inner_ f st2.world = .ok w3 ∧
      ([.clone_inner_node, .incomplete_construct 7 5, .tp 5, .solve_type 0,
          .parameter_variable_construct 5 1 0 ⟨.k_val, .k_immutable⟩, .dispatch 5,
          .solve_type 0, .complete 5 0, .add_overload 5, .link_with_ast 5] :
            List template_call) =
        st2.calls ++ [template_call.dispatch f.id, template_call.solve_type rt,
          template_call.complete f.id tid, template_call.add_overload f.id,
          template_call.link_with_ast f.id] ∧
      ([⟨2, [0]⟩, ⟨5, [0]⟩] : List function_symbol_environment) = w3.overloads ++ [f] ∧
      ([2, 5] : List Nat) = w3.completed ++ [f.id] ∧
      added_overload_ids
          ([.clone_inner_node, .incomplete_construct 7 5, .tp 5, .solve_type 0,
            .parameter_variable_construct 5 1 0 ⟨.k_val, .k_immutable⟩, .dispatch 5,
            .solve_type 0, .complete 5 0, .add_overload 5, .link_with_ast 5] :
              List template_call) =
        added_overload_ids [] ++ [f.id] :=
  instantiation_call_order literal_analyzer [3]
    ⟨1, some ⟨[100], some ⟨7, [⟨.k_val, ⟨1, ⟨some 0, none⟩⟩⟩], some 0, 0⟩⟩⟩
    ⟨⟨[⟨0, ⟨.k_val, .k_immutable⟩⟩], [⟨2, [0]⟩], [2], 5⟩, [], none⟩
    ⟨⟨[⟨0, ⟨.k_val, .k_immutable⟩⟩], [⟨2, [0]⟩, ⟨5, [0]⟩], [2, 5], 6⟩,
      [.clone_inner_node, .incomplete_construct 7 5, .tp 5, .solve_type 0,
        .parameter_variable_construct 5 1 0 ⟨.k_val, .k_immutable⟩, .dispatch 5,
        .solve_type 0, .complete 5 0, .add_overload 5, .link_with_ast 5],
      some 7⟩
    rfl (by decide) (by decide) (by decide)

/-! ## Supporting lemmas: resolution after an instantiation -/

theorem overload_solver_with_single_same (args : List type_id_t)
    (c : function_symbol_environment) (env : type_table)
    (hsame : c.parameter_type_ids = args) :
    overload_solver_with args [c] env select_unique = .ok (some c) := by
  have hscan : overload_scan args [c] env = .ok ⟨env, args.map some, [c], []⟩ := by
    simp only [overload_scan, scan_overloads]
    rw [solve_candidate_same args c _ hsame (by simp [initial_state])]
    simp [initial_state]
  rw [overload_solver_with_of_scan _ hscan]
  rfl

theorem overload_scan_holder_length {args : List type_id_t}
    {overloads : List function_symbol_environment} {env : type_table} {st : solver_state}
    (h : overload_scan args overloads env = .ok st) : st.holder.length = args.length := by
  obtain ⟨h1, _, _⟩ := scan_overloads_inv args overloads _ _ h
  rw [h1]
  simp [initial_state]

theorem overload_scan_twin {args : List type_id_t} {known : List function_symbol_environment}
    {f1 f2 : function_symbol_environment} {env later : type_table} {st : solver_state}
    (hscan : overload_scan args (known ++ [f1]) env = .ok st)
    (hacc : st.f_candidate_envs = [f1]) (hnew : f1 ∉ known)
    (hparams : f2.parameter_type_ids = f1.parameter_type_ids)
    (hgrow : table_grows env later) :
    ∃ st2, overload_scan args (known ++ [f1] ++ [f2]) later = .ok st2 ∧
      st2.f_candidate_envs = [f1, f2] := by
  have henv : st.env = env := scan_overloads_env args _ _ st hscan
  have hlater : overload_scan args (known ++ [f1]) later =
      .ok ⟨later, st.holder, st.f_candidate_envs, st.calls⟩ :=
    scan_overloads_on_grown args later _ _ st hscan (by rw [henv]; exact hgrow)
  -- split the scan on the grown table at `f1`
  have hsplit := hlater
  unfold overload_scan at hsplit
  rw [scan_overloads_append] at hsplit
  cases hk : scan_overloads args known (initial_state args later) with
  | error e => simp [hk] at hsplit
  | ok sk =>
    simp only [hk, scan_overloads] at hsplit
    cases hf1 : solve_candidate args f1 sk with
    | error e => simp [hf1] at hsplit
    | ok s1 =>
      simp only [hf1, Except.ok.injEq] at hsplit
      have hkscan : overload_scan args known later = .ok sk := hk
      have hkacc := (overload_scan_accepted hkscan).1
      have hklen : sk.holder.length = args.length :=
        overload_scan_holder_length hkscan
      have hs1acc : s1.f_candidate_envs = [f1] := by rw [hsplit]; exact hacc
      rcases solve_candidate_decides hf1 with ⟨_, hlen, hadm⟩ | ⟨hsame, _⟩
      · obtain ⟨h1len, _, _⟩ := solve_candidate_inv hf1
        have h1env := solve_candidate_env hf1
        have hlen2 : f2.parameter_type_ids.length = args.length := by
          rw [hparams]; exact hlen
        have hhold2 : s1.holder.length = args.length := by omega
        obtain ⟨s2, hs2, hs2acc⟩ := solve_candidate_of_admitted hlen2 hhold2
          (by
            intro j p a hp ha
            rw [hparams] at hp
            rw [h1env]
            exact hadm j p a hp ha)
        refine ⟨s2, ?_, ?_⟩
        · unfold overload_scan
          rw [scan_overloads_append, scan_overloads_append, hk]
          simp only [scan_overloads, hf1, hs2]
        · rw [hs2acc, hs1acc]
          rfl
      · exfalso
        have hmem : f1 ∈ sk.f_candidate_envs := by
          rw [← hsame, hs1acc]
          exact List.mem_singleton.mpr rfl
        exact hnew (hkacc.subset hmem)

/-! ## Template instantiation: what a successful run leaves -/

/-- C23: a template set with a single candidate that is instantiated, whose
parameters and return type are all annotated (the annotations resolve and the
body check succeeds and leaves the overload set alone), on an empty overload
set.  The run leaves exactly one signature in the overload set, a new function
environment that is completed and has one parameter type id per parameter; and
when the type ids of the argument nodes are those parameter type ids, that
signature is returned. -/
theorem single_annotated_candidate_is_instantiated_and_returned (v : analyzer)
    (targs : List template_argument) (args : List type_detail)
    (c : template_environment) (tmpl : template_statement)
    (fn : function_definition_statement) (rt : type_expression) (w : template_world)
    (hadm : targs.length ≤ c.parameter_num) (hast : c.related_ast = some tmpl)
    (hfn : tmpl.inner_node = some fn) (hempty : w.overloads = [])
    (hannot : ∀ e ∈ fn.parameter_list, ∃ type_expr,
      e.decl_unit.init_unit.type = some type_expr ∧
        ∀ world : template_world, table_grows w.env world.env →
          v.solve_type (bind_template_parameters tmpl.parameter_list targs) type_expr
            world ≠ none)
    (hret : fn.return_type_ = some rt)
    (hsolve : ∀ world : template_world, table_grows w.env world.env →
      v.solve_type (bind_template_parameters tmpl.parameter_list targs) rt world ≠ none)
    (hbody : ∀ f world, ∃ world1,
      v.dispatch fn.inner_ f world = .ok world1 ∧ world1.overloads = world.overloads ∧
        table_grows world.env world1.env) :
    ∃ f : function_symbol_environment,
      (overload_solver_with_template v (some targs) args ⟨[c]⟩ w).state.world.overloads =
          [f] ∧
        f.id = w.next_id ∧
        f.id ∈ (overload_solver_with_template v (some targs) args ⟨[c]⟩ w).state.world.completed ∧
        f.parameter_type_ids.length = fn.parameter_list.length ∧
        added_overload_ids
          (overload_solver_with_template v (some targs) args ⟨[c]⟩ w).state.calls = [f.id] ∧
        (args.map to_type_id_t2 = f.parameter_type_ids →
          (overload_solver_with_template v (some targs) args ⟨[c]⟩ w).result =
            .ok (some f)) := by
  obtain ⟨st2, f, hdecl⟩ := declare_parameters_total v
    (bind_template_parameters tmpl.parameter_list targs) w.env fn.parameter_list
    ⟨w.next_id, []⟩ (begin_instantiation fn ⟨w, [], none⟩) (table_grows_refl _) hannot
  obtain ⟨w3, hdisp, hov, hgrow3⟩ := hbody f st2.world
  have hframe := declare_parameters_frame v
    (bind_template_parameters tmpl.parameter_list targs) fn.parameter_list
    ⟨w.next_id, []⟩ (begin_instantiation fn ⟨w, [], none⟩)
  rw [hdecl] at hframe
  obtain ⟨a1, _, _, a4, a5, added, a6, a7⟩ := hframe
  obtain ⟨solved, hsol⟩ := Option.ne_none_iff_exists'.mp
    (hsolve w3 (table_grows_trans a5 hgrow3))
  obtain ⟨_, ids, hf, hlen, _⟩ := declare_parameters_ok v _ _ _ _ _ _ hdecl
  have hcand : instantiate_candidate v targs c ⟨w, [], none⟩ =
      ⟨⟨⟨w3.env, w3.overloads ++ [f], w3.completed ++ [f.id], w3.next_id⟩,
        st2.calls ++ [template_call.dispatch f.id, template_call.solve_type rt,
          template_call.complete f.id solved.ty_d.type_id,
          template_call.add_overload f.id, template_call.link_with_ast f.id],
        st2.generic_function_env⟩, .ok ()⟩ := by
    rw [instantiate_candidate_unfold v targs c _ tmpl fn hadm hast hfn, hdecl]
    simp only [finish_instantiation, hdisp, hret, hsol]
  have hloop : instantiate_candidates v targs [c] ⟨w, [], none⟩ =
      ⟨⟨⟨w3.env, w3.overloads ++ [f], w3.completed ++ [f.id], w3.next_id⟩,
        st2.calls ++ [template_call.dispatch f.id, template_call.solve_type rt,
          template_call.complete f.id solved.ty_d.type_id,
          template_call.add_overload f.id, template_call.link_with_ast f.id],
        st2.generic_function_env⟩, .ok ()⟩ := by
    simp only [instantiate_candidates, hcand]
  have hgfe : st2.generic_function_env = some fn.identifier := by
    rw [a4]; rfl
  have hw3 : w3.overloads = [] := by
    rw [hov, a1]
    exact hempty
  have hrun := overload_solver_with_template_with_of_loop args select_unique hloop hgfe
  unfold overload_solver_with_template
  rw [hrun]
  refine ⟨f, ?_, ?_, ?_, ?_, ?_, ?_⟩
  · simp [hw3]
  · rw [hf]
  · simp
  · rw [hf]
    simp [hlen]
  · simp only
    rw [a6]
    simp [begin_instantiation, added_overload_ids_append, added_overload_ids,
      (parameter_calls_silent added a7).2.1]
  · intro hargs
    simp only [hw3, List.nil_append]
    exact overload_solver_with_single_same _ f _ hargs.symm

/-- A concrete instance: one candidate with one `ref` parameter annotated with
the type of id 0, called with an argument of the type id that the parameter
gets. -/
theorem single_annotated_candidate_is_instantiated_and_returned_witness :
    ∃ f : function_symbol_environment,
      (overload_solver_with_template literal_analyzer (some [3]) [⟨1⟩]
        ⟨[⟨1, some ⟨[100], some ⟨7, [⟨.k_ref, ⟨1, ⟨some 0, none⟩⟩⟩], some 0, 0⟩⟩⟩]⟩
        ⟨[⟨0, ⟨.k_val, .k_mutable⟩⟩], [], [], 5⟩).state.world.overloads = [f] ∧
      f.id = 5 ∧
      f.id ∈ (overload_solver_with_template literal_analyzer (some [3]) [⟨1⟩]
        ⟨[⟨1, some ⟨[100], some ⟨7, [⟨.k_ref, ⟨1, ⟨some 0, none⟩⟩⟩], some 0, 0⟩⟩⟩]⟩
        ⟨[⟨0, ⟨.k_val, .k_mutable⟩⟩], [], [], 5⟩).state.world.completed ∧
      f.parameter_type_ids.length = [(⟨.k_ref, ⟨1, ⟨some 0, none⟩⟩⟩ : variable_declaration)].length ∧
      added_overload_ids (overload_solver_with_template literal_analyzer (some [3]) [⟨1⟩]
        ⟨[⟨1, some ⟨[100], some ⟨7, [⟨.k_ref, ⟨1, ⟨some 0, none⟩⟩⟩], some 0, 0⟩⟩⟩]⟩
        ⟨[⟨0, ⟨.k_val, .k_mutable⟩⟩], [], [], 5⟩).state.calls = [f.id] ∧
      (List.map to_type_id_t2 [⟨1⟩] = f.parameter_type_ids →
        (overload_solver_with_template literal_analyzer (some [3]) [⟨1⟩]
          ⟨[⟨1, some ⟨[100], some ⟨7, [⟨.k_ref, ⟨1, ⟨some 0, none⟩⟩⟩], some 0, 0⟩⟩⟩]⟩
          ⟨[⟨0, ⟨.k_val, .k_mutable⟩⟩], [], [], 5⟩).result = .ok (some f)) :=
  single_annotated_candidate_is_instantiated_and_returned literal_analyzer [3] [⟨1⟩]
    ⟨1, some ⟨[100], some ⟨7, [⟨.k_ref, ⟨1, ⟨some 0, none⟩⟩⟩], some 0, 0⟩⟩⟩
    ⟨[100], some ⟨7, [⟨.k_ref, ⟨1, ⟨some 0, none⟩⟩⟩], some 0, 0⟩⟩
    ⟨7, [⟨.k_ref, ⟨1, ⟨some 0, none⟩⟩⟩], some 0, 0⟩ 0
    ⟨[⟨0, ⟨.k_val, .k_mutable⟩⟩], [], [], 5⟩
    (by decide) rfl rfl rfl
    (fun e he => by
      rw [List.mem_singleton.mp he]
      refine ⟨0, rfl, ?_⟩
      intro world hgrow
      have h0 := table_le_of_grows hgrow 0 ⟨0, ⟨.k_val, .k_mutable⟩⟩ rfl
      simp [literal_analyzer, h0])
    rfl
    (fun world hgrow => by
      have h0 := table_le_of_grows hgrow 0 ⟨0, ⟨.k_val, .k_mutable⟩⟩ rfl
      simp [literal_analyzer, h0])
    (fun f world => ⟨world, rfl, rfl, table_grows_refl _⟩)

/-- C24 (as stated) fails: the resolution at the end of the second
instantiation need not stop at the duplicate assertion.  The template has one
parameter of class 1, the argument is of class 0, and the overload set holds a
signature for the argument.  Both calls append a signature with the parameter
type ids `[1]`, so two distinct signatures with the same parameter type ids are
left, but neither is accepted for the argument: both calls return the
signature that was there from the start. -/
theorem repeated_instantiation_can_return_an_older_signature :
    overload_solver_with_template literal_analyzer (some [3]) [⟨0⟩]
        ⟨[⟨1, some ⟨[100], some ⟨7, [⟨.k_val, ⟨1, ⟨some 1, none⟩⟩⟩], some 0, 0⟩⟩⟩]⟩
        ⟨[⟨0, ⟨.k_val, .k_immutable⟩⟩, ⟨1, ⟨.k_val, .k_immutable⟩⟩], [⟨2, [0]⟩], [2], 5⟩ =
      ⟨⟨⟨[⟨0, ⟨.k_val, .k_immutable⟩⟩, ⟨1, ⟨.k_val, .k_immutable⟩⟩],
          [⟨2, [0]⟩, ⟨5, [1]⟩], [2, 5], 6⟩,
        [.clone_inner_node, .incomplete_construct 7 5, .tp 5, .solve_type 1,
          .parameter_variable_construct 5 1 1 ⟨.k_val, .k_immutable⟩, .dispatch 5,
          .solve_type 0, .complete 5 0, .add_overload 5, .link_with_ast 5,
          .overload_solver [0]],
        some 7⟩, .ok (some ⟨2, [0]⟩)⟩ ∧
    overload_solver_with_template literal_analyzer (some [3]) [⟨0⟩]
        ⟨[⟨1, some ⟨[100], some ⟨7, [⟨.k_val, ⟨1, ⟨some 1, none⟩⟩⟩], some 0, 0⟩⟩⟩]⟩
        ⟨[⟨0, ⟨.k_val, .k_immutable⟩⟩, ⟨1, ⟨.k_val, .k_immutable⟩⟩],
          [⟨2, [0]⟩, ⟨5, [1]⟩], [2, 5], 6⟩ =
      ⟨⟨⟨[⟨0, ⟨.k_val, .k_immutable⟩⟩, ⟨1, ⟨.k_val, .k_immutable⟩⟩],
          [⟨2, [0]⟩, ⟨5, [1]⟩, ⟨6, [1]⟩], [2, 5, 6], 7⟩,
        [.clone_inner_node, .incomplete_construct 7 6, .tp 6, .solve_type 1,
          .parameter_variable_construct 6 1 1 ⟨.k_val, .k_immutable⟩, .dispatch 6,
          .solve_type 0, .complete 6 0, .add_overload 6, .link_with_ast 6,
          .overload_solver [0]],
        some 7⟩, .ok (some ⟨2, [0]⟩)⟩ ∧
    overload_solver [0] [⟨2, [0]⟩, ⟨5, [1]⟩, ⟨6, [1]⟩]
        [⟨0, ⟨.k_val, .k_immutable⟩⟩, ⟨1, ⟨.k_val, .k_immutable⟩⟩] ≠ .error .duplicate := by
  refine ⟨rfl, rfl, by decide⟩

/-- C24 (as amended): the same single-candidate template is instantiated twice
with the same template arguments and the same call arguments, both
instantiations running through.  (The type resolver is stable under growth of
the type table, the body checks leave the overload set alone, let the type
table only grow and hand out no id twice.)  Then the first call appends a new
signature and the second call appends a second signature with another id and
the same parameter type ids: nothing is memoized.  If the first call returned
the signature it instantiated, the resolution at the end of the second call
stops at the assertion `"duplecate?..."`, and so does every later resolution
of these arguments against that overload set, whatever entries the type table
has gained. -/
theorem repeated_instantiation_is_ambiguous (v : analyzer) (targs : List template_argument)
    (args : List type_detail) (c : template_environment) (w0 : template_world)
    (stA stB : template_state)
    (hstable : solve_type_stable v) (hkeep : dispatch_keeps_overloads v)
    (hgrows : dispatch_grows v)
    (hadm : targs.length ≤ c.parameter_num)
    (hfresh : ∀ g ∈ w0.overloads, g.id < w0.next_id)
    (hloop1 : instantiate_candidates v targs [c] ⟨w0, [], none⟩ = ⟨stA, .ok ()⟩)
    (hsecond : instantiate_candidates v targs [c]
      ⟨(overload_solver_with_template v (some targs) args ⟨[c]⟩ w0).state.world, [], none⟩ =
        ⟨stB, .ok ()⟩) :
    ∃ f1 f2 : function_symbol_environment,
      (overload_solver_with_template v (some targs) args ⟨[c]⟩ w0).state.world.overloads =
          w0.overloads ++ [f1] ∧
        f1.id = w0.next_id ∧
        (overload_solver_with_template v (some targs) args ⟨[c]⟩
            (overload_solver_with_template v (some targs) args ⟨[c]⟩ w0).state.world
          ).state.world.overloads = w0.overloads ++ [f1] ++ [f2] ∧
        f2.id ≠ f1.id ∧
        f2.parameter_type_ids = f1.parameter_type_ids ∧
        ((overload_solver_with_template v (some targs) args ⟨[c]⟩ w0).result =
            .ok (some f1) →
          (overload_solver_with_template v (some targs) args ⟨[c]⟩
              (overload_solver_with_template v (some targs) args ⟨[c]⟩ w0).state.world
            ).result = .error .duplicate ∧
          ∀ later : type_table,
            table_grows
              (overload_solver_with_template v (some targs) args ⟨[c]⟩
                (overload_solver_with_template v (some targs) args ⟨[c]⟩ w0).state.world
              ).state.world.env later →
            overload_solver (args.map to_type_id_t2) (w0.overloads ++ [f1] ++ [f2]) later =
                .error .duplicate ∧
              overload_solver_allow_no_entry (args.map to_type_id_t2)
                (w0.overloads ++ [f1] ++ [f2]) later = .error .duplicate) := by
  -- the first run
  have hcand1 : instantiate_candidate v targs c ⟨w0, [], none⟩ = ⟨stA, .ok ()⟩ := by
    simp only [instantiate_candidates] at hloop1
    cases hc : instantiate_candidate v targs c ⟨w0, [], none⟩ with
    | mk s r =>
      cases r with
      | error failure => simp [hc] at hloop1
      | ok u2 =>
        simp only [hc, step_result.mk.injEq, and_true] at hloop1
        rw [hloop1]
  obtain ⟨tmpl, fn, st2, fA, w3, rt, solved, hast, hfn, hdecl, hdisp, hrt, hsol, hstA⟩ :=
    instantiate_candidate_ok hcand1 hadm
  have hframe := declare_parameters_frame v
    (bind_template_parameters tmpl.parameter_list targs) fn.parameter_list
    ⟨w0.next_id, []⟩ (begin_instantiation fn ⟨w0, [], none⟩)
  rw [hdecl] at hframe
  obtain ⟨a1, _, a3, a4, _, _, _, _⟩ := hframe
  obtain ⟨_, ids, hfA, _, hreplay⟩ := declare_parameters_ok v _ _ _ _ _ _ hdecl
  have hw3ov : w3.overloads = w0.overloads := by
    rw [hkeep _ _ _ _ hdisp, a1]; rfl
  obtain ⟨hw3env, hw3id⟩ := hgrows _ _ _ _ hdisp
  have hgfe : stA.generic_function_env = some fn.identifier := by
    rw [hstA]; simp only; rw [a4]; rfl
  have hrun1 := overload_solver_with_template_with_of_loop (v := v) args select_unique
    hloop1 hgfe
  have hworld1 : (overload_solver_with_template v (some targs) args ⟨[c]⟩ w0).state.world =
      ⟨w3.env, w0.overloads ++ [fA], w3.completed ++ [fA.id], w3.next_id⟩ := by
    unfold overload_solver_with_template
    rw [hrun1, hstA, hw3ov]
  have hfAid : fA.id = w0.next_id := by rw [hfA]
  have hnotin : fA ∉ w0.overloads := by
    intro hm
    have := hfresh fA hm
    omega
  -- the second run
  rw [hworld1] at hsecond ⊢
  have hcand2 : instantiate_candidate v targs c
      ⟨⟨w3.env, w0.overloads ++ [fA], w3.completed ++ [fA.id], w3.next_id⟩, [], none⟩ =
        ⟨stB, .ok ()⟩ := by
    simp only [instantiate_candidates] at hsecond
    cases hc : instantiate_candidate v targs c
        ⟨⟨w3.env, w0.overloads ++ [fA], w3.completed ++ [fA.id], w3.next_id⟩,
          [], none⟩ with
    | mk s r =>
      cases r with
      | error failure => simp [hc] at hsecond
      | ok u2 =>
        simp only [hc, step_result.mk.injEq, and_true] at hsecond
        rw [hsecond]
  obtain ⟨tmpl2, fn2, st4, f2, w5, rt2, solved2, hast2, hfn2, hdecl2, hdisp2, _, _,
    hstB⟩ := instantiate_candidate_ok hcand2 hadm
  have htmpl : tmpl2 = tmpl := by
    rw [hast] at hast2
    exact (Option.some.inj hast2).symm
  subst htmpl
  have hfneq : fn2 = fn := by
    rw [hfn] at hfn2
    exact (Option.some.inj hfn2).symm
  subst hfneq
  obtain ⟨st5, hdecl3, hw5, hg5⟩ := hreplay ⟨w3.next_id, []⟩
    (begin_instantiation fn2
      ⟨⟨w3.env, w0.overloads ++ [fA], w3.completed ++ [fA.id], w3.next_id⟩, [], none⟩)
    hstable hw3env
  rw [hdecl3] at hdecl2
  simp only [step_result.mk.injEq, Except.ok.injEq] at hdecl2
  obtain ⟨hst4, hf2⟩ := hdecl2
  subst hst4
  have hw5ov : w5.overloads = w0.overloads ++ [fA] := by
    rw [hkeep _ _ _ _ hdisp2, hw5]; rfl
  obtain ⟨hw5env, _⟩ := hgrows _ _ _ _ hdisp2
  have hst5env : st5.world.env = w3.env := by rw [hw5]; rfl
  have hgrow35 : table_grows w3.env w5.env := by
    rw [← hst5env]; exact hw5env
  have hgfe2 : stB.generic_function_env = some fn2.identifier := by
    rw [hstB]; simp only; rw [hg5]; rfl
  have hrun2 := overload_solver_with_template_with_of_loop (v := v) args select_unique
    hsecond hgfe2
  have hparams : f2.parameter_type_ids = fA.parameter_type_ids := by
    rw [← hf2, hfA]
  have hids : f2.id ≠ fA.id := by
    rw [← hf2, hfAid]
    simp only
    have h1 : st2.world.next_id = w0.next_id + 1 := by rw [a3]; rfl
    omega
  refine ⟨fA, f2, rfl, hfAid, ?_, hids, hparams, ?_⟩
  · unfold overload_solver_with_template
    rw [hrun2, hstB, hw5ov]
  · intro hfirst
    have hres1 : overload_solver_with (args.map to_type_id_t2) (w0.overloads ++ [fA])
        w3.env select_unique = .ok (some fA) := by
      unfold overload_solver_with_template at hfirst
      rw [hrun1] at hfirst
      simp only [hstA, hw3ov] at hfirst
      exact hfirst
    -- the accepted list of the first run is the new signature alone
    cases hscan1 : overload_scan (args.map to_type_id_t2) (w0.overloads ++ [fA]) w3.env with
    | error e => simp [overload_solver_with, hscan1] at hres1
    | ok sS =>
      rw [overload_solver_with_of_scan _ hscan1] at hres1
      have hacc1 : sS.f_candidate_envs = [fA] := select_unique_mem hres1
      have hdup : ∀ later : type_table, table_grows w3.env later →
          ∀ f : List function_symbol_environment →
            Except assertion_failure function_symbol_environment_ptr,
            (∀ l : List function_symbol_environment, 1 < l.length →
              f l = .error .duplicate) →
            overload_solver_with (args.map to_type_id_t2)
              (w0.overloads ++ [fA] ++ [f2]) later f = .error .duplicate := by
        intro later hl f hf
        obtain ⟨sT, hT, hTacc⟩ := overload_scan_twin hscan1 hacc1 hnotin hparams hl
        rw [overload_solver_with_of_scan _ hT, hTacc]
        exact hf _ (by simp)
      refine ⟨?_, ?_⟩
      · unfold overload_solver_with_template
        rw [hrun2]
        simp only [hstB, hw5ov]
        exact hdup w5.env hgrow35 select_unique (fun l hl => select_unique_many hl)
      · intro later hlater
        have hl : table_grows w3.env later := by
          unfold overload_solver_with_template at hlater
          rw [hrun2] at hlater
          simp only [hstB] at hlater
          exact table_grows_trans hgrow35 hlater
        exact ⟨hdup later hl select_unique (fun l hl => select_unique_many hl),
          hdup later hl select_unique_allow_no_entry
            (fun l hl => select_unique_allow_no_entry_many hl)⟩

/-- A concrete instance: one candidate with one `ref` parameter, instantiated
twice with the argument type id that the parameter gets. -/
theorem repeated_instantiation_is_ambiguous_witness :
    (∃ f1 f2 : function_symbol_environment,
      (overload_solver_with_template literal_analyzer (some [3]) [⟨1⟩]
          ⟨[⟨1, some ⟨[100], some ⟨7, [⟨.k_ref, ⟨1, ⟨some 0, none⟩⟩⟩], some 0, 0⟩⟩⟩]⟩
          ⟨[⟨0, ⟨.k_val, .k_mutable⟩⟩], [⟨2, [0, 0]⟩], [2], 5⟩).state.world.overloads = [⟨2, [0, 0]⟩] ++ [f1] ∧
        f1.id = 5 ∧
        (overload_solver_with_template literal_analyzer (some [3]) [⟨1⟩]
          ⟨[⟨1, some ⟨[100], some ⟨7, [⟨.k_ref, ⟨1, ⟨some 0, none⟩⟩⟩], some 0, 0⟩⟩⟩]⟩
          (overload_solver_with_template literal_analyzer (some [3]) [⟨1⟩]
          ⟨[⟨1, some ⟨[100], some ⟨7, [⟨.k_ref, ⟨1, ⟨some 0, none⟩⟩⟩], some 0, 0⟩⟩⟩]⟩
          ⟨[⟨0, ⟨.k_val, .k_mutable⟩⟩], [⟨2, [0, 0]⟩], [2], 5⟩).state.world).state.world.overloads = [⟨2, [0, 0]⟩] ++ [f1] ++ [f2] ∧
        f2.id ≠ f1.id ∧
        f2.parameter_type_ids = f1.parameter_type_ids ∧
        ((overload_solver_with_template literal_analyzer (some [3]) [⟨1⟩]
          ⟨[⟨1, some ⟨[100], some ⟨7, [⟨.k_ref, ⟨1, ⟨some 0, none⟩⟩⟩], some 0, 0⟩⟩⟩]⟩
          ⟨[⟨0, ⟨.k_val, .k_mutable⟩⟩], [⟨2, [0, 0]⟩], [2], 5⟩).result = .ok (some f1) →
          (overload_solver_with_template literal_analyzer (some [3]) [⟨1⟩]
          ⟨[⟨1, some ⟨[100], some ⟨7, [⟨.k_ref, ⟨1, ⟨some 0, none⟩⟩⟩], some 0, 0⟩⟩⟩]⟩
          (overload_solver_with_template literal_analyzer (some [3]) [⟨1⟩]
          ⟨[⟨1, some ⟨[100], some ⟨7, [⟨.k_ref, ⟨1, ⟨some 0, none⟩⟩⟩], some 0, 0⟩⟩⟩]⟩
          ⟨[⟨0, ⟨.k_val, .k_mutable⟩⟩], [⟨2, [0, 0]⟩], [2], 5⟩).state.world).result = .error .duplicate ∧
          ∀ later : type_table,
            table_grows (overload_solver_with_template literal_analyzer (some [3]) [⟨1⟩]
          ⟨[⟨1, some ⟨[100], some ⟨7, [⟨.k_ref, ⟨1, ⟨some 0, none⟩⟩⟩], some 0, 0⟩⟩⟩]⟩
          (overload_solver_with_template literal_analyzer (some [3]) [⟨1⟩]
          ⟨[⟨1, some ⟨[100], some ⟨7, [⟨.k_ref, ⟨1, ⟨some 0, none⟩⟩⟩], some 0, 0⟩⟩⟩]⟩
          ⟨[⟨0, ⟨.k_val, .k_mutable⟩⟩], [⟨2, [0, 0]⟩], [2], 5⟩).state.world).state.world.env later →
            overload_solver (List.map to_type_id_t2 [⟨1⟩])
                ([⟨2, [0, 0]⟩] ++ [f1] ++ [f2]) later = .error .duplicate ∧
              overload_solver_allow_no_entry (List.map to_type_id_t2 [⟨1⟩])
                ([⟨2, [0, 0]⟩] ++ [f1] ++ [f2]) later = .error .duplicate)) ∧
      (overload_solver_with_template literal_analyzer (some [3]) [⟨1⟩]
          ⟨[⟨1, some ⟨[100], some ⟨7, [⟨.k_ref, ⟨1, ⟨some 0, none⟩⟩⟩], some 0, 0⟩⟩⟩]⟩
          ⟨[⟨0, ⟨.k_val, .k_mutable⟩⟩], [⟨2, [0, 0]⟩], [2], 5⟩).result = .ok (some ⟨5, [1]⟩) :=
  ⟨repeated_instantiation_is_ambiguous literal_analyzer [3] [⟨1⟩]
    ⟨1, some ⟨[100], some ⟨7, [⟨.k_ref, ⟨1, ⟨some 0, none⟩⟩⟩], some 0, 0⟩⟩⟩
    ⟨[⟨0, ⟨.k_val, .k_mutable⟩⟩], [⟨2, [0, 0]⟩], [2], 5⟩
    ⟨⟨[⟨0, ⟨.k_val, .k_mutable⟩⟩, ⟨0, ⟨.k_ref, .k_mutable⟩⟩],
        [⟨2, [0, 0]⟩, ⟨5, [1]⟩], [2, 5], 6⟩,
      [.clone_inner_node, .incomplete_construct 7 5, .tp 5, .solve_type 0,
        .parameter_variable_construct 5 1 0 ⟨.k_ref, .k_mutable⟩, .dispatch 5,
        .solve_type 0, .complete 5 0, .add_overload 5, .link_with_ast 5],
      some 7⟩
    ⟨⟨[⟨0, ⟨.k_val, .k_mutable⟩⟩, ⟨0, ⟨.k_ref, .k_mutable⟩⟩],
        [⟨2, [0, 0]⟩, ⟨5, [1]⟩, ⟨6, [1]⟩], [2, 5, 6], 7⟩,
      [.clone_inner_node, .incomplete_construct 7 6, .tp 6, .solve_type 0,
        .parameter_variable_construct 6 1 0 ⟨.k_ref, .k_mutable⟩, .dispatch 6,
        .solve_type 0, .complete 6 0, .add_overload 6, .link_with_ast 6],
      some 7⟩
    (fun b t world world1 solved hgrow hs => by
      simp only [literal_analyzer] at hs ⊢
      cases hg : get_type_at world.env t with
      | none => simp [hg] at hs
      | some ty =>
        rw [table_le_of_grows hgrow t ty hg]
        simp only [hg] at hs
        exact hs)
    (fun body f world world1 h => by
      simp only [literal_analyzer, Except.ok.injEq] at h
      rw [h])
    (fun body f world world1 h => by
      simp only [literal_analyzer, Except.ok.injEq] at h
      rw [h]
      exact ⟨table_grows_refl _, Nat.le_refl _⟩)
    (by decide) (by decide) rfl rfl, rfl⟩

/-- C25 (as stated) fails: the overload set is empty at the start, so no two of
its signatures share a parameter type id sequence.  After one call the set
holds one signature; after a second call with the same template arguments it
holds two signatures with the same parameter type id sequence: the instantiated
signature is appended without any check against the signatures already there. -/
theorem instantiation_appends_a_duplicate :
    (overload_solver_with_template literal_analyzer (some [3]) [⟨1⟩]
        ⟨[⟨1, some ⟨[100], some ⟨7, [⟨.k_ref, ⟨1, ⟨some 0, none⟩⟩⟩], some 0, 0⟩⟩⟩]⟩
        ⟨[⟨0, ⟨.k_val, .k_mutable⟩⟩], [], [], 5⟩).state.world =
      ⟨[⟨0, ⟨.k_val, .k_mutable⟩⟩, ⟨0, ⟨.k_ref, .k_mutable⟩⟩], [⟨5, [1]⟩], [5], 6⟩ ∧
    (overload_solver_with_template literal_analyzer (some [3]) [⟨1⟩]
        ⟨[⟨1, some ⟨[100], some ⟨7, [⟨.k_ref, ⟨1, ⟨some 0, none⟩⟩⟩], some 0, 0⟩⟩⟩]⟩
        ⟨[⟨0, ⟨.k_val, .k_mutable⟩⟩, ⟨0, ⟨.k_ref, .k_mutable⟩⟩], [⟨5, [1]⟩], [5], 6⟩
      ).state.world =
      ⟨[⟨0, ⟨.k_val, .k_mutable⟩⟩, ⟨0, ⟨.k_ref, .k_mutable⟩⟩], [⟨5, [1]⟩, ⟨6, [1]⟩],
        [5, 6], 7⟩ ∧
    (List.map (fun f : function_symbol_environment => f.parameter_type_ids)
        [⟨5, [1]⟩]).Nodup ∧
    ¬ (List.map (fun f : function_symbol_environment => f.parameter_type_ids)
        [⟨5, [1]⟩, ⟨6, [1]⟩]).Nodup := by
  decide

/-- C25 (as amended): `overload_solver_with_template` appends without a
duplication check.  When the loop over the candidates completes and the body
checks leave the overload set alone, the overload set after the call is the
one before the call, kept as it is, followed by one new signature per candidate
that is not skipped, in the order of the `add_overload` calls; what the set
held before plays no part in it.  So the parameter type id sequences are
pairwise distinct after the call exactly when they were before, the new ones
are pairwise distinct, and no new one equals an old one: whenever a new
signature has the parameter type ids of a signature of the set, uniqueness is
lost. -/
theorem instantiation_appends_without_duplication_check (v : analyzer)
    (targs : List template_argument) (args : List type_detail)
    (cands : List template_environment) (w : template_world) (st : template_state)
    (hkeep : dispatch_keeps_overloads v)
    (hloop : instantiate_candidates v targs cands ⟨w, [], none⟩ = ⟨st, .ok ()⟩) :
    ∃ appended : List function_symbol_environment,
      (overload_solver_with_template v (some targs) args ⟨cands⟩ w).state.world.overloads =
          w.overloads ++ appended ∧
        appended.length = (cands.filter (admits_template_args targs)).length ∧
        appended.map (fun f => f.id) = added_overload_ids st.calls ∧
        (((w.overloads ++ appended).map (fun f => f.parameter_type_ids)).Nodup ↔
          ((w.overloads.map (fun f => f.parameter_type_ids)).Nodup ∧
            (appended.map (fun f => f.parameter_type_ids)).Nodup ∧
            ∀ g ∈ w.overloads, ∀ f ∈ appended,
              g.parameter_type_ids ≠ f.parameter_type_ids)) ∧
        (∀ g ∈ w.overloads, ∀ f ∈ appended,
          g.parameter_type_ids = f.parameter_type_ids →
          ¬ ((overload_solver_with_template v (some targs) args ⟨cands⟩
            w).state.world.overloads.map (fun f => f.parameter_type_ids)).Nodup) := by
  have hworld : (overload_solver_with_template v (some targs) args ⟨cands⟩ w).state.world =
      st.world := by
    unfold overload_solver_with_template
    cases hg : st.generic_function_env with
    | none => simp only [overload_solver_with_template_with, hloop, hg]
    | some ident => rw [overload_solver_with_template_with_of_loop args _ hloop hg]
  obtain ⟨ids, _, h2, h3, _, h5⟩ := instantiate_candidates_log v targs cands _ st hloop
  obtain ⟨appended, ha1, ha2, _⟩ := h5 hkeep
  have hiff : ((w.overloads ++ appended).map (fun f => f.parameter_type_ids)).Nodup ↔
      ((w.overloads.map (fun f => f.parameter_type_ids)).Nodup ∧
        (appended.map (fun f => f.parameter_type_ids)).Nodup ∧
        ∀ g ∈ w.overloads, ∀ f ∈ appended,
          g.parameter_type_ids ≠ f.parameter_type_ids) := by
    rw [List.map_append, List.nodup_append]
    constructor
    · rintro ⟨h1, h2, h3⟩
      refine ⟨h1, h2, ?_⟩
      intro g hg f hf heq
      exact h3 (List.mem_map.mpr ⟨g, hg, rfl⟩) (List.mem_map.mpr ⟨f, hf, heq.symm⟩)
    · rintro ⟨h1, h2, h3⟩
      refine ⟨h1, h2, ?_⟩
      intro x hx1 hx2
      obtain ⟨g, hg, rfl⟩ := List.mem_map.mp hx1
      obtain ⟨f, hf, hfe⟩ := List.mem_map.mp hx2
      exact h3 g hg f hf hfe.symm
  refine ⟨appended, ?_, ?_, ?_, hiff, ?_⟩
  · rw [hworld]
    exact ha1
  · rw [← h3, ← ha2]
    simp
  · rw [ha2, h2]
    rfl
  · intro g hg f hf heq hnodup
    rw [hworld] at hnodup
    have hnd : ((w.overloads ++ appended).map (fun f => f.parameter_type_ids)).Nodup := by
      have hov : st.world.overloads = w.overloads ++ appended := ha1
      rw [← hov]
      exact hnodup
    exact (hiff.mp hnd).2.2 g hg f hf heq

/-- A concrete instance: the second call of the counterexample, on the
environment that the first call left. -/
theorem instantiation_appends_without_duplication_check_witness :
    ∃ appended : List function_symbol_environment,
      (overload_solver_with_template literal_analyzer (some [3]) [⟨1⟩]
          ⟨[⟨1, some ⟨[100], some ⟨7, [⟨.k_ref, ⟨1, ⟨some 0, none⟩⟩⟩], some 0, 0⟩⟩⟩]⟩
          ⟨[⟨0, ⟨.k_val, .k_mutable⟩⟩, ⟨0, ⟨.k_ref, .k_mutable⟩⟩], [⟨5, [1]⟩], [5], 6⟩
        ).state.world.overloads = [⟨5, [1]⟩] ++ appended ∧
        appended.length =
          (List.filter (admits_template_args [3])
            [⟨1, some ⟨[100], some ⟨7, [⟨.k_ref, ⟨1, ⟨some 0, none⟩⟩⟩], some 0, 0⟩⟩⟩]).length ∧
        appended.map (fun f => f.id) =
          added_overload_ids
            [.clone_inner_node, .incomplete_construct 7 6, .tp 6, .solve_type 0,
              .parameter_variable_construct 6 1 0 ⟨.k_ref, .k_mutable⟩, .dispatch 6,
              .solve_type 0, .complete 6 0, .add_overload 6, .link_with_ast 6] ∧
        (((([⟨5, [1]⟩] : List function_symbol_environment) ++ appended).map
            (fun f => f.parameter_type_ids)).Nodup ↔
          ((List.map (fun f : function_symbol_environment => f.parameter_type_ids)
              [⟨5, [1]⟩]).Nodup ∧
            (appended.map (fun f => f.parameter_type_ids)).Nodup ∧
            ∀ g ∈ ([⟨5, [1]⟩] : List function_symbol_environment), ∀ f ∈ appended,
              g.parameter_type_ids ≠ f.parameter_type_ids)) ∧
        (∀ g ∈ ([⟨5, [1]⟩] : List function_symbol_environment), ∀ f ∈ appended,
          g.parameter_type_ids = f.parameter_type_ids →
          ¬ ((overload_solver_with_template literal_analyzer (some [3]) [⟨1⟩]
            ⟨[⟨1, some ⟨[100], some ⟨7, [⟨.k_ref, ⟨1, ⟨some 0, none⟩⟩⟩], some 0, 0⟩⟩⟩]⟩
            ⟨[⟨0, ⟨.k_val, .k_mutable⟩⟩, ⟨0, ⟨.k_ref, .k_mutable⟩⟩], [⟨5, [1]⟩], [5], 6⟩
            ).state.world.overloads.map (fun f => f.parameter_type_ids)).Nodup) :=
  instantiation_appends_without_duplication_check literal_analyzer [3] [⟨1⟩]
    [⟨1, some ⟨[100], some ⟨7, [⟨.k_ref, ⟨1, ⟨some 0, none⟩⟩⟩], some 0, 0⟩⟩⟩]
    ⟨[⟨0, ⟨.k_val, .k_mutable⟩⟩, ⟨0, ⟨.k_ref, .k_mutable⟩⟩], [⟨5, [1]⟩], [5], 6⟩
    ⟨⟨[⟨0, ⟨.k_val, .k_mutable⟩⟩, ⟨0, ⟨.k_ref, .k_mutable⟩⟩], [⟨5, [1]⟩, ⟨6, [1]⟩],
        [5, 6], 7⟩,
      [.clone_inner_node, .incomplete_construct 7 6, .tp 6, .solve_type 0,
        .parameter_variable_construct 6 1 0 ⟨.k_ref, .k_mutable⟩, .dispatch 6,
        .solve_type 0, .complete 6 0, .add_overload 6, .link_with_ast 6],
      some 7⟩
    (fun body f world world1 h => by
      simp only [literal_analyzer, Except.ok.injEq] at h
      rw [h])
    rfl

/-! ## Supporting lemmas: the attributes a parameter is declared with -/

theorem make_type_id_get (env : type_table) (c : environment_id_t) (a : type_attributes) :
    get_type_at (make_type_id env c a).2 (make_type_id env c a).1 = some ⟨c, a⟩ := by
  unfold make_type_id get_type_at
  simp only
  by_cases hmem : (⟨c, a⟩ : type) ∈ env
  · rw [if_pos hmem]
    exact List.getElem?_indexOf hmem
  · rw [if_neg hmem]
    simp

theorem declared_parameters_append (l1 l2 : List template_call) :
    declared_parameters (l1 ++ l2) = declared_parameters l1 ++ declared_parameters l2 := by
  induction l1 with
  | nil => rfl
  | cons c rest ih => cases c <;> simp [declared_parameters, ih]

theorem declare_parameters_declared (v : analyzer)
    (b : List (identifier_value × template_argument)) :
    ∀ (ps : List variable_declaration) (f f1 : function_symbol_environment)
      (st st1 : template_state),
      declare_parameters v b ps f st = ⟨st1, .ok f1⟩ →
      ∃ solveds : List solved_type,
        solveds.length = ps.length ∧
        declared_parameters st1.calls = declared_parameters st.calls ++
          List.zipWith (fun e s => (f.id, e.decl_unit.name, s.class_env,
            (⟨e.quality, s.ty.attributes.modifiability⟩ : type_attributes))) ps solveds ∧
        f1.id = f.id ∧
        f1.parameter_type_ids.length = f.parameter_type_ids.length + ps.length ∧
        ∀ (j : Nat) (e : variable_declaration) (s : solved_type),
          ps[j]? = some e → solveds[j]? = some s →
          (∃ (t : type_expression) (stj : template_state),
            e.decl_unit.init_unit.type = some t ∧ parameter_frame st stj ∧
              v.solve_type b t stj.world = some s) ∧
          ∃ id : type_id_t,
            f1.parameter_type_ids[f.parameter_type_ids.length + j]? = some id ∧
              get_type_at st1.world.env id =
                some ⟨s.class_env, ⟨e.quality, s.ty.attributes.modifiability⟩⟩ := by
  intro ps
  induction ps with
  | nil =>
    intro f f1 st st1 h
    simp only [declare_parameters, step_result.mk.injEq, Except.ok.injEq] at h
    obtain ⟨rfl, rfl⟩ := h
    exact ⟨[], rfl, by simp, rfl, rfl, fun j e s he => by simp at he⟩
  | cons e rest ih =>
    intro f f1 st st1 h
    simp only [declare_parameters] at h
    cases hd : declare_parameter v b e f st with
    | mk s1 r =>
      cases r with
      | error failure => simp [hd] at h
      | ok f2 =>
        simp only [hd] at h
        obtain ⟨t, solved, ht, hsolve, hs1, hf2⟩ := declare_parameter_ok hd
        obtain ⟨solveds, hlen, hlog, hid, hplen, hall⟩ := ih f2 f1 s1 st1 h
        have hframe1 : parameter_frame st s1 := by
          have := declare_parameter_frame v b e f st
          rw [hd] at this
          exact this
        have hframe2 : parameter_frame s1 st1 := by
          have := declare_parameters_frame v b rest f2 s1
          rw [h] at this
          exact this
        have hf2id : f2.id = f.id := by rw [hf2]
        have hf2len : f2.parameter_type_ids.length = f.parameter_type_ids.length + 1 := by
          rw [hf2]; simp
        refine ⟨solved :: solveds, by simp [hlen], ?_, by rw [hid, hf2id], ?_, ?_⟩
        · rw [hlog, hs1, hf2id]
          simp [declared_parameters_append, declared_parameters, set_quality]
        · rw [hplen, hf2len]
          simp
          omega
        · intro j e1 s hj hs
          cases j with
          | zero =>
            simp only [List.getElem?_cons_zero, Option.some.injEq] at hj hs
            subst hj
            subst hs
            refine ⟨⟨t, st, ht, parameter_frame_refl st, hsolve⟩, ?_⟩
            have hget := make_type_id_get st.world.env solved.class_env
              (set_quality solved.ty.attributes e.quality)
            have hle : table_le s1.world.env st1.world.env :=
              table_le_of_grows hframe2.2.2.2.2.1
            have hs1env : s1.world.env = (make_type_id st.world.env solved.class_env
                (set_quality solved.ty.attributes e.quality)).2 := by rw [hs1]
            refine ⟨(make_type_id st.world.env solved.class_env
                (set_quality solved.ty.attributes e.quality)).1, ?_, ?_⟩
            · obtain ⟨ids, hids, _, _⟩ := (declare_parameters_ok v b rest f2 f1 s1 st1 h).2
              rw [hids, hf2]
              simp only [List.append_assoc, Nat.add_zero]
              rw [List.getElem?_append_right (Nat.le_refl _)]
              simp
            · apply hle
              rw [hs1env]
              exact hget
          | succ j =>
            simp only [List.getElem?_cons_succ] at hj hs
            obtain ⟨⟨t1, stj, ht1, hfr, hsol⟩, id, hid1, hget1⟩ := hall j e1 s hj hs
            refine ⟨⟨t1, stj, ht1, parameter_frame_trans hframe1 hfr, hsol⟩, id, ?_, hget1⟩
            rw [← hid1, hf2len]
            congr 1
            omega

/-! ## Template instantiation: the attributes of a declared parameter -/

/-- C31: the parameters of a function that is instantiated from a template.
When the instantiation of a candidate succeeds, every parameter of the cloned
function is annotated, and the `parameter_variable_construct` calls added to
the log are, in parameter order, one call per parameter: its class is the class
that `solve_type` handed back for the annotation, and its attribute pair has
the declared quality of the parameter and the modifiability of the resolved
type (whatever the quality of the resolved type is).  The resolution is the
one `solve_type` gives during the declaration of the parameters.  The
signature that is appended has the id of the new function environment and one
parameter type id per parameter; if the check of the body only lets the type
table grow, the type id of each parameter denotes that class and that
attribute pair in the type table the instantiation leaves. -/
theorem declared_parameter_has_declared_quality_and_resolved_modifiability (v : analyzer)
    (targs : List template_argument) (c : template_environment) (tmpl : template_statement)
    (fn : function_definition_statement) (st st1 : template_state)
    (hadm : targs.length ≤ c.parameter_num) (hast : c.related_ast = some tmpl)
    (hfn : tmpl.inner_node = some fn)
    (h : instantiate_candidate v targs c st = ⟨st1, .ok ()⟩) :
    ∃ (solveds : List solved_type) (f : function_symbol_environment),
      solveds.length = fn.parameter_list.length ∧
      declared_parameters st1.calls = declared_parameters st.calls ++
        List.zipWith (fun e s => (st.world.next_id, e.decl_unit.name, s.class_env,
          (⟨e.quality, s.ty.attributes.modifiability⟩ : type_attributes)))
          fn.parameter_list solveds ∧
      (∀ (j : Nat) (e : variable_declaration) (s : solved_type),
        fn.parameter_list[j]? = some e → solveds[j]? = some s →
        ∃ (t : type_expression) (stj : template_state),
          e.decl_unit.init_unit.type = some t ∧
            parameter_frame (begin_instantiation fn st) stj ∧
            v.solve_type (bind_template_parameters tmpl.parameter_list targs) t stj.world =
              some s) ∧
      f ∈ st1.world.overloads ∧ f.id = st.world.next_id ∧
      f.parameter_type_ids.length = fn.parameter_list.length ∧
      (dispatch_grows v →
        ∀ (j : Nat) (e : variable_declaration) (s : solved_type),
          fn.parameter_list[j]? = some e → solveds[j]? = some s →
          ∃ id : type_id_t,
            f.parameter_type_ids[j]? = some id ∧
              get_type_at st1.world.env id =
                some ⟨s.class_env, ⟨e.quality, s.ty.attributes.modifiability⟩⟩) := by
  obtain ⟨tmpl1, fn1, st2, f, w3, rt, solved, hast1, hfn1, hdecl, hdisp, _, _, hst1⟩ :=
    instantiate_candidate_ok h hadm
  rw [hast] at hast1
  simp only [Option.some.injEq] at hast1
  subst hast1
  rw [hfn] at hfn1
  simp only [Option.some.injEq] at hfn1
  subst hfn1
  obtain ⟨solveds, hlen, hlog, hid, hplen, hall⟩ :=
    declare_parameters_declared v _ _ _ _ _ _ hdecl
  refine ⟨solveds, f, hlen, ?_, ?_, ?_, hid, ?_, ?_⟩
  · rw [hst1]
    simp only [declared_parameters_append, hlog, begin_instantiation]
    simp [declared_parameters]
  · intro j e s he hs
    exact (hall j e s he hs).1
  · rw [hst1]
    simp
  · rw [hplen]
    simp
  · intro hgrow j e s he hs
    obtain ⟨id, hidj, hget⟩ := (hall j e s he hs).2
    refine ⟨id, ?_, ?_⟩
    · simpa using hidj
    · rw [hst1]
      exact table_le_of_grows (hgrow _ _ _ _ hdisp).1 _ _ hget

/-- A concrete instance: a function with a `ref` parameter annotated with a
`val` type of class 0 and a `val` parameter annotated with a `ref` type of
class 4.  The first is declared with class 0 and the pair `ref`, mutable, the
second with class 4 and the pair `val`, const. -/
theorem declared_parameter_has_declared_quality_and_resolved_modifiability_witness :
    ∃ (solveds : List solved_type) (f : function_symbol_environment),
      solveds.length = 2 ∧
      declared_parameters
          [.clone_inner_node, .incomplete_construct 7 5, .tp 5, .solve_type 0,
            .parameter_variable_construct 5 1 0 ⟨.k_ref, .k_mutable⟩, .solve_type 1,
            .parameter_variable_construct 5 2 4 ⟨.k_val, .k_const⟩, .dispatch 5,
            .solve_type 0, .complete 5 0, .add_overload 5, .link_with_ast 5] =
        declared_parameters [] ++
          List.zipWith (fun e s => (5, e.decl_unit.name, s.class_env,
            (⟨e.quality, s.ty.attributes.modifiability⟩ : type_attributes)))
            [(⟨.k_ref, ⟨1, ⟨some 0, none⟩⟩⟩ : variable_declaration),
              ⟨.k_val, ⟨2, ⟨some 1, none⟩⟩⟩] solveds ∧
      (∀ (j : Nat) (e : variable_declaration) (s : solved_type),
        [(⟨.k_ref, ⟨1, ⟨some 0, none⟩⟩⟩ : variable_declaration),
          ⟨.k_val, ⟨2, ⟨some 1, none⟩⟩⟩][j]? = some e → solveds[j]? = some s →
        ∃ (t : type_expression) (stj : template_state),
          e.decl_unit.init_unit.type = some t ∧
            parameter_frame (begin_instantiation
              ⟨7, [⟨.k_ref, ⟨1, ⟨some 0, none⟩⟩⟩, ⟨.k_val, ⟨2, ⟨some 1, none⟩⟩⟩], some 0, 0⟩
              ⟨⟨[⟨0, ⟨.k_val, .k_mutable⟩⟩, ⟨4, ⟨.k_ref, .k_const⟩⟩], [], [], 5⟩, [], none⟩)
              stj ∧
            literal_analyzer.solve_type (bind_template_parameters [100] [3]) t stj.world =
              some s) ∧
      f ∈ ([⟨5, [2, 3]⟩] : List function_symbol_environment) ∧ f.id = 5 ∧
      f.parameter_type_ids.length = 2 ∧
      (dispatch_grows literal_analyzer →
        ∀ (j : Nat) (e : variable_declaration) (s : solved_type),
          [(⟨.k_ref, ⟨1, ⟨some 0, none⟩⟩⟩ : variable_declaration),
            ⟨.k_val, ⟨2, ⟨some 1, none⟩⟩⟩][j]? = some e → solveds[j]? = some s →
          ∃ id : type_id_t,
            f.parameter_type_ids[j]? = some id ∧
              get_type_at
                  [⟨0, ⟨.k_val, .k_mutable⟩⟩, ⟨4, ⟨.k_ref, .k_const⟩⟩,
                    ⟨0, ⟨.k_ref, .k_mutable⟩⟩, ⟨4, ⟨.k_val, .k_const⟩⟩] id =
                some ⟨s.class_env, ⟨e.quality, s.ty.attributes.modifiability⟩⟩) :=
  declared_parameter_has_declared_quality_and_resolved_modifiability literal_analyzer [3]
    ⟨1, some ⟨[100], some ⟨7,
      [⟨.k_ref, ⟨1, ⟨some 0, none⟩⟩⟩, ⟨.k_val, ⟨2, ⟨some 1, none⟩⟩⟩], some 0, 0⟩⟩⟩
    ⟨[100], some ⟨7,
      [⟨.k_ref, ⟨1, ⟨some 0, none⟩⟩⟩, ⟨.k_val, ⟨2, ⟨some 1, none⟩⟩⟩], some 0, 0⟩⟩
    ⟨7, [⟨.k_ref, ⟨1, ⟨some 0, none⟩⟩⟩, ⟨.k_val, ⟨2, ⟨some 1, none⟩⟩⟩], some 0, 0⟩
    ⟨⟨[⟨0, ⟨.k_val, .k_mutable⟩⟩, ⟨4, ⟨.k_ref, .k_const⟩⟩], [], [], 5⟩, [], none⟩
    ⟨⟨[⟨0, ⟨.k_val, .k_mutable⟩⟩, ⟨4, ⟨.k_ref, .k_const⟩⟩,
        ⟨0, ⟨.k_ref, .k_mutable⟩⟩, ⟨4, ⟨.k_val, .k_const⟩⟩], [⟨5, [2, 3]⟩], [5], 6⟩,
      [.clone_inner_node, .incomplete_construct 7 5, .tp 5, .solve_type 0,
        .parameter_variable_construct 5 1 0 ⟨.k_ref, .k_mutable⟩, .solve_type 1,
        .parameter_variable_construct 5 2 4 ⟨.k_val, .k_const⟩, .dispatch 5,
        .solve_type 0, .complete 5 0, .add_overload 5, .link_with_ast 5],
      some 7⟩
    (by decide) rfl rfl rfl


/-! ## Supporting lemmas: `generic_function_env` after the loop -/

theorem instantiate_candidate_generic {v : analyzer} {targs : List template_argument}
    {c : template_environment} {st st1 : template_state}
    (h : instantiate_candidate v targs c st = ⟨st1, .ok ()⟩) :
    (targs.length ≤ c.parameter_num → st1.generic_function_env.isSome = true) ∧
      (st.generic_function_env.isSome = true → st1.generic_function_env.isSome = true) := by
  by_cases hadm : targs.length ≤ c.parameter_num
  · obtain ⟨fn, _, _, _, _, _, _, _, _, _, _, _, _, _, _, _, _, _, hg⟩ :=
      instantiate_candidate_log h hadm
    rw [hg]
    exact ⟨fun _ => rfl, fun _ => rfl⟩
  · rw [instantiate_candidate_skip v targs c st (by omega)] at h
    simp only [step_result.mk.injEq, and_true] at h
    subst h
    exact ⟨fun h1 => absurd h1 hadm, fun h1 => h1⟩

theorem instantiate_candidates_generic (v : analyzer) (targs : List template_argument) :
    ∀ (cands : List template_environment) (st st1 : template_state),
      instantiate_candidates v targs cands st = ⟨st1, .ok ()⟩ →
      (st.generic_function_env.isSome = true ∨ ∃ c ∈ cands, targs.length ≤ c.parameter_num) →
      st1.generic_function_env.isSome = true := by
  intro cands
  induction cands with
  | nil =>
    intro st st1 h hor
    simp only [instantiate_candidates, step_result.mk.injEq, and_true] at h
    subst h
    rcases hor with hs | ⟨c, hc, _⟩
    · exact hs
    · simp at hc
  | cons c rest ih =>
    intro st st1 h hor
    simp only [instantiate_candidates] at h
    cases hc : instantiate_candidate v targs c st with
    | mk s1 r =>
      cases r with
      | error failure => simp [hc] at h
      | ok u =>
        simp only [hc] at h
        obtain ⟨h1, h2⟩ := instantiate_candidate_generic hc
        apply ih s1 st1 h
        rcases hor with hs | ⟨d, hd, hadm⟩
        · exact Or.inl (h2 hs)
        · rcases List.mem_cons.mp hd with rfl | hd
          · exact Or.inl (h1 hadm)
          · exact Or.inr ⟨d, hd, hadm⟩

/-! ## Template instantiation: the delegation to `overload_solver` -/

/-- C32: when the loop over the candidates completes and at least one candidate
was instantiated, `overload_solver_with_template` returns what
`overload_solver` returns, and `overload_solver_allow_no_entry_with_template`
what `overload_solver_allow_no_entry` returns, for the list of the `type_id`
fields of the argument nodes (same length, same order) on the overload set and
the type table that the loop leaves; the environment is left as the loop left
it.  If the body checks leave the overload set alone, that overload set is the
initial one followed by the signatures of the `add_overload` calls, one per
candidate that is not skipped. -/
theorem template_variant_delegates_to_overload_solver (v : analyzer)
    (targs : List template_argument) (args : List type_detail)
    (cands : List template_environment) (w : template_world) (st : template_state)
    (hloop : instantiate_candidates v targs cands ⟨w, [], none⟩ = ⟨st, .ok ()⟩)
    (hsome : ∃ c ∈ cands, targs.length ≤ c.parameter_num) :
    (overload_solver_with_template v (some targs) args ⟨cands⟩ w).result =
        overload_solver (args.map (fun c => c.type_id)) st.world.overloads st.world.env ∧
      (overload_solver_allow_no_entry_with_template v (some targs) args ⟨cands⟩ w).result =
        overload_solver_allow_no_entry (args.map (fun c => c.type_id)) st.world.overloads
          st.world.env ∧
      (overload_solver_with_template v (some targs) args ⟨cands⟩ w).state.world = st.world ∧
      (overload_solver_allow_no_entry_with_template v (some targs) args ⟨cands⟩
        w).state.world = st.world ∧
      (args.map (fun c => c.type_id)).length = args.length ∧
      (∀ i : Nat, (args.map (fun c => c.type_id))[i]? =
        (args[i]?).map (fun c => c.type_id)) ∧
      (dispatch_keeps_overloads v →
        ∃ appended : List function_symbol_environment,
          st.world.overloads = w.overloads ++ appended ∧
          appended.map (fun f => f.id) = added_overload_ids st.calls ∧
          appended.length = (cands.filter (admits_template_args targs)).length) := by
  have hg := instantiate_candidates_generic v targs cands _ st hloop (Or.inr hsome)
  obtain ⟨ident, hident⟩ := Option.isSome_iff_exists.mp hg
  refine ⟨?_, ?_, ?_, ?_, by simp, fun i => by simp, ?_⟩
  · unfold overload_solver_with_template
    rw [overload_solver_with_template_with_of_loop args _ hloop hident]
    rfl
  · unfold overload_solver_allow_no_entry_with_template
    rw [overload_solver_with_template_with_of_loop args _ hloop hident]
    rfl
  · unfold overload_solver_with_template
    rw [overload_solver_with_template_with_of_loop args _ hloop hident]
  · unfold overload_solver_allow_no_entry_with_template
    rw [overload_solver_with_template_with_of_loop args _ hloop hident]
  · intro hkeep
    obtain ⟨ids, _, h2, h3, _, h5⟩ := instantiate_candidates_log v targs cands _ st hloop
    obtain ⟨appended, ha1, ha2, _⟩ := h5 hkeep
    refine ⟨appended, ha1, ?_, ?_⟩
    · rw [ha2, h2]
      rfl
    · rw [← h3, ← ha2]
      simp

/-- A concrete instance: one candidate is instantiated on an overload set that
already holds a signature for the argument type id. -/
theorem template_variant_delegates_to_overload_solver_witness :
    (overload_solver_with_template literal_analyzer (some [3]) [⟨0⟩]
        ⟨[⟨1, some ⟨[100], some ⟨7, [⟨.k_val, ⟨1, ⟨some 0, none⟩⟩⟩], some 0, 0⟩⟩⟩]⟩
        ⟨[⟨0, ⟨.k_val, .k_immutable⟩⟩], [⟨2, [0]⟩], [2], 5⟩).result =
      overload_solver [0] [⟨2, [0]⟩, ⟨5, [0]⟩] [⟨0, ⟨.k_val, .k_immutable⟩⟩] ∧
    overload_solver [0] [⟨2, [0]⟩, ⟨5, [0]⟩] [⟨0, ⟨.k_val, .k_immutable⟩⟩] =
      .error .duplicate :=
  ⟨(template_variant_delegates_to_overload_solver literal_analyzer [3] [⟨0⟩]
    [⟨1, some ⟨[100], some ⟨7, [⟨.k_val, ⟨1, ⟨some 0, none⟩⟩⟩], some 0, 0⟩⟩⟩]
    ⟨[⟨0, ⟨.k_val, .k_immutable⟩⟩], [⟨2, [0]⟩], [2], 5⟩
    ⟨⟨[⟨0, ⟨.k_val, .k_immutable⟩⟩], [⟨2, [0]⟩, ⟨5, [0]⟩], [2, 5], 6⟩,
      [.clone_inner_node, .incomplete_construct 7 5, .tp 5, .solve_type 0,
        .parameter_variable_construct 5 1 0 ⟨.k_val, .k_immutable⟩, .dispatch 5,
        .solve_type 0, .complete 5 0, .add_overload 5, .link_with_ast 5],
      some 7⟩
    rfl ⟨_, List.mem_singleton.mpr rfl, by decide⟩).1, by decide⟩


/-! ## Supporting lemmas: the exact condition of acceptance -/

theorem convert_attributes_class {tp ta s : type} (h : convert_attributes tp ta = .ok s) :
    (tp.class_env_id = s.class_env_id ↔
      ((tp.attributes.quality = quality_kind.k_val ∧
          ta.attributes.quality = quality_kind.k_ref) ∨
        tp.class_env_id = ta.class_env_id)) := by
  obtain ⟨c1, ⟨q1, m1⟩⟩ := tp
  obtain ⟨c2, ⟨q2, m2⟩⟩ := ta
  cases q1 <;> cases q2 <;> cases m1 <;> cases m2 <;>
    simp [convert_attributes, convert_quality, check_modifiability, set_modifiability] at h <;>
    subst h <;> simp

theorem position_class_mismatch_not_matches {env : type_table} {p a : type_id_t}
    (h : position_class_mismatch env p a) : ¬ position_matches env p a := by
  obtain ⟨hne, tp, ta, hp, ha, hq, hc⟩ := h
  intro hm
  rcases hm with hpa | ⟨tp1, ta1, hp1, ha1, hor⟩
  · exact hne hpa
  · rw [hp] at hp1
    rw [ha] at ha1
    simp only [Option.some.injEq] at hp1 ha1
    subst hp1
    subst ha1
    rcases hor with hq1 | hc1
    · exact hq hq1
    · exact hc hc1

theorem solve_position_verdict {p a : type_id_t} {i : Nat} {st st1 : solver_state} {b : Bool}
    (h : solve_position p a i st = .ok (b, st1)) :
    (b = true ∧ position_matches st.env p a) ∨
      (b = false ∧ position_class_mismatch st.env p a) := by
  rcases solve_position_cases h with ⟨hpa, hb, _, _⟩ | ⟨hne, tp, ta, s, hp, ha, hc, hcase⟩
  · exact Or.inl ⟨hb, Or.inl hpa⟩
  · have hcl := convert_attributes_class hc
    rcases hcase with ⟨hcls, hb, _⟩ | ⟨hcls, hb, _, _⟩
    · right
      refine ⟨hb, hne, tp, ta, hp, ha, ?_, ?_⟩
      · intro hq
        exact hcls (hcl.mpr (Or.inl hq))
      · intro hce
        exact hcls (hcl.mpr (Or.inr hce))
    · exact Or.inl ⟨hb, Or.inr ⟨tp, ta, hp, ha, hcl.mp hcls⟩⟩

theorem position_loop_verdict (ps args : List type_id_t) :
    ∀ (n i : Nat) (st st1 : solver_state) (b : Bool),
      position_loop ps args n i st = .ok (b, st1) →
      (b = true ∧ ∀ (j : Nat) (p a : type_id_t), i ≤ j → j < i + n → ps[j]? = some p →
          args[j]? = some a → position_matches st.env p a) ∨
        (b = false ∧ ∃ (j : Nat) (p a : type_id_t), i ≤ j ∧ j < i + n ∧ ps[j]? = some p ∧
          args[j]? = some a ∧ position_class_mismatch st.env p a) := by
  intro n
  induction n with
  | zero =>
    intro i st st1 b h
    simp only [position_loop, Except.ok.injEq, Prod.mk.injEq] at h
    left
    exact ⟨h.1.symm, fun j p a h1 h2 => by omega⟩
  | succ n ih =>
    intro i st st1 b h
    simp only [position_loop] at h
    cases hp : ps[i]? with
    | none => simp [hp] at h
    | some p =>
      cases ha : args[i]? with
      | none => simp [hp, ha] at h
      | some a =>
        simp only [hp, ha] at h
        cases hs : solve_position p a i st with
        | error e => simp [hs] at h
        | ok r =>
          obtain ⟨b1, s1⟩ := r
          have hdec := solve_position_verdict hs
          cases b1 with
          | false =>
            simp only [hs, Except.ok.injEq, Prod.mk.injEq] at h
            right
            rcases hdec with ⟨hb, _⟩ | ⟨_, hmis⟩
            · cases hb
            · exact ⟨h.1.symm, i, p, a, Nat.le_refl i, by omega, hp, ha, hmis⟩
          | true =>
            simp only [hs] at h
            have henv := solve_position_env hs
            have hmat : position_matches st.env p a := by
              rcases hdec with ⟨_, hm⟩ | ⟨hb, _⟩
              · exact hm
              · cases hb
            rcases ih (i + 1) s1 st1 b h with ⟨hb, hall⟩ | ⟨hb, j, p1, a1, h1, h2, h3, h4, h5⟩
            · left
              refine ⟨hb, ?_⟩
              intro j p1 a1 h1 h2 hp1 ha1
              by_cases hji : j = i
              · subst hji
                rw [hp] at hp1
                rw [ha] at ha1
                simp only [Option.some.injEq] at hp1 ha1
                rw [← hp1, ← ha1]
                exact hmat
              · rw [← henv]
                exact hall j p1 a1 (by omega) (by omega) hp1 ha1
            · right
              rw [henv] at h5
              exact ⟨hb, j, p1, a1, by omega, by omega, h3, h4, h5⟩

theorem solve_candidate_verdict {args : List type_id_t} {c : function_symbol_environment}
    {st st1 : solver_state} (h : solve_candidate args c st = .ok st1) :
    (st1.f_candidate_envs = st.f_candidate_envs ++ [c] ∧
        c.parameter_type_ids.length = args.length ∧
        ∀ (j : Nat) (p a : type_id_t), c.parameter_type_ids[j]? = some p → args[j]? = some a →
          position_matches st.env p a) ∨
      (st1.f_candidate_envs = st.f_candidate_envs ∧
        (c.parameter_type_ids.length ≠ args.length ∨
          ∃ (j : Nat) (p a : type_id_t), c.parameter_type_ids[j]? = some p ∧
            args[j]? = some a ∧ position_class_mismatch st.env p a)) := by
  unfold solve_candidate at h
  by_cases hlen : c.parameter_type_ids.length ≠ args.length
  · rw [if_pos hlen] at h
    simp only [Except.ok.injEq] at h
    subst h
    exact Or.inr ⟨rfl, Or.inl hlen⟩
  · rw [if_neg hlen] at h
    have hlen2 : c.parameter_type_ids.length = args.length := not_not.mp hlen
    by_cases hz : c.parameter_type_ids.length = 0
    · rw [if_pos hz] at h
      simp only [Except.ok.injEq] at h
      subst h
      left
      refine ⟨rfl, hlen2, ?_⟩
      intro j p a hp _
      have hj : j < c.parameter_type_ids.length := (List.getElem?_eq_some.mp hp).1
      omega
    · rw [if_neg hz] at h
      cases hl : position_loop c.parameter_type_ids args args.length 0 st with
      | error e => simp [hl] at h
      | ok r =>
        obtain ⟨b1, s1⟩ := r
        have hacc := (position_loop_inv _ _ _ _ _ _ _ hl).1
        rcases position_loop_verdict _ _ _ _ _ _ _ hl with
          ⟨hb, hall⟩ | ⟨hb, j, p, a, _, _, hp, ha, hadm⟩
        · subst hb
          simp only [hl, Except.ok.injEq] at h
          subst h
          left
          refine ⟨by simp [push_candidate, hacc], hlen2, ?_⟩
          intro j p a hp ha
          have hj : j < args.length := (List.getElem?_eq_some.mp ha).1
          exact hall j p a (Nat.zero_le j) (by omega) hp ha
        · subst hb
          simp only [hl, Except.ok.injEq] at h
          subst h
          exact Or.inr ⟨hacc, Or.inr ⟨j, p, a, hp, ha, hadm⟩⟩

theorem scan_overloads_verdict (args : List type_id_t) :
    ∀ (overloads : List function_symbol_environment) (st st1 : solver_state),
      scan_overloads args overloads st = .ok st1 →
      ∃ accepted : List function_symbol_environment,
        st1.f_candidate_envs = st.f_candidate_envs ++ accepted ∧
        accepted.Sublist overloads ∧
        (∀ c ∈ accepted, c.parameter_type_ids.length = args.length ∧
          ∀ (j : Nat) (p a : type_id_t), c.parameter_type_ids[j]? = some p →
            args[j]? = some a → position_matches st.env p a) ∧
        (∀ c ∈ overloads, c ∉ accepted →
          c.parameter_type_ids.length ≠ args.length ∨
            ∃ (j : Nat) (p a : type_id_t), c.parameter_type_ids[j]? = some p ∧
              args[j]? = some a ∧ position_class_mismatch st.env p a) := by
  intro overloads
  induction overloads with
  | nil =>
    intro st st1 h
    simp only [scan_overloads, Except.ok.injEq] at h
    subst h
    exact ⟨[], by simp, List.Sublist.refl _, by simp, by simp⟩
  | cons c rest ih =>
    intro st st1 h
    simp only [scan_overloads] at h
    cases hc : solve_candidate args c st with
    | error e => simp [hc] at h
    | ok s1 =>
      simp only [hc] at h
      have henv := solve_candidate_env hc
      obtain ⟨acc, k1, k2, k3, k4⟩ := ih s1 st1 h
      rw [henv] at k3 k4
      rcases solve_candidate_verdict hc with ⟨h1, h2, h3⟩ | ⟨h1, h2⟩
      · refine ⟨c :: acc, ?_, k2.cons₂ _, ?_, ?_⟩
        · rw [k1, h1]; simp
        · intro d hd
          rcases List.mem_cons.mp hd with rfl | hd
          · exact ⟨h2, h3⟩
          · exact k3 d hd
        · intro d hd hnot
          rcases List.mem_cons.mp hd with rfl | hd
          · exact absurd (List.mem_cons_self _ _) hnot
          · exact k4 d hd (fun hin => hnot (List.mem_cons_of_mem _ hin))
      · refine ⟨acc, ?_, k2.cons _, k3, ?_⟩
        · rw [k1, h1]
        · intro d hd hnot
          by_cases hdc : d = c
          · subst hdc
            exact h2
          · rcases List.mem_cons.mp hd with rfl | hd
            · exact absurd rfl hdc
            · exact k4 d hd hnot

/-! ## The exact condition of acceptance -/

/-- C33: the accepted list of a scan that raises no assertion.  It is a
sublist of the overload set, and a candidate of the overload set is in it if
and only if its arity is the number of arguments and at every position the
parameter and argument type ids are equal, or both dereference and the
parameter is `val` while the argument is `ref`, or both dereference to the same
class.  A candidate of the right arity that is not accepted has a position
where the ids differ and the two classes differ: no candidate is rejected on
its attributes alone.  When `overload_solver` returns, what it returns is the
one candidate of the overload set that meets the condition. -/
theorem accepted_iff_arity_and_every_position_matches (args : List type_id_t)
    (overloads : List function_symbol_environment) (env : type_table) (st : solver_state)
    (h : overload_scan args overloads env = .ok st) :
    st.f_candidate_envs.Sublist overloads ∧
      (∀ c ∈ overloads, (c ∈ st.f_candidate_envs ↔
        (c.parameter_type_ids.length = args.length ∧
          ∀ (i : Nat) (p a : type_id_t), c.parameter_type_ids[i]? = some p →
            args[i]? = some a →
            (p = a ∨ ∃ tp ta : type, get_type_at env p = some tp ∧
              get_type_at env a = some ta ∧
              ((tp.attributes.quality = quality_kind.k_val ∧
                  ta.attributes.quality = quality_kind.k_ref) ∨
                tp.class_env_id = ta.class_env_id))))) ∧
      (∀ c ∈ overloads, c ∉ st.f_candidate_envs →
        c.parameter_type_ids.length = args.length →
        ∃ (i : Nat) (p a : type_id_t) (tp ta : type),
          c.parameter_type_ids[i]? = some p ∧ args[i]? = some a ∧ p ≠ a ∧
            get_type_at env p = some tp ∧ get_type_at env a = some ta ∧
            tp.class_env_id ≠ ta.class_env_id) ∧
      (∀ r : function_symbol_environment_ptr, overload_solver args overloads env = .ok r →
        ∃ s : function_symbol_environment, r = some s ∧ s ∈ overloads ∧
          st.f_candidate_envs = [s] ∧
          ∀ c ∈ overloads,
            (c.parameter_type_ids.length = args.length ∧
              ∀ (i : Nat) (p a : type_id_t), c.parameter_type_ids[i]? = some p →
                args[i]? = some a →
                (p = a ∨ ∃ tp ta : type, get_type_at env p = some tp ∧
                  get_type_at env a = some ta ∧
                  ((tp.attributes.quality = quality_kind.k_val ∧
                      ta.attributes.quality = quality_kind.k_ref) ∨
                    tp.class_env_id = ta.class_env_id))) → c = s) := by
  obtain ⟨acc, k1, k2, k3, k4⟩ := scan_overloads_verdict args overloads _ _ h
  simp only [initial_state, List.nil_append] at k1 k3 k4
  have hiff : ∀ c ∈ overloads, (c ∈ st.f_candidate_envs ↔
      (c.parameter_type_ids.length = args.length ∧
        ∀ (i : Nat) (p a : type_id_t), c.parameter_type_ids[i]? = some p →
          args[i]? = some a → position_matches env p a)) := by
    intro c hc
    rw [k1]
    constructor
    · intro hin
      exact k3 c hin
    · intro hcond
      by_contra hnot
      rcases k4 c hc hnot with hlen | ⟨j, p, a, hp, ha, hmis⟩
      · exact hlen hcond.1
      · exact position_class_mismatch_not_matches hmis (hcond.2 j p a hp ha)
  refine ⟨k1 ▸ k2, hiff, ?_, ?_⟩
  · intro c hc hnot hlen
    rw [k1] at hnot
    rcases k4 c hc hnot with hlen1 | ⟨j, p, a, hp, ha, hne, tp, ta, htp, hta, _, hcls⟩
    · exact absurd hlen hlen1
    · exact ⟨j, p, a, tp, ta, hp, ha, hne, htp, hta, hcls⟩
  · intro r hr
    unfold overload_solver at hr
    rw [overload_solver_with_of_scan _ h] at hr
    have hex : ∃ s, r = some s ∧ st.f_candidate_envs = [s] := by
      match hl : st.f_candidate_envs, hr with
      | [], hr => simp [select_unique] at hr
      | [d], hr =>
        simp only [select_unique_singleton, Except.ok.injEq] at hr
        exact ⟨d, hr.symm, rfl⟩
      | d :: e :: rest, hr =>
        rw [select_unique_many (by simp)] at hr
        cases hr
    obtain ⟨s, hrs, hone⟩ := hex
    have hmem : s ∈ st.f_candidate_envs := by rw [hone]; simp
    refine ⟨s, hrs, ?_, hone, ?_⟩
    · exact (k1 ▸ k2).subset hmem
    · intro c hc hcond
      have hin := (hiff c hc).mpr hcond
      rw [hone] at hin
      exact List.mem_singleton.mp hin

/-- A concrete instance: for one `ref` argument of class 1, a `val` parameter of
class 0 and a parameter of the same type id are accepted, a `ref` parameter of
class 0 and a candidate of arity 2 are not. -/
theorem accepted_iff_arity_and_every_position_matches_witness :
    ([⟨10, [0]⟩, ⟨13, [1]⟩] : List function_symbol_environment).Sublist
        [⟨10, [0]⟩, ⟨11, [2]⟩, ⟨12, [1, 1]⟩, ⟨13, [1]⟩] ∧
      (∀ c ∈ ([⟨10, [0]⟩, ⟨11, [2]⟩, ⟨12, [1, 1]⟩, ⟨13, [1]⟩] :
          List function_symbol_environment),
        (c ∈ ([⟨10, [0]⟩, ⟨13, [1]⟩] : List function_symbol_environment) ↔
          (c.parameter_type_ids.length = [1].length ∧
            ∀ (i : Nat) (p a : type_id_t), c.parameter_type_ids[i]? = some p →
              ([1] : List type_id_t)[i]? = some a →
              (p = a ∨ ∃ tp ta : type,
                get_type_at [⟨0, ⟨.k_val, .k_mutable⟩⟩, ⟨1, ⟨.k_ref, .k_mutable⟩⟩,
                  ⟨0, ⟨.k_ref, .k_immutable⟩⟩] p = some tp ∧
                get_type_at [⟨0, ⟨.k_val, .k_mutable⟩⟩, ⟨1, ⟨.k_ref, .k_mutable⟩⟩,
                  ⟨0, ⟨.k_ref, .k_immutable⟩⟩] a = some ta ∧
                ((tp.attributes.quality = quality_kind.k_val ∧
                    ta.attributes.quality = quality_kind.k_ref) ∨
                  tp.class_env_id = ta.class_env_id))))) :=
  ⟨(accepted_iff_arity_and_every_position_matches [1]
      [⟨10, [0]⟩, ⟨11, [2]⟩, ⟨12, [1, 1]⟩, ⟨13, [1]⟩]
      [⟨0, ⟨.k_val, .k_mutable⟩⟩, ⟨1, ⟨.k_ref, .k_mutable⟩⟩, ⟨0, ⟨.k_ref, .k_immutable⟩⟩]
      ⟨[⟨0, ⟨.k_val, .k_mutable⟩⟩, ⟨1, ⟨.k_ref, .k_mutable⟩⟩, ⟨0, ⟨.k_ref, .k_immutable⟩⟩],
        [some 1], [⟨10, [0]⟩, ⟨13, [1]⟩],
        [.get_type_at 0, .get_type_at 1, .make_type_id 0 ⟨.k_val, .k_mutable⟩,
          .get_type_at 2, .get_type_at 1]⟩
      (by decide)).1,
    (accepted_iff_arity_and_every_position_matches [1]
      [⟨10, [0]⟩, ⟨11, [2]⟩, ⟨12, [1, 1]⟩, ⟨13, [1]⟩]
      [⟨0, ⟨.k_val, .k_mutable⟩⟩, ⟨1, ⟨.k_ref, .k_mutable⟩⟩, ⟨0, ⟨.k_ref, .k_immutable⟩⟩]
      ⟨[⟨0, ⟨.k_val, .k_mutable⟩⟩, ⟨1, ⟨.k_ref, .k_mutable⟩⟩, ⟨0, ⟨.k_ref, .k_immutable⟩⟩],
        [some 1], [⟨10, [0]⟩, ⟨13, [1]⟩],
        [.get_type_at 0, .get_type_at 1, .make_type_id 0 ⟨.k_val, .k_mutable⟩,
          .get_type_at 2, .get_type_at 1]⟩
      (by decide)).2.1⟩


/-! ## Supporting lemmas: the outcome for a candidate does not depend on the candidates before it -/

theorem solve_position_transport (p a : type_id_t) (i : Nat) (st st' : solver_state)
    (henv : st'.env = st.env) (hlen : st'.holder.length = st.holder.length) :
    (match solve_position p a i st' with
      | .error e => (Except.error e : Except assertion_failure Bool)
      | .ok r => .ok r.1) =
      (match solve_position p a i st with
      | .error e => (Except.error e : Except assertion_failure Bool)
      | .ok r => .ok r.1) := by
  unfold solve_position holder_assign
  rw [henv, hlen]
  by_cases hpa : p = a
  · simp only [if_pos hpa]
    by_cases hi : i < st.holder.length
    · simp only [if_pos hi]
    · simp only [if_neg hi]
  · simp only [if_neg hpa]
    cases get_type_at st.env p with
    | none => rfl
    | some tp =>
      cases get_type_at st.env a with
      | none => rfl
      | some ta =>
        simp only
        cases convert_attributes tp ta with
        | error e => rfl
        | ok s =>
          simp only
          by_cases hcls : tp.class_env_id ≠ s.class_env_id
          · simp only [if_pos hcls]
          · simp only [if_neg hcls, hlen]
            by_cases hi : i < st.holder.length
            · simp only [if_pos hi]
            · simp only [if_neg hi]

theorem position_loop_transport (ps args : List type_id_t) :
    ∀ (n i : Nat) (st st' : solver_state), st'.env = st.env →
      st'.holder.length = st.holder.length →
      (match position_loop ps args n i st' with
        | .error e => (Except.error e : Except assertion_failure Bool)
        | .ok r => .ok r.1) =
        (match position_loop ps args n i st with
        | .error e => (Except.error e : Except assertion_failure Bool)
        | .ok r => .ok r.1) := by
  intro n
  induction n with
  | zero =>
    intro i st st' _ _
    simp only [position_loop]
  | succ n ih =>
    intro i st st' henv hlen
    simp only [position_loop]
    cases hp : ps[i]? with
    | none => rfl
    | some p =>
      cases ha : args[i]? with
      | none => rfl
      | some a =>
        simp only
        have ht := solve_position_transport p a i st st' henv hlen
        cases hs : solve_position p a i st with
        | error e =>
          cases hs' : solve_position p a i st' with
          | error e' =>
            rw [hs, hs'] at ht
            simp only [Except.error.injEq] at ht
            simp only [ht]
          | ok r' =>
            rw [hs, hs'] at ht
            cases ht
        | ok r =>
          cases hs' : solve_position p a i st' with
          | error e' =>
            rw [hs, hs'] at ht
            cases ht
          | ok r' =>
            rw [hs, hs'] at ht
            simp only [Except.ok.injEq] at ht
            obtain ⟨b, s1⟩ := r
            obtain ⟨b', s1'⟩ := r'
            simp only at ht
            subst ht
            cases b' with
            | false => rfl
            | true =>
              simp only
              apply ih
              · rw [solve_position_env hs', solve_position_env hs, henv]
              · rw [(solve_position_inv hs').2.1, (solve_position_inv hs).2.1, hlen]

theorem solve_candidate_of_verdict (args : List type_id_t) (c : function_symbol_environment)
    (st : solver_state) (hlen : st.holder.length = args.length) :
    match candidate_verdict args c st.env with
    | .error e => solve_candidate args c st = .error e
    | .ok b => ∃ st1, solve_candidate args c st = .ok st1 ∧ st1.env = st.env ∧
        st1.holder.length = args.length ∧
        st1.f_candidate_envs = st.f_candidate_envs ++ (if b = true then [c] else []) := by
  unfold candidate_verdict solve_candidate
  by_cases h1 : c.parameter_type_ids.length ≠ args.length
  · simp only [if_pos h1]
    exact ⟨st, rfl, rfl, hlen, by simp⟩
  · simp only [if_neg h1]
    by_cases h2 : c.parameter_type_ids.length = 0
    · simp only [if_pos h2]
      exact ⟨push_candidate st c, rfl, rfl, hlen, by simp [push_candidate]⟩
    · simp only [if_neg h2]
      have ht := position_loop_transport c.parameter_type_ids args args.length 0
        (initial_state args st.env) st rfl (by simp [initial_state, hlen])
      cases hs : position_loop c.parameter_type_ids args args.length 0 st with
      | error e =>
        rw [hs] at ht
        cases hi : position_loop c.parameter_type_ids args args.length 0
            (initial_state args st.env) with
        | error e' =>
          rw [hi] at ht
          simp only [Except.error.injEq] at ht
          simp only [ht]
        | ok r' =>
          rw [hi] at ht
          cases ht
      | ok r =>
        rw [hs] at ht
        cases hi : position_loop c.parameter_type_ids args args.length 0
            (initial_state args st.env) with
        | error e' =>
          rw [hi] at ht
          cases ht
        | ok r' =>
          rw [hi] at ht
          simp only [Except.ok.injEq] at ht
          obtain ⟨b, s1⟩ := r
          obtain ⟨b', s1'⟩ := r'
          simp only at ht
          subst ht
          obtain ⟨k1, k2, _⟩ := position_loop_inv _ _ _ _ _ _ _ hs
          have k3 := position_loop_env _ _ _ _ _ _ _ hs
          cases b with
          | false =>
            exact ⟨s1, rfl, k3, by rw [k2, hlen], by simp [k1]⟩
          | true =>
            exact ⟨push_candidate s1 c, rfl, k3, by simp [push_candidate, k2, hlen],
              by simp [push_candidate, k1]⟩

theorem scan_overloads_of_verdicts (args : List type_id_t) (env : type_table) :
    ∀ (overloads : List function_symbol_environment) (st : solver_state),
      st.env = env → st.holder.length = args.length →
      (∀ c ∈ overloads, ∃ b, candidate_verdict args c env = .ok b) →
      ∃ st1, scan_overloads args overloads st = .ok st1 ∧ st1.env = env ∧
        st1.f_candidate_envs = st.f_candidate_envs ++
          overloads.filter (fun c => decide (candidate_verdict args c env = .ok true)) := by
  intro overloads
  induction overloads with
  | nil =>
    intro st henv _ _
    exact ⟨st, rfl, henv, by simp⟩
  | cons c rest ih =>
    intro st henv hlen hall
    obtain ⟨b, hb⟩ := hall c (List.mem_cons_self _ _)
    have hv := solve_candidate_of_verdict args c st hlen
    rw [henv, hb] at hv
    obtain ⟨s1, hs1, he1, hl1, hf1⟩ := hv
    obtain ⟨st1, hst1, he2, hf2⟩ := ih s1 he1 hl1
      (fun d hd => hall d (List.mem_cons_of_mem _ hd))
    refine ⟨st1, ?_, he2, ?_⟩
    · simp only [scan_overloads, hs1]
      exact hst1
    · rw [hf2, hf1, List.filter_cons, hb]
      cases b <;> simp

theorem scan_overloads_verdicts_ok (args : List type_id_t) (env : type_table) :
    ∀ (overloads : List function_symbol_environment) (st st1 : solver_state),
      st.env = env → st.holder.length = args.length →
      scan_overloads args overloads st = .ok st1 →
      ∀ c ∈ overloads, ∃ b, candidate_verdict args c env = .ok b := by
  intro overloads
  induction overloads with
  | nil =>
    intro st st1 _ _ _ c hc
    simp at hc
  | cons c rest ih =>
    intro st st1 henv hlen h d hd
    simp only [scan_overloads] at h
    have hv := solve_candidate_of_verdict args c st hlen
    rw [henv] at hv
    cases hb : candidate_verdict args c env with
    | error e =>
      rw [hb] at hv
      simp only at hv
      rw [hv] at h
      cases h
    | ok b =>
      rw [hb] at hv
      obtain ⟨s1, hs1, he1, hl1, _⟩ := hv
      rw [hs1] at h
      rcases List.mem_cons.mp hd with rfl | hd
      · exact ⟨b, hb⟩
      · exact ih s1 st1 he1 hl1 h d hd

theorem overload_scan_perm {args : List type_id_t}
    {overloads permuted : List function_symbol_environment} {env : type_table}
    {st : solver_state} (hperm : overloads.Perm permuted)
    (h : overload_scan args overloads env = .ok st) :
    ∃ st1, overload_scan args permuted env = .ok st1 ∧
      st.f_candidate_envs.Perm st1.f_candidate_envs := by
  have hlen : (initial_state args env).holder.length = args.length := by simp [initial_state]
  have hall := scan_overloads_verdicts_ok args env overloads _ st rfl hlen h
  obtain ⟨s0, hs0, _, hf0⟩ := scan_overloads_of_verdicts args env overloads _ rfl hlen hall
  obtain ⟨s1, hs1, _, hf1⟩ := scan_overloads_of_verdicts args env permuted _ rfl hlen
    (fun c hc => hall c (hperm.mem_iff.mpr hc))
  have hs : s0 = st := by
    unfold overload_scan at h
    rw [hs0] at h
    exact Except.ok.inj h
  subst hs
  refine ⟨s1, hs1, ?_⟩
  rw [hf0, hf1]
  simp only [initial_state, List.nil_append]
  exact hperm.filter _

theorem select_unique_perm {l1 l2 : List function_symbol_environment}
    {r : function_symbol_environment_ptr} (hperm : l1.Perm l2)
    (h : select_unique l1 = .ok r) : select_unique l2 = .ok r := by
  match l1, hperm, h with
  | [], _, h => simp [select_unique] at h
  | [d], hperm, h =>
    rw [← List.singleton_perm.mp hperm]
    exact h
  | d :: e :: rest, _, h =>
    rw [select_unique_many (by simp)] at h
    cases h

theorem select_unique_allow_no_entry_perm {l1 l2 : List function_symbol_environment}
    {r : function_symbol_environment_ptr} (hperm : l1.Perm l2)
    (h : select_unique_allow_no_entry l1 = .ok r) : select_unique_allow_no_entry l2 = .ok r := by
  match l1, hperm, h with
  | [], hperm, h =>
    rw [List.nil_perm.mp hperm]
    exact h
  | [d], hperm, h =>
    rw [← List.singleton_perm.mp hperm]
    exact h
  | d :: e :: rest, _, h =>
    rw [select_unique_allow_no_entry_many (by simp)] at h
    cases h

theorem overload_solver_with_perm {args : List type_id_t}
    {overloads permuted : List function_symbol_environment} {env : type_table}
    {f : List function_symbol_environment →
      Except assertion_failure function_symbol_environment_ptr}
    (hf : ∀ (l1 l2 : List function_symbol_environment) (r : function_symbol_environment_ptr),
      l1.Perm l2 → f l1 = .ok r → f l2 = .ok r)
    {r : function_symbol_environment_ptr} (hperm : overloads.Perm permuted)
    (h : overload_solver_with args overloads env f = .ok r) :
    overload_solver_with args permuted env f = .ok r := by
  cases hs : overload_scan args overloads env with
  | error e => simp [overload_solver_with, hs] at h
  | ok st =>
    rw [overload_solver_with_of_scan f hs] at h
    obtain ⟨st1, hs1, hp⟩ := overload_scan_perm hperm hs
    rw [overload_solver_with_of_scan f hs1]
    exact hf _ _ r hp h

/-! ## Order independence -/

/-- C34: the outcome of overload resolution does not depend on the order of the
overload set.  For an overload set and a permutation of it, on the same
arguments and type table, `overload_solver` returns on the one if and only if
it returns on the other, and then returns the same signature; the same holds
for `overload_solver_allow_no_entry`.  When the scan of the original set
raises no assertion, neither does the scan of the permuted set, the type table
is left the same, and the two accepted lists are permutations of each other:
only their order differs. -/
theorem overload_resolution_order_independent (args : List type_id_t)
    (overloads permuted : List function_symbol_environment) (env : type_table)
    (hperm : overloads.Perm permuted) :
    (∀ r : function_symbol_environment_ptr,
      overload_solver args permuted env = .ok r ↔ overload_solver args overloads env = .ok r) ∧
    (∀ r : function_symbol_environment_ptr,
      overload_solver_allow_no_entry args permuted env = .ok r ↔
        overload_solver_allow_no_entry args overloads env = .ok r) ∧
    (∀ st : solver_state, overload_scan args overloads env = .ok st →
      ∃ st1, overload_scan args permuted env = .ok st1 ∧
        st.f_candidate_envs.Perm st1.f_candidate_envs ∧ st1.env = st.env) := by
  refine ⟨fun r => ⟨?_, ?_⟩, fun r => ⟨?_, ?_⟩, ?_⟩
  · exact overload_solver_with_perm (fun _ _ _ hp hl => select_unique_perm hp hl) hperm.symm
  · exact overload_solver_with_perm (fun _ _ _ hp hl => select_unique_perm hp hl) hperm
  · exact overload_solver_with_perm
      (fun _ _ _ hp hl => select_unique_allow_no_entry_perm hp hl) hperm.symm
  · exact overload_solver_with_perm
      (fun _ _ _ hp hl => select_unique_allow_no_entry_perm hp hl) hperm
  · intro st h
    obtain ⟨st1, hs1, hp⟩ := overload_scan_perm hperm h
    refine ⟨st1, hs1, hp, ?_⟩
    rw [scan_overloads_env args permuted _ _ hs1, scan_overloads_env args overloads _ _ h]

/-- A concrete instance: two candidates in the two orders.  One of them is
accepted for the argument, and it is returned in both orders. -/
theorem overload_resolution_order_independent_witness :
    (overload_solver [1] [⟨10, [0]⟩, ⟨11, [2]⟩]
        [⟨0, ⟨.k_val, .k_mutable⟩⟩, ⟨1, ⟨.k_ref, .k_mutable⟩⟩, ⟨0, ⟨.k_ref, .k_immutable⟩⟩] =
          .ok (some ⟨10, [0]⟩) ↔
      overload_solver [1] [⟨11, [2]⟩, ⟨10, [0]⟩]
        [⟨0, ⟨.k_val, .k_mutable⟩⟩, ⟨1, ⟨.k_ref, .k_mutable⟩⟩, ⟨0, ⟨.k_ref, .k_immutable⟩⟩] =
          .ok (some ⟨10, [0]⟩)) ∧
    overload_solver [1] [⟨11, [2]⟩, ⟨10, [0]⟩]
        [⟨0, ⟨.k_val, .k_mutable⟩⟩, ⟨1, ⟨.k_ref, .k_mutable⟩⟩, ⟨0, ⟨.k_ref, .k_immutable⟩⟩] =
      .ok (some ⟨10, [0]⟩) :=
  ⟨(overload_resolution_order_independent [1] [⟨11, [2]⟩, ⟨10, [0]⟩]
      [⟨10, [0]⟩, ⟨11, [2]⟩]
      [⟨0, ⟨.k_val, .k_mutable⟩⟩, ⟨1, ⟨.k_ref, .k_mutable⟩⟩, ⟨0, ⟨.k_ref, .k_immutable⟩⟩]
      (List.Perm.swap _ _ _)).1 (some ⟨10, [0]⟩), by decide⟩


/-! ## Growing an overload set -/

/-- C35: appending candidates to an overload set never rebinds a call.  If
`overload_solver` returns the signature `s` on the overload set, then on the
set followed by any further candidates, with the same arguments and type
table, it returns `s` again or stops at an assertion: whatever it returns is
`s`, and so is whatever `overload_solver_allow_no_entry` returns.  When the
scan of the grown set raises no assertion, the accepted list starts with `s`;
the call returns `s` if nothing else was accepted and fails as a duplicate
otherwise. -/
theorem growing_overload_set_never_rebinds (args : List type_id_t)
    (overloads extra : List function_symbol_environment) (env : type_table)
    (s : function_symbol_environment)
    (h : overload_solver args overloads env = .ok (some s)) :
    (overload_solver args (overloads ++ extra) env = .ok (some s) ∨
      ∃ e, overload_solver args (overloads ++ extra) env = .error e) ∧
    (∀ r : function_symbol_environment_ptr,
      overload_solver args (overloads ++ extra) env = .ok r → r = some s) ∧
    (∀ r : function_symbol_environment_ptr,
      overload_solver_allow_no_entry args (overloads ++ extra) env = .ok r → r = some s) ∧
    (∀ st : solver_state, overload_scan args (overloads ++ extra) env = .ok st →
      ∃ more : List function_symbol_environment,
        st.f_candidate_envs = s :: more ∧ more.Sublist extra ∧
        (more = [] → overload_solver args (overloads ++ extra) env = .ok (some s)) ∧
        (more ≠ [] → overload_solver args (overloads ++ extra) env = .error .duplicate)) := by
  have hscan : ∀ st : solver_state, overload_scan args (overloads ++ extra) env = .ok st →
      ∃ more : List function_symbol_environment,
        st.f_candidate_envs = s :: more ∧ more.Sublist extra := by
    intro st hst
    cases hs : overload_scan args overloads env with
    | error e => simp [overload_solver, overload_solver_with, hs] at h
    | ok s1 =>
      unfold overload_solver at h
      rw [overload_solver_with_of_scan _ hs] at h
      have hone := select_unique_mem h
      unfold overload_scan at hst hs
      rw [scan_overloads_append, hs] at hst
      simp only at hst
      obtain ⟨_, _, acc, k1, k2, _⟩ := scan_overloads_inv args extra _ _ hst
      refine ⟨acc, ?_, k2⟩
      rw [k1, hone]
      rfl
  have hres : ∀ (f : List function_symbol_environment →
        Except assertion_failure function_symbol_environment_ptr)
      (r : function_symbol_environment_ptr),
      (∀ (x : function_symbol_environment) (more : List function_symbol_environment),
        f (x :: more) = .ok r → r = some x) →
      overload_solver_with args (overloads ++ extra) env f = .ok r → r = some s := by
    intro f r hf hr
    cases hs : overload_scan args (overloads ++ extra) env with
    | error e => simp [overload_solver_with, hs] at hr
    | ok st =>
      rw [overload_solver_with_of_scan f hs] at hr
      obtain ⟨more, hm, _⟩ := hscan st hs
      rw [hm] at hr
      exact hf s more hr
  have hsel : ∀ (x : function_symbol_environment) (more : List function_symbol_environment)
      (r : function_symbol_environment_ptr), select_unique (x :: more) = .ok r → r = some x := by
    intro x more r hr
    cases more with
    | nil =>
      simp only [select_unique_singleton, Except.ok.injEq] at hr
      exact hr.symm
    | cons y rest =>
      rw [select_unique_many (by simp)] at hr
      cases hr
  have hsel2 : ∀ (x : function_symbol_environment) (more : List function_symbol_environment)
      (r : function_symbol_environment_ptr),
      select_unique_allow_no_entry (x :: more) = .ok r → r = some x := by
    intro x more r hr
    cases more with
    | nil =>
      simp only [select_unique_allow_no_entry_singleton, Except.ok.injEq] at hr
      exact hr.symm
    | cons y rest =>
      rw [select_unique_allow_no_entry_many (by simp)] at hr
      cases hr
  refine ⟨?_, ?_, ?_, ?_⟩
  · cases hr : overload_solver args (overloads ++ extra) env with
    | error e => exact Or.inr ⟨e, rfl⟩
    | ok r =>
      left
      rw [hres select_unique r (fun x more => hsel x more r) hr]
  · intro r hr
    exact hres select_unique r (fun x more => hsel x more r) hr
  · intro r hr
    exact hres select_unique_allow_no_entry r (fun x more => hsel2 x more r) hr
  · intro st hst
    obtain ⟨more, hm, hsub⟩ := hscan st hst
    refine ⟨more, hm, hsub, ?_, ?_⟩
    · intro hnil
      unfold overload_solver
      rw [overload_solver_with_of_scan _ hst, hm, hnil]
      rfl
    · intro hne
      unfold overload_solver
      rw [overload_solver_with_of_scan _ hst, hm]
      apply select_unique_many
      cases more with
      | nil => exact absurd rfl hne
      | cons y rest => simp

/-- A concrete instance: the signature returned for one argument is returned
again when a candidate of another class is appended. -/
theorem growing_overload_set_never_rebinds_witness :
    overload_solver [1] ([⟨10, [0]⟩] ++ [⟨11, [2]⟩])
        [⟨0, ⟨.k_val, .k_mutable⟩⟩, ⟨1, ⟨.k_ref, .k_mutable⟩⟩, ⟨0, ⟨.k_ref, .k_immutable⟩⟩] =
          .ok (some ⟨10, [0]⟩) ∨
      ∃ e, overload_solver [1] ([⟨10, [0]⟩] ++ [⟨11, [2]⟩])
        [⟨0, ⟨.k_val, .k_mutable⟩⟩, ⟨1, ⟨.k_ref, .k_mutable⟩⟩, ⟨0, ⟨.k_ref, .k_immutable⟩⟩] =
          .error e :=
  (growing_overload_set_never_rebinds [1] [⟨10, [0]⟩] [⟨11, [2]⟩]
    [⟨0, ⟨.k_val, .k_mutable⟩⟩, ⟨1, ⟨.k_ref, .k_mutable⟩⟩, ⟨0, ⟨.k_ref, .k_immutable⟩⟩]
    ⟨10, [0]⟩ (by decide)).1

/-! ## The two selection policies -/

/-- C36: the two selection policies differ on the empty accepted list only.
When the scan raises no assertion and accepts at least one candidate,
`overload_solver` and `overload_solver_allow_no_entry` give the same result:
the same signature when one candidate is accepted, the same duplicate failure
when more are.  On every non-empty list the two callbacks agree, and on the
empty list they differ. -/
theorem selection_policies_agree_on_accepted_candidates (args : List type_id_t)
    (overloads : List function_symbol_environment) (env : type_table) (st : solver_state)
    (h : overload_scan args overloads env = .ok st) (hne : st.f_candidate_envs ≠ []) :
    overload_solver args overloads env = overload_solver_allow_no_entry args overloads env ∧
      ((∃ s, st.f_candidate_envs = [s] ∧ overload_solver args overloads env = .ok (some s)) ∨
        (1 < st.f_candidate_envs.length ∧
          overload_solver args overloads env = .error .duplicate)) ∧
      (∀ l : List function_symbol_environment, l ≠ [] →
        select_unique l = select_unique_allow_no_entry l) ∧
      select_unique [] = .error .overload_failed ∧
      select_unique_allow_no_entry [] = .ok none := by
  have hagree : ∀ l : List function_symbol_environment, l ≠ [] →
      select_unique l = select_unique_allow_no_entry l := by
    intro l hl
    unfold select_unique select_unique_allow_no_entry
    have h0 : ¬ l.length = 0 := fun h0 => hl (List.length_eq_zero.mp h0)
    rw [if_neg h0, if_neg h0]
  refine ⟨?_, ?_, hagree, rfl, rfl⟩
  · unfold overload_solver overload_solver_allow_no_entry
    rw [overload_solver_with_of_scan _ h, overload_solver_with_of_scan _ h]
    exact hagree _ hne
  · unfold overload_solver
    rw [overload_solver_with_of_scan _ h]
    match hl : st.f_candidate_envs with
    | [] => exact absurd hl hne
    | [d] => exact Or.inl ⟨d, rfl, rfl⟩
    | d :: e :: rest => exact Or.inr ⟨by simp, select_unique_many (by simp)⟩

/-- A concrete instance: one candidate is accepted and both policies return
it. -/
theorem selection_policies_agree_on_accepted_candidates_witness :
    overload_solver [1] [⟨10, [0]⟩, ⟨11, [2]⟩]
        [⟨0, ⟨.k_val, .k_mutable⟩⟩, ⟨1, ⟨.k_ref, .k_mutable⟩⟩, ⟨0, ⟨.k_ref, .k_immutable⟩⟩] =
      overload_solver_allow_no_entry [1] [⟨10, [0]⟩, ⟨11, [2]⟩]
        [⟨0, ⟨.k_val, .k_mutable⟩⟩, ⟨1, ⟨.k_ref, .k_mutable⟩⟩, ⟨0, ⟨.k_ref, .k_immutable⟩⟩] :=
  (selection_policies_agree_on_accepted_candidates [1] [⟨10, [0]⟩, ⟨11, [2]⟩]
    [⟨0, ⟨.k_val, .k_mutable⟩⟩, ⟨1, ⟨.k_ref, .k_mutable⟩⟩, ⟨0, ⟨.k_ref, .k_immutable⟩⟩]
    ⟨[⟨0, ⟨.k_val, .k_mutable⟩⟩, ⟨1, ⟨.k_ref, .k_mutable⟩⟩, ⟨0, ⟨.k_ref, .k_immutable⟩⟩],
      [some 0], [⟨10, [0]⟩],
      [.get_type_at 0, .get_type_at 1, .make_type_id 0 ⟨.k_val, .k_mutable⟩,
        .get_type_at 2, .get_type_at 1]⟩
    (by decide) (by decide)).1


/-! ## Supporting lemmas: every index is in bounds -/

theorem convert_attributes_not_index (tp ta : type) :
    convert_attributes tp ta ≠ .error .index_out_of_range := by
  obtain ⟨c1, ⟨q1, m1⟩⟩ := tp
  obtain ⟨c2, ⟨q2, m2⟩⟩ := ta
  cases q1 <;> cases q2 <;> cases m1 <;> cases m2 <;>
    simp [convert_attributes, convert_quality, check_modifiability, set_modifiability]

theorem solve_position_index_safe (p a : type_id_t) (i : Nat) (st : solver_state)
    (hi : i < st.holder.length) :
    solve_position p a i st ≠ .error .index_out_of_range := by
  unfold solve_position holder_assign
  by_cases hpa : p = a
  · simp only [if_pos hpa, if_pos hi]
    intro h
    cases h
  · simp only [if_neg hpa]
    cases get_type_at st.env p with
    | none => intro h; cases h
    | some tp =>
      cases get_type_at st.env a with
      | none => intro h; cases h
      | some ta =>
        simp only
        have hc := convert_attributes_not_index tp ta
        cases hcv : convert_attributes tp ta with
        | error e =>
          simp only
          intro h
          rw [hcv] at hc
          exact hc (by rw [Except.error.inj h])
        | ok s =>
          simp only
          by_cases hcls : tp.class_env_id ≠ s.class_env_id
          · simp only [if_pos hcls]
            intro h
            cases h
          · simp only [if_neg hcls, if_pos hi]
            intro h
            cases h

theorem position_loop_index_safe (ps args : List type_id_t) :
    ∀ (n i : Nat) (st : solver_state), i + n ≤ ps.length → i + n ≤ args.length →
      i + n ≤ st.holder.length →
      position_loop ps args n i st ≠ .error .index_out_of_range := by
  intro n
  induction n with
  | zero =>
    intro i st _ _ _ h
    simp [position_loop] at h
  | succ n ih =>
    intro i st h1 h2 h3
    have hp : ps[i]? = some (ps[i]) := List.getElem?_eq_getElem (by omega)
    have ha : args[i]? = some (args[i]) := List.getElem?_eq_getElem (by omega)
    simp only [position_loop, hp, ha]
    have hs := solve_position_index_safe ps[i] args[i] i st (by omega)
    cases hsol : solve_position ps[i] args[i] i st with
    | error e =>
      simp only
      intro h
      rw [hsol] at hs
      exact hs h
    | ok r =>
      obtain ⟨b, s1⟩ := r
      cases b with
      | false =>
        simp only
        intro h
        cases h
      | true =>
        simp only
        apply ih (i + 1) s1 (by omega) (by omega)
        rw [(solve_position_inv hsol).2.1]
        omega

theorem solve_candidate_index_safe (args : List type_id_t) (c : function_symbol_environment)
    (st : solver_state) (hlen : st.holder.length = args.length) :
    solve_candidate args c st ≠ .error .index_out_of_range := by
  unfold solve_candidate
  by_cases h1 : c.parameter_type_ids.length ≠ args.length
  · simp only [if_pos h1]
    intro h
    cases h
  · simp only [if_neg h1]
    by_cases h2 : c.parameter_type_ids.length = 0
    · simp only [if_pos h2]
      intro h
      cases h
    · simp only [if_neg h2]
      have hl := position_loop_index_safe c.parameter_type_ids args args.length 0 st
        (by have := not_not.mp h1; omega) (by omega) (by omega)
      cases hloop : position_loop c.parameter_type_ids args args.length 0 st with
      | error e =>
        simp only
        intro h
        rw [hloop] at hl
        exact hl (by rw [Except.error.inj h])
      | ok r =>
        obtain ⟨b, s1⟩ := r
        cases b <;> simp

theorem scan_overloads_index_safe (args : List type_id_t) :
    ∀ (overloads : List function_symbol_environment) (st : solver_state),
      st.holder.length = args.length →
      scan_overloads args overloads st ≠ .error .index_out_of_range := by
  intro overloads
  induction overloads with
  | nil =>
    intro st _ h
    simp [scan_overloads] at h
  | cons c rest ih =>
    intro st hlen
    simp only [scan_overloads]
    have hc := solve_candidate_index_safe args c st hlen
    cases hs : solve_candidate args c st with
    | error e =>
      simp only
      intro h
      rw [hs] at hc
      exact hc h
    | ok s1 =>
      simp only
      apply ih
      rw [(solve_candidate_inv hs).1, hlen]

theorem select_unique_index_safe (l : List function_symbol_environment) :
    select_unique l ≠ .error .index_out_of_range := by
  match l with
  | [] => simp [select_unique]
  | [d] => simp [select_unique_singleton]
  | d :: e :: rest =>
    rw [select_unique_many (by simp)]
    simp

theorem select_unique_allow_no_entry_index_safe (l : List function_symbol_environment) :
    select_unique_allow_no_entry l ≠ .error .index_out_of_range := by
  match l with
  | [] => simp [select_unique_allow_no_entry]
  | [d] => simp [select_unique_allow_no_entry_singleton]
  | d :: e :: rest =>
    rw [select_unique_allow_no_entry_many (by simp)]
    simp

/-! ## Index safety -/

/-- C37: every index used by overload resolution is in bounds.  The scan never
stops on an index out of range, whatever the arguments, the overload set and
the type table are: at each position visited, the index is below the length of
the parameter type ids, of the argument type ids and of `holder`.  Neither
selection callback indexes out of range: the accepted list is read at index 0
only when it has exactly one element, and for every other length the result is
fixed by the length alone.  Hence neither `overload_solver` nor
`overload_solver_allow_no_entry` ever stops on an index out of range. -/
theorem overload_resolution_indices_in_bounds (args : List type_id_t)
    (overloads : List function_symbol_environment) (env : type_table) :
    overload_scan args overloads env ≠ .error .index_out_of_range ∧
      (∀ (c : function_symbol_environment) (st : solver_state) (n i : Nat),
        st.holder.length = args.length → c.parameter_type_ids.length = args.length →
        i + n ≤ args.length →
        position_loop c.parameter_type_ids args n i st ≠ .error .index_out_of_range) ∧
      (∀ l : List function_symbol_environment,
        select_unique l ≠ .error .index_out_of_range ∧
          select_unique_allow_no_entry l ≠ .error .index_out_of_range ∧
          (l.length = 1 → ∃ selected, l[0]? = some selected ∧
            select_unique l = .ok (some selected) ∧
            select_unique_allow_no_entry l = .ok (some selected)) ∧
          (l.length ≠ 1 →
            select_unique l =
                (if l.length = 0 then .error .overload_failed else .error .duplicate) ∧
              select_unique_allow_no_entry l =
                (if l.length = 0 then .ok none else .error .duplicate))) ∧
      overload_solver args overloads env ≠ .error .index_out_of_range ∧
      overload_solver_allow_no_entry args overloads env ≠ .error .index_out_of_range := by
  have hscan : overload_scan args overloads env ≠ .error .index_out_of_range :=
    scan_overloads_index_safe args overloads _ (by simp [initial_state])
  have hwith : ∀ f : List function_symbol_environment →
        Except assertion_failure function_symbol_environment_ptr,
      (∀ l, f l ≠ .error .index_out_of_range) →
      overload_solver_with args overloads env f ≠ .error .index_out_of_range := by
    intro f hf
    unfold overload_solver_with
    cases hs : overload_scan args overloads env with
    | error e =>
      simp only
      intro h
      rw [hs] at hscan
      exact hscan (by rw [Except.error.inj h])
    | ok st => exact hf _
  refine ⟨hscan, ?_, ?_, hwith _ select_unique_index_safe,
    hwith _ select_unique_allow_no_entry_index_safe⟩
  · intro c st n i h1 h2 h3
    exact position_loop_index_safe _ _ n i st (by omega) h3 (by omega)
  · intro l
    refine ⟨select_unique_index_safe l, select_unique_allow_no_entry_index_safe l, ?_, ?_⟩
    · intro hl
      obtain ⟨x, hx⟩ := List.length_eq_one.mp hl
      subst hx
      exact ⟨x, rfl, rfl, rfl⟩
    · intro hl
      unfold select_unique select_unique_allow_no_entry
      by_cases h0 : l.length = 0
      · simp only [if_pos h0, and_self]
      · have h1 : l.length > 1 := by omega
        simp only [if_neg h0, if_pos h1, and_self]


/-- A concrete instance: a scan over three candidates, one of them of another
arity, never stops on an index out of range. -/
theorem overload_resolution_indices_in_bounds_witness :
    overload_scan [1] [⟨10, [0]⟩, ⟨11, [2]⟩, ⟨12, [1, 1]⟩]
        [⟨0, ⟨.k_val, .k_mutable⟩⟩, ⟨1, ⟨.k_ref, .k_mutable⟩⟩, ⟨0, ⟨.k_ref, .k_immutable⟩⟩] ≠
      .error .index_out_of_range :=
  (overload_resolution_indices_in_bounds [1] [⟨10, [0]⟩, ⟨11, [2]⟩, ⟨12, [1, 1]⟩]
    [⟨0, ⟨.k_val, .k_mutable⟩⟩, ⟨1, ⟨.k_ref, .k_mutable⟩⟩, ⟨0, ⟨.k_ref, .k_immutable⟩⟩]).1

/-! ## The template variant that allows no entry -/

/-- C38: `overload_solver_allow_no_entry_with_template` when no candidate can
be instantiated.  If every candidate of the template set is skipped (in
particular if the set is empty), the call stops at
`assert( generic_function_env != nullptr )`, an internal assertion; the
environment is untouched, the log is empty, so
`overload_solver` is not called, and the outcome is the same for every
selection callback: the callback is not invoked.  For any template set, when
the call returns the null result, a candidate that is not skipped exists, a
function environment was constructed, and the scan of the final overload set
raised no assertion and accepted nothing. -/
theorem allow_no_entry_template_variant_needs_an_instantiation (v : analyzer)
    (targs : List template_argument) (args : List type_detail)
    (cands : List template_environment) (w : template_world)
    (hall : ∀ c ∈ cands, targs.length > c.parameter_num) :
    overload_solver_allow_no_entry_with_template v (some targs) args ⟨cands⟩ w =
        ⟨⟨w, [], none⟩, .error .generic_function_env_is_null⟩ ∧
      overload_solver_calls
        (overload_solver_allow_no_entry_with_template v (some targs) args ⟨cands⟩
          w).state.calls = [] ∧
      (∀ f : List function_symbol_environment →
          Except assertion_failure function_symbol_environment_ptr,
        overload_solver_with_template_with v (some targs) args ⟨cands⟩ w f =
          ⟨⟨w, [], none⟩, .error .generic_function_env_is_null⟩) ∧
      (∀ others : List template_environment,
        (overload_solver_allow_no_entry_with_template v (some targs) args ⟨others⟩
          w).result = .ok none →
        (∃ c ∈ others, targs.length ≤ c.parameter_num) ∧
          constructed_ids (overload_solver_allow_no_entry_with_template v (some targs) args
            ⟨others⟩ w).state.calls ≠ [] ∧
          ∃ st : solver_state,
            overload_scan (args.map (fun c => c.type_id))
              (overload_solver_allow_no_entry_with_template v (some targs) args ⟨others⟩
                w).state.world.overloads
              (overload_solver_allow_no_entry_with_template v (some targs) args ⟨others⟩
                w).state.world.env = .ok st ∧
            st.f_candidate_envs = []) := by
  have hnone := no_instantiable_candidate v targs args cands w
  refine ⟨hnone _ hall, ?_, fun f => hnone f hall, ?_⟩
  · unfold overload_solver_allow_no_entry_with_template
    rw [hnone _ hall]
    rfl
  · intro others hres
    have hex : ∃ c ∈ others, targs.length ≤ c.parameter_num := by
      by_contra hno
      have hskip : ∀ c ∈ others, targs.length > c.parameter_num := by
        intro c hc
        by_contra hle
        exact hno ⟨c, hc, by omega⟩
      unfold overload_solver_allow_no_entry_with_template at hres
      rw [no_instantiable_candidate v targs args others w _ hskip] at hres
      cases hres
    refine ⟨hex, ?_⟩
    unfold overload_solver_allow_no_entry_with_template at hres ⊢
    cases hloop : instantiate_candidates v targs others ⟨w, [], none⟩ with
    | mk st r =>
      cases r with
      | error failure =>
        rw [overload_solver_with_template_with_of_failure args _ hloop] at hres
        cases hres
      | ok u =>
        have hg := instantiate_candidates_generic v targs others _ st hloop (Or.inr hex)
        obtain ⟨ident, hident⟩ := Option.isSome_iff_exists.mp hg
        rw [overload_solver_with_template_with_of_loop args _ hloop hident] at hres ⊢
        simp only at hres ⊢
        constructor
        · obtain ⟨ids, h1, _, h3, _, _⟩ := instantiate_candidates_log v targs others _ st hloop
          rw [constructed_ids_append, h1]
          obtain ⟨c, hc, hadm⟩ := hex
          have hmem : c ∈ others.filter (admits_template_args targs) := by
            rw [List.mem_filter]
            exact ⟨hc, by simp [admits_template_args, hadm]⟩
          have hpos : 0 < ids.length := by
            rw [h3]
            exact List.length_pos_of_mem hmem
          intro hnil
          have hids : ids = [] := by
            simpa [constructed_ids] using hnil
          rw [hids] at hpos
          exact absurd hpos (by simp)
        · cases hs : overload_scan (args.map to_type_id_t2) st.world.overloads st.world.env with
          | error e => simp [overload_solver_with, hs] at hres
          | ok sst =>
            rw [overload_solver_with_of_scan _ hs] at hres
            refine ⟨sst, hs, ?_⟩
            match hl : sst.f_candidate_envs, hres with
            | [], _ => rfl
            | [d], hres =>
              simp [select_unique_allow_no_entry_singleton] at hres
            | d :: e :: rest, hres =>
              rw [select_unique_allow_no_entry_many (by simp)] at hres
              cases hres

/-- A concrete instance: the only candidate declares one template parameter and
two template arguments are supplied. -/
theorem allow_no_entry_template_variant_needs_an_instantiation_witness :
    overload_solver_allow_no_entry_with_template literal_analyzer (some [3, 4]) [⟨0⟩]
        ⟨[⟨1, some ⟨[100], some ⟨7, [⟨.k_val, ⟨1, ⟨some 0, none⟩⟩⟩], some 0, 0⟩⟩⟩]⟩
        ⟨[⟨0, ⟨.k_val, .k_immutable⟩⟩], [⟨2, [0]⟩], [2], 5⟩ =
      ⟨⟨⟨[⟨0, ⟨.k_val, .k_immutable⟩⟩], [⟨2, [0]⟩], [2], 5⟩, [], none⟩,
        .error .generic_function_env_is_null⟩ :=
  (allow_no_entry_template_variant_needs_an_instantiation literal_analyzer [3, 4] [⟨0⟩]
    [⟨1, some ⟨[100], some ⟨7, [⟨.k_val, ⟨1, ⟨some 0, none⟩⟩⟩], some 0, 0⟩⟩⟩]
    ⟨[⟨0, ⟨.k_val, .k_immutable⟩⟩], [⟨2, [0]⟩], [2], 5⟩
    (by decide)).1


/-! ## Supporting lemmas: terminals, rounds and levels of the expression grammar -/

theorem lit_of_skipped {skipper : List Char → List Char} {input skipped : List Char}
    (s : List Char) (h : skipper input = skipped) :
    lit skipper s input =
      match match_literal s skipped with
      | some rest => .matched () rest
      | none => .no_match := by
  unfold lit
  rw [h]

theorem match_literal_head {c x : Char} (cs tail : List Char) (h : x ≠ c) :
    match_literal (c :: cs) (x :: tail) = none := by
  simp [match_literal, h]

theorem lit_no_match_nil {skipper : List Char → List Char} {input : List Char}
    (c : Char) (cs : List Char) (h : skipper input = []) :
    lit skipper (c :: cs) input = .no_match := by
  rw [lit_of_skipped _ h]
  rfl

theorem lit_no_match_head {skipper : List Char → List Char} {input tail : List Char}
    {c x : Char} (cs : List Char) (h : skipper input = x :: tail) (hne : x ≠ c) :
    lit skipper (c :: cs) input = .no_match := by
  rw [lit_of_skipped _ h, match_literal_head cs tail hne]

theorem binary_operator_round_quiet (skipper : List Char → List Char)
    (operand : rule ast_node) (val : ast_node) (rest : List Char) :
    ∀ operators : List (List Char),
      (∀ op ∈ operators, lit skipper op rest = .no_match) →
      binary_operator_round skipper operand val operators rest = .no_match := by
  intro operators
  induction operators with
  | nil => intro _; rfl
  | cons op others ih =>
    intro h
    have h1 := h op (List.mem_cons_self _ _)
    have h2 := ih (fun o ho => h o (List.mem_cons_of_mem _ ho))
    simp only [binary_operator_round, alternative, with_action, sequence, h1, h2]

theorem binary_operator_round_hit (skipper : List Char → List Char)
    (operand : rule ast_node) (val rhs : ast_node) (rest rest1 rest2 : List Char)
    (op : List Char) :
    ∀ before after : List (List Char),
      (∀ o ∈ before, lit skipper o rest = .no_match) →
      lit skipper op rest = .matched () rest1 →
      operand rest1 = .matched rhs rest2 →
      binary_operator_round skipper operand val (before ++ op :: after) rest =
        .matched (ast_node.binary_operator_expression val op rhs) rest2 := by
  intro before
  induction before with
  | nil =>
    intro after _ h1 h2
    simp only [List.nil_append, binary_operator_round, alternative, with_action, sequence, h1,
      h2]
  | cons o others ih =>
    intro after h h1 h2
    have h3 := h o (List.mem_cons_self _ _)
    have h4 := ih after (fun x hx => h x (List.mem_cons_of_mem _ hx)) h1 h2
    simp only [List.cons_append, binary_operator_round, alternative, with_action, sequence,
      h3]
    exact h4

theorem repeat_updating_stop {α : Type} (step : α → rule α) (n : Nat) (val : α)
    (input : List Char) (h : step val input = .no_match) :
    repeat_updating step (n + 1) val input = .matched val input := by
  simp only [repeat_updating, h]

theorem repeat_updating_step {α : Type} (step : α → rule α) (n : Nat) (val val1 : α)
    (input rest : List Char) (h : step val input = .matched val1 rest) :
    repeat_updating step (n + 1) val input = repeat_updating step n val1 rest := by
  simp only [repeat_updating, h]

theorem binary_operator_level_of_operand (skipper : List Char → List Char) (fuel : Nat)
    (operators : List (List Char)) (operand : rule ast_node) (input rest : List Char)
    (val : ast_node) (h : operand input = .matched val rest) :
    binary_operator_level skipper fuel operators operand input =
      repeat_updating (fun v => binary_operator_round skipper operand v operators) fuel val
        rest := by
  simp only [binary_operator_level, h]

theorem parses_to_pos {skipper : List Char → List Char} {m priority : Nat}
    {input rest : List Char} {v : ast_node} (h : parses_to skipper m priority input v rest) :
    1 ≤ m := by
  by_contra hm
  have h0 := h 0 (by omega)
  simp [expression_priority_] at h0

theorem parses_to_mono {skipper : List Char → List Char} {m m1 priority : Nat}
    {input rest : List Char} {v : ast_node} (h : parses_to skipper m priority input v rest)
    (hm : m ≤ m1) : parses_to skipper m1 priority input v rest :=
  fun fuel hf => h fuel (by omega)

theorem expression_priority_binary (skipper : List Char → List Char) (fuel priority : Nat)
    (h : is_binary_level (priority + 1) = true) :
    expression_priority_ skipper (fuel + 1) (priority + 1) =
      binary_operator_level skipper fuel (level_terminals (priority + 1))
        (expression_priority_ skipper fuel priority) := by
  simp only [is_binary_level, decide_eq_true_eq, List.mem_cons, List.mem_singleton,
    List.not_mem_nil, or_false] at h
  rcases h with h | h | h | h | h | h | h | h | h | h | h | h <;>
    (have hp : priority = _ := Nat.succ.inj h; subst hp; rfl)

theorem selector_subscript_or_call_quiet (skipper : List Char → List Char) (fuel : Nat)
    (expression assign_expression : rule ast_node) (val : ast_node) (rest : List Char)
    (h : ∀ op ∈ level_terminals 1, lit skipper op rest = .no_match) :
    selector_subscript_or_call skipper fuel expression assign_expression val rest =
      .no_match := by
  have h1 : lit skipper ['.'] rest = .no_match := h _ (by simp [level_terminals])
  have h2 : lit skipper ['['] rest = .no_match := h _ (by simp [level_terminals])
  have h3 : lit skipper ['('] rest = .no_match := h _ (by simp [level_terminals])
  simp only [selector_subscript_or_call, argument_list_, alternative, with_action, sequence,
    expect, h1, h2, h3]

theorem climb_one {skipper : List Char → List Char} {m priority : Nat}
    {input rest : List Char} {v : ast_node}
    (h : parses_to skipper m priority input v rest) (hk : priority < 15)
    (hq : ∀ op ∈ level_terminals (priority + 1), lit skipper op rest = .no_match) :
    parses_to skipper (m + 1) (priority + 1) input v rest := by
  have hm := parses_to_pos h
  intro fuel hf
  obtain ⟨f, rfl⟩ : ∃ f, fuel = f + 1 := ⟨fuel - 1, by omega⟩
  obtain ⟨n, hn⟩ : ∃ n, f = n + 1 := ⟨f - 1, by omega⟩
  have hop := h f (by omega)
  by_cases hb : is_binary_level (priority + 1) = true
  · rw [expression_priority_binary skipper f priority hb,
      binary_operator_level_of_operand _ _ _ _ _ _ _ hop, hn]
    exact repeat_updating_stop _ _ _ _ (binary_operator_round_quiet _ _ _ _ _ hq)
  · have hcases : priority = 0 ∨ priority = 1 ∨ priority = 12 := by
      simp only [is_binary_level, decide_eq_true_eq, List.mem_cons, List.mem_singleton,
        List.not_mem_nil, or_false] at hb
      omega
    rcases hcases with rfl | rfl | rfl
    · show (match expression_priority_ skipper f 0 input with
        | .matched val rest =>
          repeat_updating
            (selector_subscript_or_call skipper f (expression_priority_ skipper f 15)
              (expression_priority_ skipper f 14)) f val rest
        | .no_match => .no_match
        | .expectation_failure => .expectation_failure
        | .out_of_fuel => .out_of_fuel) = _
      rw [hop, hn]
      exact repeat_updating_stop _ _ _ _ (selector_subscript_or_call_quiet _ _ _ _ _ _ hq)
    · exact hop
    · exact hop

theorem quiet_of_nil {skipper : List Char → List Char} {rest : List Char}
    (h : skipper rest = []) (priority : Nat) :
    ∀ op ∈ level_terminals priority, lit skipper op rest = .no_match := by
  intro op hop
  cases op with
  | nil =>
    exfalso
    unfold level_terminals at hop
    split at hop <;> simp at hop
  | cons c cs => exact lit_no_match_nil c cs h

theorem quiet_of_head {skipper : List Char → List Char} {rest tail : List Char} {x : Char}
    (h : skipper rest = x :: tail) (priority : Nat)
    (hx : ∀ op ∈ level_terminals priority, op.head? ≠ some x) :
    ∀ op ∈ level_terminals priority, lit skipper op rest = .no_match := by
  intro op hop
  cases op with
  | nil =>
    exfalso
    unfold level_terminals at hop
    split at hop <;> simp at hop
  | cons c cs =>
    apply lit_no_match_head cs h
    intro hxc
    exact hx _ hop (by simp [hxc])

theorem climb {skipper : List Char → List Char} {m priority : Nat}
    {input rest : List Char} {v : ast_node} (h : parses_to skipper m priority input v rest) :
    ∀ steps : Nat, priority + steps ≤ 15 →
      (∀ j : Nat, priority < j → j ≤ priority + steps →
        ∀ op ∈ level_terminals j, lit skipper op rest = .no_match) →
      parses_to skipper (m + steps) (priority + steps) input v rest := by
  intro steps
  induction steps with
  | zero => intro _ _; exact h
  | succ n ih =>
    intro hle hq
    have h1 := ih (by omega) (fun j hj1 hj2 => hq j hj1 (by omega))
    have hlt : priority + n < 15 := by omega
    exact climb_one h1 hlt (hq (priority + n + 1) (by omega) (by omega))

theorem loops_stop {skipper : List Char → List Char} {m priority : Nat} {val : ast_node}
    {rest : List Char} (hm : 1 ≤ m)
    (hq : ∀ op ∈ level_terminals (priority + 1), lit skipper op rest = .no_match) :
    loops_to skipper m priority val rest val rest := by
  intro fuel n _ hn
  obtain ⟨k, rfl⟩ : ∃ k, n = k + 1 := ⟨n - 1, by omega⟩
  exact repeat_updating_stop _ _ _ _ (binary_operator_round_quiet _ _ _ _ _ hq)

theorem loops_hit {skipper : List Char → List Char} {m priority : Nat}
    {val rhs last : ast_node} {rest rest1 rest2 rest3 : List Char} {op : List Char}
    (before after : List (List Char))
    (hops : level_terminals (priority + 1) = before ++ op :: after)
    (hbefore : ∀ o ∈ before, lit skipper o rest = .no_match)
    (hop : lit skipper op rest = .matched () rest1)
    (hrhs : parses_to skipper m priority rest1 rhs rest2)
    (hloop : loops_to skipper m priority (ast_node.binary_operator_expression val op rhs)
      rest2 last rest3) :
    loops_to skipper (m + 1) priority val rest last rest3 := by
  intro fuel n hf hn
  obtain ⟨k, rfl⟩ : ∃ k, n = k + 1 := ⟨n - 1, by omega⟩
  have hround : binary_operator_round skipper (expression_priority_ skipper fuel priority) val
      (level_terminals (priority + 1)) rest =
        .matched (ast_node.binary_operator_expression val op rhs) rest2 := by
    rw [hops]
    exact binary_operator_round_hit _ _ _ _ _ _ _ _ before after hbefore hop
      (hrhs fuel (by omega))
  rw [repeat_updating_step _ _ _ _ _ _ hround]
  exact hloop fuel k (by omega) (by omega)

theorem level_of_loops {skipper : List Char → List Char} {m priority : Nat}
    {val last : ast_node} {input rest rest1 : List Char}
    (hb : is_binary_level (priority + 1) = true)
    (h : parses_to skipper m priority input val rest)
    (hloop : loops_to skipper m priority val rest last rest1) :
    parses_to skipper (m + 1) (priority + 1) input last rest1 := by
  intro fuel hf
  obtain ⟨f, rfl⟩ : ∃ f, fuel = f + 1 := ⟨fuel - 1, by omega⟩
  rw [expression_priority_binary skipper f priority hb,
    binary_operator_level_of_operand _ _ _ _ _ _ _ (h f (by omega))]
  exact hloop f f (by omega) (by omega)

theorem loops_to_mono {skipper : List Char → List Char} {m m1 priority : Nat}
    {val last : ast_node} {rest rest1 : List Char}
    (h : loops_to skipper m priority val rest last rest1) (hm : m ≤ m1) :
    loops_to skipper m1 priority val rest last rest1 :=
  fun fuel n hf hn => h fuel n (by omega) (by omega)

/-! ## Supporting lemmas: the inputs `a + b * c`, `a * b + c`, `a - b - c` and `a < b == c` -/

theorem skipper_blank_operator {skipper : List Char → List Char} (hskip : blank_skipping skipper)
    {x : Char} (tail : List Char) (hx : x ∈ ['+', '-', '*', '<', '=']) :
    skipper (' ' :: x :: tail) = x :: tail := by
  rw [hskip.2.1, hskip.2.2 x tail (Or.inr hx)]

theorem quiet_below {skipper : List Char → List Char} {rest tail : List Char} {x : Char}
    (h : skipper rest = x :: tail) (top : Nat)
    (hx : ∀ j ≤ top, ∀ op ∈ level_terminals j, op.head? ≠ some x) :
    ∀ j : Nat, 0 < j → j ≤ 0 + top →
      ∀ op ∈ level_terminals j, lit skipper op rest = .no_match :=
  fun j _ hj => quiet_of_head h j (hx j (by omega))

theorem lit_operator {skipper : List Char → List Char} (hskip : blank_skipping skipper)
    {x : Char} (tail : List Char) (hx : x ∈ ['+', '-', '*', '<', '=']) :
    lit skipper [x] (' ' :: x :: tail) = .matched () tail := by
  rw [lit_of_skipped _ (skipper_blank_operator hskip tail hx)]
  simp [match_literal]

theorem climb_to_end {skipper : List Char → List Char} (hskip : blank_skipping skipper)
    {m priority : Nat} {input : List Char} {v : ast_node}
    (h : parses_to skipper m priority input v []) (hp : priority ≤ 15) :
    parses_to skipper (m + (15 - priority)) 15 input v [] := by
  have h1 := climb h (15 - priority) (by omega)
    (fun j _ _ => quiet_of_nil hskip.1 j)
  have h2 : priority + (15 - priority) = 15 := by omega
  rw [h2] at h1
  exact h1

theorem parse_plus_times {skipper : List Char → List Char} (hskip : blank_skipping skipper)
    {m : Nat} {sa sb sc : List Char} {a b c : ast_node}
    (ha : primary_operand skipper m sa a) (hb : primary_operand skipper m sb b)
    (hc : primary_operand skipper m sc c) :
    parses_to skipper (m + 17) 15
      (sa ++ ' ' :: '+' :: ' ' :: (sb ++ ' ' :: '*' :: ' ' :: sc))
      (ast_node.binary_operator_expression a ['+']
        (ast_node.binary_operator_expression b ['*'] c)) [] := by
  have hm : 1 ≤ m := parses_to_pos (ha [] (Or.inl rfl)).1
  -- the operand `c`
  have hc0 : parses_to skipper m 0 (' ' :: sc) c [] := by
    have := (hc [] (Or.inl rfl)).2
    rwa [List.append_nil] at this
  have hc2 := climb hc0 2 (by omega) (fun j _ _ => quiet_of_nil hskip.1 j)
  -- the operand `b`, followed by `* c`
  have hsb : skipper (' ' :: '*' :: ' ' :: sc) = '*' :: ' ' :: sc :=
    skipper_blank_operator hskip _ (by decide)
  have hb0 := (hb (' ' :: '*' :: ' ' :: sc) (Or.inr ⟨_, _, rfl, by decide⟩)).2
  have hb2 := climb hb0 2 (by omega) (quiet_below hsb 2 (by decide))
  have hbc : parses_to skipper (m + 4) 3 (' ' :: (sb ++ ' ' :: '*' :: ' ' :: sc))
      (ast_node.binary_operator_expression b ['*'] c) [] :=
    level_of_loops (by decide) (parses_to_mono hb2 (by omega))
      (loops_hit [] [['/'], ['%']] rfl (by simp) (lit_operator hskip _ (by decide)) hc2
        (loops_stop (by omega) (quiet_of_nil hskip.1 _)))
  -- the operand `a`, followed by `+ b * c`
  have hsa : skipper (' ' :: '+' :: ' ' :: (sb ++ ' ' :: '*' :: ' ' :: sc)) =
      '+' :: ' ' :: (sb ++ ' ' :: '*' :: ' ' :: sc) :=
    skipper_blank_operator hskip _ (by decide)
  have ha0 := (ha (' ' :: '+' :: ' ' :: (sb ++ ' ' :: '*' :: ' ' :: sc))
    (Or.inr ⟨_, _, rfl, by decide⟩)).1
  have ha3 := climb ha0 3 (by omega) (quiet_below hsa 3 (by decide))
  have hall : parses_to skipper (m + 6) 4
      (sa ++ ' ' :: '+' :: ' ' :: (sb ++ ' ' :: '*' :: ' ' :: sc))
      (ast_node.binary_operator_expression a ['+']
        (ast_node.binary_operator_expression b ['*'] c)) [] :=
    level_of_loops (by decide) (parses_to_mono ha3 (by omega))
      (loops_hit [] [['-']] rfl (by simp) (lit_operator hskip _ (by decide)) hbc
        (loops_stop (by omega) (quiet_of_nil hskip.1 _)))
  exact climb_to_end hskip hall (by omega)

theorem parse_times_plus {skipper : List Char → List Char} (hskip : blank_skipping skipper)
    {m : Nat} {sa sb sc : List Char} {a b c : ast_node}
    (ha : primary_operand skipper m sa a) (hb : primary_operand skipper m sb b)
    (hc : primary_operand skipper m sc c) :
    parses_to skipper (m + 17) 15
      (sa ++ ' ' :: '*' :: ' ' :: (sb ++ ' ' :: '+' :: ' ' :: sc))
      (ast_node.binary_operator_expression
        (ast_node.binary_operator_expression a ['*'] b) ['+'] c) [] := by
  have hm : 1 ≤ m := parses_to_pos (ha [] (Or.inl rfl)).1
  -- the operand `c`
  have hc0 : parses_to skipper m 0 (' ' :: sc) c [] := by
    have := (hc [] (Or.inl rfl)).2
    rwa [List.append_nil] at this
  have hc3 := climb hc0 3 (by omega) (fun j _ _ => quiet_of_nil hskip.1 j)
  -- the operand `b`, followed by `+ c`
  have hsb : skipper (' ' :: '+' :: ' ' :: sc) = '+' :: ' ' :: sc :=
    skipper_blank_operator hskip _ (by decide)
  have hb0 := (hb (' ' :: '+' :: ' ' :: sc) (Or.inr ⟨_, _, rfl, by decide⟩)).2
  have hb2 := climb hb0 2 (by omega) (quiet_below hsb 2 (by decide))
  -- the operand `a`, followed by `* b + c`
  have hsa : skipper (' ' :: '*' :: ' ' :: (sb ++ ' ' :: '+' :: ' ' :: sc)) =
      '*' :: ' ' :: (sb ++ ' ' :: '+' :: ' ' :: sc) :=
    skipper_blank_operator hskip _ (by decide)
  have ha0 := (ha (' ' :: '*' :: ' ' :: (sb ++ ' ' :: '+' :: ' ' :: sc))
    (Or.inr ⟨_, _, rfl, by decide⟩)).1
  have ha2 := climb ha0 2 (by omega) (quiet_below hsa 2 (by decide))
  have hab : parses_to skipper (m + 4) 3
      (sa ++ ' ' :: '*' :: ' ' :: (sb ++ ' ' :: '+' :: ' ' :: sc))
      (ast_node.binary_operator_expression a ['*'] b) (' ' :: '+' :: ' ' :: sc) :=
    level_of_loops (by decide) (parses_to_mono ha2 (by omega))
      (loops_hit [] [['/'], ['%']] rfl (by simp) (lit_operator hskip _ (by decide)) hb2
        (loops_stop (by omega) (quiet_of_head hsb 3 (by decide))))
  have hall : parses_to skipper (m + 6) 4
      (sa ++ ' ' :: '*' :: ' ' :: (sb ++ ' ' :: '+' :: ' ' :: sc))
      (ast_node.binary_operator_expression
        (ast_node.binary_operator_expression a ['*'] b) ['+'] c) [] :=
    level_of_loops (by decide) (parses_to_mono hab (by omega))
      (loops_hit [] [['-']] rfl (by simp) (lit_operator hskip _ (by decide))
        (parses_to_mono hc3 (by omega))
        (loops_stop (by omega) (quiet_of_nil hskip.1 _)))
  exact climb_to_end hskip hall (by omega)

theorem parse_minus_minus {skipper : List Char → List Char} (hskip : blank_skipping skipper)
    {m : Nat} {sa sb sc : List Char} {a b c : ast_node}
    (ha : primary_operand skipper m sa a) (hb : primary_operand skipper m sb b)
    (hc : primary_operand skipper m sc c) :
    parses_to skipper (m + 17) 15
      (sa ++ ' ' :: '-' :: ' ' :: (sb ++ ' ' :: '-' :: ' ' :: sc))
      (ast_node.binary_operator_expression
        (ast_node.binary_operator_expression a ['-'] b) ['-'] c) [] := by
  have hm : 1 ≤ m := parses_to_pos (ha [] (Or.inl rfl)).1
  -- the operand `c`
  have hc0 : parses_to skipper m 0 (' ' :: sc) c [] := by
    have := (hc [] (Or.inl rfl)).2
    rwa [List.append_nil] at this
  have hc3 := climb hc0 3 (by omega) (fun j _ _ => quiet_of_nil hskip.1 j)
  -- the operand `b`, followed by `- c`
  have hsb : skipper (' ' :: '-' :: ' ' :: sc) = '-' :: ' ' :: sc :=
    skipper_blank_operator hskip _ (by decide)
  have hb0 := (hb (' ' :: '-' :: ' ' :: sc) (Or.inr ⟨_, _, rfl, by decide⟩)).2
  have hb3 := climb hb0 3 (by omega) (quiet_below hsb 3 (by decide))
  -- the operand `a`, followed by `- b - c`
  have hsa : skipper (' ' :: '-' :: ' ' :: (sb ++ ' ' :: '-' :: ' ' :: sc)) =
      '-' :: ' ' :: (sb ++ ' ' :: '-' :: ' ' :: sc) :=
    skipper_blank_operator hskip _ (by decide)
  have ha0 := (ha (' ' :: '-' :: ' ' :: (sb ++ ' ' :: '-' :: ' ' :: sc))
    (Or.inr ⟨_, _, rfl, by decide⟩)).1
  have ha3 := climb ha0 3 (by omega) (quiet_below hsa 3 (by decide))
  have hplus : ∀ tail : List Char, ∀ o ∈ [['+']], lit skipper o (' ' :: '-' :: tail) =
      .no_match := by
    intro tail o ho
    rw [List.mem_singleton] at ho
    subst ho
    exact lit_no_match_head [] (skipper_blank_operator hskip tail (by decide)) (by decide)
  have hall : parses_to skipper (m + 6) 4
      (sa ++ ' ' :: '-' :: ' ' :: (sb ++ ' ' :: '-' :: ' ' :: sc))
      (ast_node.binary_operator_expression
        (ast_node.binary_operator_expression a ['-'] b) ['-'] c) [] :=
    level_of_loops (by decide) (parses_to_mono ha3 (by omega))
      (loops_hit [['+']] [] rfl (hplus _) (lit_operator hskip _ (by decide))
        (parses_to_mono hb3 (by omega))
        (loops_hit [['+']] [] rfl (hplus _) (lit_operator hskip _ (by decide))
          hc3
          (loops_stop (by omega) (quiet_of_nil hskip.1 _))))
  exact climb_to_end hskip hall (by omega)

theorem parse_less_equal {skipper : List Char → List Char} (hskip : blank_skipping skipper)
    {m : Nat} {sa sb sc : List Char} {a b c : ast_node}
    (ha : primary_operand skipper m sa a) (hb : primary_operand skipper m sb b)
    (hc : primary_operand skipper m sc c) :
    parses_to skipper (m + 17) 15
      (sa ++ ' ' :: '<' :: ' ' :: (sb ++ ' ' :: '=' :: '=' :: ' ' :: sc))
      (ast_node.binary_operator_expression
        (ast_node.binary_operator_expression a ['<'] b) ['=', '='] c) [] := by
  have hm : 1 ≤ m := parses_to_pos (ha [] (Or.inl rfl)).1
  -- the operand `c`
  have hc0 : parses_to skipper m 0 (' ' :: sc) c [] := by
    have := (hc [] (Or.inl rfl)).2
    rwa [List.append_nil] at this
  have hc6 := climb hc0 6 (by omega) (fun j _ _ => quiet_of_nil hskip.1 j)
  -- the operand `b`, followed by `== c`
  have hsb : skipper (' ' :: '=' :: '=' :: ' ' :: sc) = '=' :: '=' :: ' ' :: sc :=
    skipper_blank_operator hskip _ (by decide)
  have hb0 := (hb (' ' :: '=' :: '=' :: ' ' :: sc) (Or.inr ⟨_, _, rfl, by decide⟩)).2
  have hb5 := climb hb0 5 (by omega) (quiet_below hsb 5 (by decide))
  -- the operand `a`, followed by `< b == c`
  have hsa : skipper (' ' :: '<' :: ' ' :: (sb ++ ' ' :: '=' :: '=' :: ' ' :: sc)) =
      '<' :: ' ' :: (sb ++ ' ' :: '=' :: '=' :: ' ' :: sc) :=
    skipper_blank_operator hskip _ (by decide)
  have ha0 := (ha (' ' :: '<' :: ' ' :: (sb ++ ' ' :: '=' :: '=' :: ' ' :: sc))
    (Or.inr ⟨_, _, rfl, by decide⟩)).1
  have ha4 := climb ha0 4 (by omega) (quiet_below hsa 4 (by decide))
  have hshift : ∀ op ∈ level_terminals 5,
      lit skipper op (' ' :: '<' :: ' ' :: (sb ++ ' ' :: '=' :: '=' :: ' ' :: sc)) =
        .no_match := by
    intro op hop
    simp only [level_terminals, List.mem_cons, List.mem_singleton, List.not_mem_nil,
      or_false] at hop
    rcases hop with rfl | rfl
    · rw [lit_of_skipped _ hsa]
      simp [match_literal]
    · exact lit_no_match_head _ hsa (by decide)
  have ha5 : parses_to skipper (m + 5) 5
      (sa ++ ' ' :: '<' :: ' ' :: (sb ++ ' ' :: '=' :: '=' :: ' ' :: sc)) a
      (' ' :: '<' :: ' ' :: (sb ++ ' ' :: '=' :: '=' :: ' ' :: sc)) :=
    climb_one ha4 (by omega) hshift
  have hab : parses_to skipper (m + 7) 6
      (sa ++ ' ' :: '<' :: ' ' :: (sb ++ ' ' :: '=' :: '=' :: ' ' :: sc))
      (ast_node.binary_operator_expression a ['<'] b) (' ' :: '=' :: '=' :: ' ' :: sc) :=
    level_of_loops (by decide) (parses_to_mono ha5 (by omega))
      (loops_hit [] [['<', '='], ['>'], ['>', '=']] rfl (by simp)
        (lit_operator hskip _ (by decide)) hb5
        (loops_stop (by omega) (quiet_of_head hsb 6 (by decide))))
  have hequal : lit skipper ['=', '='] (' ' :: '=' :: '=' :: ' ' :: sc) =
      .matched () (' ' :: sc) := by
    rw [lit_of_skipped _ hsb]
    simp [match_literal]
  have hall : parses_to skipper (m + 9) 7
      (sa ++ ' ' :: '<' :: ' ' :: (sb ++ ' ' :: '=' :: '=' :: ' ' :: sc))
      (ast_node.binary_operator_expression
        (ast_node.binary_operator_expression a ['<'] b) ['=', '='] c) [] :=
    level_of_loops (by decide) (parses_to_mono hab (by omega))
      (loops_hit [] [['!', '=']] rfl (by simp) hequal
        (parses_to_mono hc6 (by omega))
        (loops_stop (by omega) (quiet_of_nil hskip.1 _)))
  exact climb_to_end hskip hall (by omega)

/-! ## Supporting lemmas: a native symbol as a primary expression -/

theorem symbol_tail_split (tail rest : List Char) (hall : tail.all symbol_tail = true)
    (hrest : ∀ (x : Char) (t : List Char), rest = x :: t → symbol_tail x = false) :
    (tail ++ rest).takeWhile symbol_tail = tail ∧
      (tail ++ rest).dropWhile symbol_tail = rest := by
  induction tail with
  | nil =>
    cases rest with
    | nil => exact ⟨rfl, rfl⟩
    | cons x t =>
      have hx := hrest x t rfl
      simp [List.takeWhile, List.dropWhile, hx]
  | cons d tail ih =>
    simp only [List.all_cons, Bool.and_eq_true] at hall
    obtain ⟨h1, h2⟩ := ih hall.2
    simp [List.takeWhile, List.dropWhile, hall.1, h1, h2]

theorem follows_operand_not_symbol {rest : List Char} (h : follows_operand rest) :
    ∀ (x : Char) (t : List Char), rest = x :: t → symbol_tail x = false := by
  intro x t hx
  rcases h with h | ⟨c, tail, h, _⟩
  · rw [h] at hx
    cases hx
  · rw [h] at hx
    simp only [List.cons.injEq] at hx
    rw [← hx.1]
    decide

theorem lit_after_operand {skipper : List Char → List Char} (hskip : blank_skipping skipper)
    {rest : List Char} (h : follows_operand rest) (c : Char) (cs : List Char)
    (hc : c ∉ ['+', '-', '*', '<', '=']) : lit skipper (c :: cs) rest = .no_match := by
  rcases h with h | ⟨x, tail, h, hx⟩
  · rw [h]
    exact lit_no_match_nil c cs hskip.1
  · rw [h]
    apply lit_no_match_head cs (skipper_blank_operator hskip tail hx)
    intro hxc
    rw [hxc] at hx
    exact hc hx

theorem primary_of_native_symbol {skipper : List Char → List Char}
    (hskip : blank_skipping skipper) (fuel : Nat) (c : Char) (tail rest input : List Char)
    (hc : symbol_head c = true) (htail : tail.all symbol_tail = true)
    (hrest : follows_operand rest) (hinput : skipper input = c :: (tail ++ rest)) :
    expression_priority_ skipper (fuel + 1) 0 input =
      .matched (ast_node.term_expression (ast_node.identifier_value (c :: tail) false))
        rest := by
  have hdot : lit skipper ['.'] input = .no_match := by
    apply lit_no_match_head [] hinput
    intro h
    rw [h] at hc
    revert hc
    decide
  have hsym : native_symbol_string_ skipper input = .matched (c :: tail) rest := by
    obtain ⟨h1, h2⟩ := symbol_tail_split tail rest htail (follows_operand_not_symbol hrest)
    simp only [native_symbol_string_, hinput, hc, if_true, h1, h2]
  have hbang : lit skipper ['!'] rest = .no_match :=
    lit_after_operand hskip hrest _ _ (by decide)
  show primary_expression_ skipper fuel (expression_priority_ skipper fuel 15)
    (expression_priority_ skipper fuel 14) input = _
  simp only [primary_expression_, alternative, with_action, sequence,
    template_instance_with_root_, template_instance_, identifier_with_root_, identifier_,
    hdot, hsym, hbang]

theorem native_symbol_is_primary_operand {skipper : List Char → List Char}
    (hskip : blank_skipping skipper) (name : List Char) (h : is_native_symbol name = true) :
    primary_operand skipper 1 name
      (ast_node.term_expression (ast_node.identifier_value name false)) := by
  cases name with
  | nil => simp [is_native_symbol] at h
  | cons c tail =>
    simp only [is_native_symbol, Bool.and_eq_true] at h
    intro rest hrest
    have hsk : skipper ((c :: tail) ++ rest) = c :: (tail ++ rest) :=
      hskip.2.2 c (tail ++ rest) (Or.inl h.1)
    constructor
    · intro fuel hf
      obtain ⟨f, rfl⟩ : ∃ f, fuel = f + 1 := ⟨fuel - 1, by omega⟩
      exact primary_of_native_symbol hskip f c tail rest _ h.1 h.2 hrest hsk
    · intro fuel hf
      obtain ⟨f, rfl⟩ : ∃ f, fuel = f + 1 := ⟨fuel - 1, by omega⟩
      exact primary_of_native_symbol hskip f c tail rest _ h.1 h.2 hrest
        (by rw [hskip.2.1]; exact hsk)

theorem blank_skipper_blank_skipping : blank_skipping blank_skipper := by
  refine ⟨rfl, fun s => ?_, fun c s hc => ?_⟩
  · simp [blank_skipper]
  · have hne : c ≠ ' ' := by
      intro h
      rw [h] at hc
      revert hc
      decide
    simp [blank_skipper, hne]

/-! ## Precedence and associativity of the binary operators -/

/-- C39: precedence and associativity in the expression grammar.  Let the
skipper skip blanks and stop at an operator character, and let the texts `sa`,
`sb`, `sc` be primary operands with the nodes `a`, `b`, `c`: texts that the
primary expression rule consumes as a whole in front of a blank and an
operator, or of the end of the input.  Then `expression_` consumes the whole
input and gives
`+(a, *(b, c))` on `a + b * c`, `+(*(a, b), c)` on `a * b + c`,
`-(-(a, b), c)` on `a - b - c` and `==(<(a, b), c)` on `a < b == c`,
for every bound on the nesting that is large enough: the operator of the lower
priority number binds tighter, and operators of one level associate to the
left. -/
theorem binary_operators_precedence_and_left_associativity
    (skipper : List Char → List Char) (m : Nat) (sa sb sc : List Char) (a b c : ast_node)
    (fuel : Nat) (hskip : blank_skipping skipper) (ha : primary_operand skipper m sa a)
    (hb : primary_operand skipper m sb b) (hc : primary_operand skipper m sc c)
    (hfuel : m + 17 ≤ fuel) :
    expression_ skipper fuel (sa ++ ' ' :: '+' :: ' ' :: (sb ++ ' ' :: '*' :: ' ' :: sc)) =
        .matched
          (ast_node.binary_operator_expression a ['+']
            (ast_node.binary_operator_expression b ['*'] c)) [] ∧
      expression_ skipper fuel (sa ++ ' ' :: '*' :: ' ' :: (sb ++ ' ' :: '+' :: ' ' :: sc)) =
        .matched
          (ast_node.binary_operator_expression
            (ast_node.binary_operator_expression a ['*'] b) ['+'] c) [] ∧
      expression_ skipper fuel (sa ++ ' ' :: '-' :: ' ' :: (sb ++ ' ' :: '-' :: ' ' :: sc)) =
        .matched
          (ast_node.binary_operator_expression
            (ast_node.binary_operator_expression a ['-'] b) ['-'] c) [] ∧
      expression_ skipper fuel
          (sa ++ ' ' :: '<' :: ' ' :: (sb ++ ' ' :: '=' :: '=' :: ' ' :: sc)) =
        .matched
          (ast_node.binary_operator_expression
            (ast_node.binary_operator_expression a ['<'] b) ['=', '='] c) [] :=
  ⟨parse_plus_times hskip ha hb hc fuel hfuel, parse_times_plus hskip ha hb hc fuel hfuel,
    parse_minus_minus hskip ha hb hc fuel hfuel, parse_less_equal hskip ha hb hc fuel hfuel⟩

/-- A concrete instance: the operands are the identifiers `a`, `b` and `c`, and
the skipper drops blanks. -/
theorem binary_operators_precedence_and_left_associativity_witness :
    expression_ blank_skipper 18 ['a', ' ', '+', ' ', 'b', ' ', '*', ' ', 'c'] =
        .matched
          (ast_node.binary_operator_expression
            (ast_node.term_expression (ast_node.identifier_value ['a'] false)) ['+']
            (ast_node.binary_operator_expression
              (ast_node.term_expression (ast_node.identifier_value ['b'] false)) ['*']
              (ast_node.term_expression (ast_node.identifier_value ['c'] false)))) [] ∧
      expression_ blank_skipper 18 ['a', ' ', '-', ' ', 'b', ' ', '-', ' ', 'c'] =
        .matched
          (ast_node.binary_operator_expression
            (ast_node.binary_operator_expression
              (ast_node.term_expression (ast_node.identifier_value ['a'] false)) ['-']
              (ast_node.term_expression (ast_node.identifier_value ['b'] false))) ['-']
            (ast_node.term_expression (ast_node.identifier_value ['c'] false))) [] :=
  ⟨(binary_operators_precedence_and_left_associativity blank_skipper 1 ['a'] ['b'] ['c']
      _ _ _ 18 blank_skipper_blank_skipping
      (native_symbol_is_primary_operand blank_skipper_blank_skipping ['a'] rfl)
      (native_symbol_is_primary_operand blank_skipper_blank_skipping ['b'] rfl)
      (native_symbol_is_primary_operand blank_skipper_blank_skipping ['c'] rfl)
      (by decide)).1,
    (binary_operators_precedence_and_left_associativity blank_skipper 1 ['a'] ['b'] ['c']
      _ _ _ 18 blank_skipper_blank_skipping
      (native_symbol_is_primary_operand blank_skipper_blank_skipping ['a'] rfl)
      (native_symbol_is_primary_operand blank_skipper_blank_skipping ['b'] rfl)
      (native_symbol_is_primary_operand blank_skipper_blank_skipping ['c'] rfl)
      (by decide)).2.2.1⟩

/-! ## The primary expression on `true` and `false` -/

/-- C40: the primary expression rule on the inputs `true` and `false`.  For a
skipper that stops at a letter, the rule gives the identifier node of the
name `true`, respectively `false`, and consumes the input: the alternative
`identifier_` stands before `boolean_literal_` in the ordered choice and
`native_symbol_string_` matches both words.  The same holds for every text
that `native_symbol_string_` matches as a whole, and `expression_` gives the
same nodes.  The rule `boolean_literal_` by itself gives the boolean literal
nodes on these inputs, but the primary expression rule never reaches it. -/
theorem true_and_false_parse_to_identifiers (skipper : List Char → List Char) (fuel : Nat)
    (hskip : blank_skipping skipper) :
    expression_priority_ skipper (fuel + 1) 0 ['t', 'r', 'u', 'e'] =
        .matched
          (ast_node.term_expression (ast_node.identifier_value ['t', 'r', 'u', 'e'] false))
          [] ∧
      expression_priority_ skipper (fuel + 1) 0 ['f', 'a', 'l', 's', 'e'] =
        .matched
          (ast_node.term_expression
            (ast_node.identifier_value ['f', 'a', 'l', 's', 'e'] false)) [] ∧
      expression_priority_ skipper (fuel + 1) 0 ['t', 'r', 'u', 'e'] ≠
        .matched (ast_node.term_expression (ast_node.boolean_value true)) [] ∧
      expression_priority_ skipper (fuel + 1) 0 ['f', 'a', 'l', 's', 'e'] ≠
        .matched (ast_node.term_expression (ast_node.boolean_value false)) [] ∧
      expression_ skipper (fuel + 16) ['t', 'r', 'u', 'e'] =
        .matched
          (ast_node.term_expression (ast_node.identifier_value ['t', 'r', 'u', 'e'] false))
          [] ∧
      expression_ skipper (fuel + 16) ['f', 'a', 'l', 's', 'e'] =
        .matched
          (ast_node.term_expression
            (ast_node.identifier_value ['f', 'a', 'l', 's', 'e'] false)) [] ∧
      (∀ name : List Char, is_native_symbol name = true →
        expression_priority_ skipper (fuel + 1) 0 name =
          .matched (ast_node.term_expression (ast_node.identifier_value name false)) []) ∧
      boolean_literal_ skipper ['t', 'r', 'u', 'e'] =
        .matched (ast_node.boolean_value true) [] ∧
      boolean_literal_ skipper ['f', 'a', 'l', 's', 'e'] =
        .matched (ast_node.boolean_value false) [] := by
  have hname : ∀ name : List Char, is_native_symbol name = true →
      parses_to skipper 1 0 name
        (ast_node.term_expression (ast_node.identifier_value name false)) [] := by
    intro name hn
    have h := (native_symbol_is_primary_operand hskip name hn [] (Or.inl rfl)).1
    rwa [List.append_nil] at h
  have ht := hname ['t', 'r', 'u', 'e'] rfl
  have hf := hname ['f', 'a', 'l', 's', 'e'] rfl
  have hst : skipper ['t', 'r', 'u', 'e'] = ['t', 'r', 'u', 'e'] :=
    hskip.2.2 _ _ (Or.inl rfl)
  have hsf : skipper ['f', 'a', 'l', 's', 'e'] = ['f', 'a', 'l', 's', 'e'] :=
    hskip.2.2 _ _ (Or.inl rfl)
  refine ⟨ht _ (by omega), hf _ (by omega), ?_, ?_, ?_, ?_, fun name hn => hname name hn _
    (by omega), ?_, ?_⟩
  · rw [ht _ (by omega)]
    intro h
    cases h
  · rw [hf _ (by omega)]
    intro h
    cases h
  · exact climb_to_end hskip ht (by omega) _ (by omega)
  · exact climb_to_end hskip hf (by omega) _ (by omega)
  · simp only [boolean_literal_, alternative, with_action, lit_of_skipped _ hst]
    simp [match_literal]
  · simp only [boolean_literal_, alternative, with_action, lit_of_skipped _ hsf]
    simp [match_literal]

/-- A concrete instance: the skipper drops blanks. -/
theorem true_and_false_parse_to_identifiers_witness :
    expression_priority_ blank_skipper 1 0 ['t', 'r', 'u', 'e'] =
        .matched
          (ast_node.term_expression (ast_node.identifier_value ['t', 'r', 'u', 'e'] false))
          [] ∧
      expression_priority_ blank_skipper 1 0 ['f', 'a', 'l', 's', 'e'] =
        .matched
          (ast_node.term_expression
            (ast_node.identifier_value ['f', 'a', 'l', 's', 'e'] false)) [] :=
  ⟨(true_and_false_parse_to_identifiers blank_skipper 0 blank_skipper_blank_skipping).1,
    (true_and_false_parse_to_identifiers blank_skipper 0 blank_skipper_blank_skipping).2.1⟩


end rill
